import Mathlib

/-!
# Verification of the combustion-experiment record codec

A shallow embedding of the XML decoder (`src/appv2.py`, class `XMLParser` and
`validate_xml_structure`) and the XML encoder (`src/appv1.py`,
`create_enhanced_xml`) of the combustion-data-manager repository, together
with proofs about the claims of its specification.

XML documents are modelled as element trees in the style of Python's
`xml.etree.ElementTree`: an element has a tag, an attribute list, an optional
text (the text before the first child; `Option.none` models Python `None`),
and a list of children.  A document that is not well-formed XML is modelled
as the `Except.error` branch of a parse result, mirroring `ET.ParseError`.

Python dynamic values occurring in decoded records are modelled by `PyVal`
(a float, a string, or `None`); machine floats are modelled by rationals,
and `float(...)` string conversion is modelled by `pyFloat?`, which follows
Python's decimal/exponent grammar (special forms such as `inf`, `nan` and
digit-group underscores are not modelled; no claim involves them).
-/

namespace Combustion

/-- A value of Python's dynamic type as it occurs in decoded records:
a float (modelled as a rational), a string, or `None`. -/
inductive PyVal : Type where
  | num (q : ℚ)
  | str (s : String)
  | nil
deriving DecidableEq, Repr

/-- An XML element: tag, attribute list, text (before the first child), and
child elements, as in `xml.etree.ElementTree`. -/
inductive Elem : Type where
  | node (tag : String) (attrs : List (String × String)) (text : Option String)
      (children : List Elem)

/-- The tag of an element. -/
def Elem.tag : Elem → String
  | .node t _ _ _ => t

/-- The attribute list of an element. -/
def Elem.attrs : Elem → List (String × String)
  | .node _ a _ _ => a

/-- The text of an element (`None` when absent). -/
def Elem.text : Elem → Option String
  | .node _ _ tx _ => tx

/-- The children of an element. -/
def Elem.children : Elem → List Elem
  | .node _ _ _ cs => cs

/-- `e.get(k)`: the value of attribute `k`, if present. -/
def Elem.attr? (e : Elem) (k : String) : Option String :=
  e.attrs.lookup k

/-- `e.get(k, d)`: the value of attribute `k`, defaulting to `d`. -/
def Elem.getAttr (e : Elem) (k d : String) : String :=
  (e.attrs.lookup k).getD d

/-- `e.find(t)`: the first direct child with tag `t`. -/
def Elem.find (e : Elem) (t : String) : Option Elem :=
  e.children.find? (fun c => c.tag == t)

/-- `e.findall(t)`: all direct children with tag `t`, in order. -/
def Elem.findall (e : Elem) (t : String) : List Elem :=
  e.children.filter (fun c => c.tag == t)

mutual

/-- All proper descendants of an element, in document (preorder) order.
This is what `e.findall('.//tag')` ranges over in ElementTree. -/
def Elem.descendants : Elem → List Elem
  | .node _ _ _ cs => descendantsList cs
termination_by structural e => e

/-- All elements of the list together with their descendants, preorder. -/
def descendantsList : List Elem → List Elem
  | [] => []
  | c :: cs => c :: Elem.descendants c ++ descendantsList cs
termination_by structural l => l

end

mutual

/-- Structural decidable equality of elements. -/
def elemDecEq : (a b : Elem) → Decidable (a = b)
  | .node t1 a1 x1 c1, .node t2 a2 x2 c2 =>
      if h1 : t1 = t2 then
        if h2 : a1 = a2 then
          if h3 : x1 = x2 then
            match elemListDecEq c1 c2 with
            | isTrue h4 => isTrue (by rw [h1, h2, h3, h4])
            | isFalse h4 => isFalse (by intro hc; injection hc; contradiction)
          else isFalse (by intro hc; injection hc; contradiction)
        else isFalse (by intro hc; injection hc; contradiction)
      else isFalse (by intro hc; injection hc; contradiction)
termination_by structural a => a

/-- Structural decidable equality of element lists. -/
def elemListDecEq : (a b : List Elem) → Decidable (a = b)
  | [], [] => isTrue rfl
  | [], _ :: _ => isFalse (by intro hc; cases hc)
  | _ :: _, [] => isFalse (by intro hc; cases hc)
  | x :: xs, y :: ys =>
      match elemDecEq x y with
      | isTrue h1 =>
          match elemListDecEq xs ys with
          | isTrue h2 => isTrue (by rw [h1, h2])
          | isFalse h2 => isFalse (by intro hc; injection hc; contradiction)
      | isFalse h1 => isFalse (by intro hc; injection hc; contradiction)
termination_by structural a => a

end

instance : DecidableEq Elem := elemDecEq

/-- Python whitespace (the ASCII characters stripped by `str.strip()` and
accepted around a `float` literal). -/
def pyWS (c : Char) : Bool :=
  c == ' ' || c == '\t' || c == '\n' || c == '\r' || c == '\x0b' || c == '\x0c'

/-- Python `s.strip()`: remove leading and trailing whitespace. -/
def pyStrip (s : String) : String :=
  String.mk (((s.data.dropWhile pyWS).reverse.dropWhile pyWS).reverse)

/-- The helper `XMLParser._get_text(parent, tag)`: the stripped text of the
first child with the given tag when that text is present and non-empty
(Python truthiness), else the default `""`. -/
def getText (parent : Elem) (t : String) : String :=
  match parent.find t with
  | some e =>
      match e.text with
      | some s => if s ≠ "" then pyStrip s else ""
      | none => ""
  | none => ""

/-! ## Model of Python `float(...)` on strings -/

/-- Numeric value of a digit string, most significant first. -/
def digitsVal (l : List Char) : ℕ :=
  l.foldl (fun n c => 10 * n + (c.toNat - 48)) 0

/-- A non-empty all-digit character list. -/
def allDigits (l : List Char) : Bool :=
  decide (l ≠ []) && l.all (·.isDigit)

/-- Strip an optional leading sign; `true` means negative. -/
def splitSign : List Char → Bool × List Char
  | '+' :: r => (false, r)
  | '-' :: r => (true, r)
  | r => (false, r)

/-- Parse an unsigned decimal mantissa: `digits`, `digits.digits?`, or
`.digits`, as accepted by Python's `float`; the result is the pair of the
combined digit value and the number of fractional digits (so the mantissa
value is `v / 10 ^ k`). -/
def parseMantissa (l : List Char) : Option (ℕ × ℕ) :=
  let ip := l.takeWhile (fun c => c != '.')
  let rest := l.dropWhile (fun c => c != '.')
  match rest with
  | [] => if allDigits ip then some (digitsVal ip, 0) else none
  | _ :: fp =>
      if (ip.all (·.isDigit)) && (fp.all (·.isDigit)) &&
          (decide (ip ≠ []) || decide (fp ≠ [])) then
        some (digitsVal ip * 10 ^ fp.length + digitsVal fp, fp.length)
      else none

/-- Model of Python `float(s)` on strings: `some q` when `s` parses as a
floating-point literal (after stripping surrounding whitespace), else
`none` (the call raises `ValueError`).  The value is the exact rational the
literal denotes, assembled with a single `mkRat`. -/
def pyFloat? (s : String) : Option ℚ :=
  let l := (pyStrip s).data
  let mant := l.takeWhile (fun c => c != 'e' && c != 'E')
  let rest := l.dropWhile (fun c => c != 'e' && c != 'E')
  let sm := splitSign mant
  match parseMantissa sm.2 with
  | none => none
  | some md =>
      let sgn : ℤ := if sm.1 then -1 else 1
      match rest with
      | [] => some (mkRat (sgn * md.1) (10 ^ md.2))
      | _ :: ex =>
          let se := splitSign ex
          if allDigits se.2 then
            (if se.1 then some (mkRat (sgn * md.1) (10 ^ (md.2 + digitsVal se.2)))
             else some (mkRat (sgn * (md.1 * 10 ^ digitsVal se.2)) (10 ^ md.2)))
          else none

/-- `try: v = float(t) except (ValueError, TypeError): v = t` applied to an
optional element text: a missing text stays `None`, a parsable text becomes
a number, any other text is kept as a string. -/
def coerceText (t : Option String) : PyVal :=
  match t with
  | none => .nil
  | some s =>
      match pyFloat? s with
      | some q => .num q
      | none => .str s

/-- An optional element text taken verbatim as a Python value (no numeric
coercion attempted). -/
def rawText (t : Option String) : PyVal :=
  match t with
  | none => .nil
  | some s => .str s

/-- Python `s.startswith('_')` on the first character. -/
def startsWithUnderscore (s : String) : Bool :=
  match s.data with
  | [] => false
  | c :: _ => c == '_'

/-- Python `s.replace(a, b)` for single-character `a` and `b`. -/
def replaceChar (a b : Char) (s : String) : String :=
  String.mk (s.data.map (fun c => if c == a then b else c))

/-- Python-dict assignment `d[k] = v` on an insertion-ordered association
list: an existing binding is updated in place, a new key is appended. -/
def dictSet {α : Type} (d : List (String × α)) (k : String) (v : α) :
    List (String × α) :=
  match d with
  | [] => [(k, v)]
  | (k', v') :: rest =>
      if k' = k then (k, v) :: rest else (k', v') :: dictSet rest k v

/-! ## The decoder: `XMLParser` of `src/appv2.py` -/

/-- A scalar common property, the dict `{'value': ..., 'units': ..., 'name': ...}`
built by `parse_common_properties`. -/
structure PropVal : Type where
  value : PyVal
  units : String
  name : String
deriving DecidableEq, Repr

/-- One species of the initial composition, the dict
`{'amount': ..., 'units': ...}`. -/
structure CompVal : Type where
  amount : ℚ
  units : String
deriving DecidableEq, Repr

/-- A value of the heterogeneous `common_properties` dict: a scalar property
or (under the key `"initial_composition"`) the composition mapping. -/
inductive CPEntry : Type where
  | scalar (v : PropVal)
  | comp (m : List (String × CompVal))
deriving DecidableEq, Repr

/-- `float(amount.text) if amount.text else 0`: a missing or empty text gives
`0`; a non-empty text must parse as a float or the decode raises
`ValueError`. -/
def amountValue (am : Elem) : Except String ℚ :=
  match am.text with
  | none => .ok 0
  | some s =>
      if s = "" then .ok 0
      else
        match pyFloat? s with
        | some q => .ok q
        | none => .error ("could not convert string to float: " ++ s)

/-- The component loop of `parse_common_properties`: a component that lacks a
`speciesLink` child or an `amount` child is skipped; otherwise its species
key is bound (last wins) to its amount and units. -/
def parseComponents (cs : List Elem) : Except String (List (String × CompVal)) :=
  cs.foldlM
    (fun acc c =>
      match c.find "speciesLink", c.find "amount" with
      | some sl, some am => do
          let q ← amountValue am
          pure (dictSet acc (sl.getAttr "preferredKey" "") ⟨q, am.getAttr "units" ""⟩)
      | _, _ => pure acc)
    []

/-- The generic per-property body of `parse_common_properties`: the binding
key (label if non-empty, else name) and the scalar value. -/
def parseCommonProp (p : Elem) : String × PropVal :=
  let name := p.getAttr "name" ""
  let label := p.getAttr "label" ""
  let units := p.getAttr "units" ""
  let value :=
    match p.find "value" with
    | some ve => coerceText ve.text
    | none => rawText p.text
  (if label ≠ "" then label else name, ⟨value, units, name⟩)

/-- `XMLParser.parse_common_properties`: the generic loop over the direct
`property` children of `commonProperties`, followed by decoding of the
initial composition located by
`find(".//property[@name='initial composition']")`. -/
def parse_common_properties (root : Elem) :
    Except String (List (String × CPEntry)) :=
  match root.find "commonProperties" with
  | none => .ok []
  | some cp =>
      let base := (cp.findall "property").foldl
        (fun d p =>
          let kv := parseCommonProp p
          dictSet d kv.1 (.scalar kv.2))
        []
      match (descendantsList cp.children).find?
          (fun e => e.tag == "property" && e.attr? "name" == some "initial composition") with
      | none => .ok base
      | some ic =>
          match parseComponents (ic.findall "component") with
          | .error msg => .error msg
          | .ok m => .ok (dictSet base "initial_composition" (.comp m))

/-- A declared column of a data group, the `prop_info` dict of
`parse_datagroups` (including the derived `column_name`). -/
structure PropInfo : Type where
  id : Option String
  name : String
  label : String
  units : String
  species : Option String
  column_name : String
deriving DecidableEq, Repr

/-- The per-property body of `parse_datagroups`: attribute extraction,
species link, and derivation of `column_name`. -/
def parsePropInfo (p : Elem) : PropInfo :=
  let pid := p.attr? "id"
  let name := p.getAttr "name" ""
  let label := p.getAttr "label" ""
  let units := p.getAttr "units" ""
  match p.find "speciesLink" with
  | some sl =>
      let key := sl.getAttr "preferredKey" ""
      ⟨pid, name, label, units, some key, key ++ " (" ++ units ++ ")"⟩
  | none =>
      let cn :=
        if label ≠ "" then
          (if units ≠ "" then label ++ " (" ++ units ++ ")" else label)
        else
          (if units ≠ "" then name ++ " (" ++ units ++ ")" else name)
      ⟨pid, name, label, units, none, cn⟩

/-- One decoded data point: for every child whose tag is a key of
`property_map`, the coerced text stored under that property's
`column_name` (a Python dict, insertion-ordered, last write wins). -/
def parsePoint (pm : List (Option String × PropInfo)) (dp : Elem) :
    List (String × PyVal) :=
  dp.children.foldl
    (fun pd child =>
      match pm.lookup (some child.tag) with
      | some info => dictSet pd info.column_name (coerceText child.text)
      | none => pd)
    []

/-- Python-dict assignment keyed by an optional property id (the decoder
uses `prop.get('id')`, which can be `None`). -/
def pmSet (d : List (Option String × PropInfo)) (k : Option String)
    (v : PropInfo) : List (Option String × PropInfo) :=
  match d with
  | [] => [(k, v)]
  | (k', v') :: rest =>
      if k' = k then (k, v) :: rest else (k', v') :: pmSet rest k v

/-- Column list of `pd.DataFrame(rows)` built from a list of dicts: the keys
in order of first appearance across the rows. -/
def dfColumns (rows : List (List (String × PyVal))) : List String :=
  rows.foldl
    (fun cols row =>
      row.foldl (fun cs kv => if cs.contains kv.1 then cs else cs ++ [kv.1]) cols)
    []

/-- The reconstructed table of a data group: final column order and the
decoded rows. -/
structure Table : Type where
  columns : List String
  rows : List (List (String × PyVal))
deriving DecidableEq, Repr

/-- The `statistics` dict of a data group. -/
structure Stats : Type where
  num_points : ℕ
  columns : List String
  shape : ℕ × ℕ
deriving DecidableEq, Repr

/-- A decoded data group, the `dg_data` dict of `parse_datagroups`. -/
structure DgData : Type where
  id : String
  label : String
  properties : List PropInfo
  property_map : List (Option String × PropInfo)
  datapoints : List (List (String × PyVal))
  data_df : Option Table
  statistics : Option Stats
deriving DecidableEq, Repr

/-- The property loop of `parse_datagroups`: one pass over the declared
`property` children building the `property_map` dict, the `column_order`
list of property ids, and the `properties` list, in that order. -/
def dgPropState (ps : List Elem) :
    List (Option String × PropInfo) × List (Option String) × List PropInfo :=
  ps.foldl
    (fun st p =>
      let info := parsePropInfo p
      (pmSet st.1 info.id info, st.2.1 ++ [info.id], st.2.2 ++ [info]))
    ([], [], [])

/-- The data-point loop of `parse_datagroups`: each point becomes a row dict;
rows with zero recognized fields are dropped. -/
def dgRows (pm : List (Option String × PropInfo)) (dps : List Elem) :
    List (List (String × PyVal)) :=
  dps.foldl
    (fun rs dp =>
      let pd := parsePoint pm dp
      if pd.isEmpty then rs else rs ++ [pd])
    []

/-- First column-ordering loop of `parse_datagroups`: for each declared id in
order, its `column_name` when present among the displayed columns. -/
def dgOrdered1 (pm : List (Option String × PropInfo))
    (column_order : List (Option String)) (display : List String) : List String :=
  column_order.foldl
    (fun oc pid =>
      match pm.lookup pid with
      | some info =>
          if display.contains info.column_name then oc ++ [info.column_name] else oc
      | none => oc)
    []

/-- Second column-ordering loop: remaining displayed columns appended in
first-encountered order. -/
def dgOrdered2 (display oc0 : List String) : List String :=
  display.foldl (fun oc c => if oc.contains c then oc else oc ++ [c]) oc0

/-- The final column order computed for one data group (the column list of
the reordered data frame). -/
def dgFinalCols (dg : Elem) : List String :=
  let st := dgPropState (dg.findall "property")
  let rows := dgRows st.1 (dg.findall "dataPoint")
  let cols := dfColumns rows
  let display := cols.filter (fun c => !(startsWithUnderscore c))
  let ordered := dgOrdered2 display (dgOrdered1 st.1 st.2.1 display)
  if ordered.isEmpty then cols else ordered

/-- The body of `parse_datagroups` for one `dataGroup` element: declared
properties, decoded data points, column ordering and statistics. -/
def parseDatagroup (dg : Elem) : DgData :=
  let st := dgPropState (dg.findall "property")
  let pm := st.1
  let column_order := st.2.1
  let props := st.2.2
  let rows := dgRows pm (dg.findall "dataPoint")
  if rows.isEmpty then
    { id := dg.getAttr "id" "", label := dg.getAttr "label" "",
      properties := props, property_map := pm, datapoints := rows,
      data_df := none, statistics := none }
  else
    let cols := dfColumns rows
    let display := cols.filter (fun c => !(startsWithUnderscore c))
    let ordered := dgOrdered2 display (dgOrdered1 pm column_order display)
    let finalCols := if ordered.isEmpty then cols else ordered
    { id := dg.getAttr "id" "", label := dg.getAttr "label" "",
      properties := props, property_map := pm, datapoints := rows,
      data_df := some ⟨finalCols, rows⟩,
      statistics := some ⟨rows.length, finalCols, (rows.length, finalCols.length)⟩ }

/-- `XMLParser.parse_datagroups`: every `dataGroup` descendant of the root,
in document order. -/
def parse_datagroups (root : Elem) : List DgData :=
  ((descendantsList root.children).filter (fun e => e.tag == "dataGroup")).map
    parseDatagroup

/-- The decoded file metadata. -/
structure Metadata : Type where
  author : String
  doi : String
  version : Option (String × String)
  first_publication : String
  last_modification : String
deriving DecidableEq, Repr

/-- `XMLParser.parse_metadata`. -/
def parse_metadata (root : Elem) : Metadata :=
  { author := getText root "fileAuthor"
    doi := getText root "fileDOI"
    version := (root.find "fileVersion").map
      (fun fv => (getText fv "major", getText fv "minor"))
    first_publication := getText root "firstPublicationDate"
    last_modification := getText root "lastModificationDate" }

/-- The decoded apparatus block (absent when the element is missing). -/
structure Apparatus : Type where
  kind : String
  type : String
deriving DecidableEq, Repr

/-- `XMLParser.parse_apparatus`. -/
def parse_apparatus (root : Elem) : Option Apparatus :=
  (root.find "apparatus").map (fun a => ⟨getText a "kind", a.getAttr "type" ""⟩)

/-- The decoded bibliography details. -/
structure BibDetails : Type where
  author : String
  journal : String
  title : String
  year : String
deriving DecidableEq, Repr

/-- The decoded bibliography block (absent when the element is missing). -/
structure Bib : Type where
  description : String
  doi : String
  details : Option BibDetails
deriving DecidableEq, Repr

/-- `XMLParser.parse_bibliography`. -/
def parse_bibliography (root : Elem) : Option Bib :=
  (root.find "bibliographyLink").map
    (fun b =>
      ⟨getText b "description", getText b "referenceDOI",
        (b.find "details").map
          (fun d => ⟨getText d "author", getText d "journal",
            getText d "title", getText d "year"⟩)⟩)

/-- A decoded experiment record, the `exp_data` dict of `parse_experiment`. -/
structure ExpRecord : Type where
  metadata : Metadata
  experiment_type : String
  apparatus : Option Apparatus
  bibliography : Option Bib
  common_properties : List (String × CPEntry)
  datagroups : List DgData
deriving DecidableEq, Repr

/-- `XMLParser.parse_experiment`: the whole decode of one root element.
The only failure point is the composition amount conversion inside
`parse_common_properties`. -/
def parse_experiment (root : Elem) : Except String ExpRecord :=
  match parse_common_properties root with
  | .error msg => .error msg
  | .ok cp =>
      .ok { metadata := parse_metadata root
            experiment_type := getText root "experimentType"
            apparatus := parse_apparatus root
            bibliography := parse_bibliography root
            common_properties := cp
            datagroups := parse_datagroups root }

/-! ## The structural validator: `validate_xml_structure` of `src/appv2.py` -/

/-- `validate_xml_structure`.  The input is the result of `ET.parse`: a
well-formed document gives a root element, a malformed one gives the
`ParseError` message.  Error messages are rendered in English; the source
wording is Chinese, only the count and presence of errors matter. -/
def validate_xml_structure (doc : Except String Elem) : Bool × List String :=
  match doc with
  | .error e => (false, ["XML parse error: " ++ e])
  | .ok root =>
      let errs := (["experimentType", "apparatus", "commonProperties"]).foldl
        (fun es n =>
          if (root.find n).isNone then es ++ ["missing required element: " ++ n]
          else es)
        []
      let errs :=
        if ((descendantsList root.children).filter (fun e => e.tag == "dataGroup")).isEmpty
        then errs ++ ["no data groups found"]
        else errs
      (errs.isEmpty, errs)

/-! ## Model of Python `str(...)` on the values written by the encoder -/

/-- Fuel-driven multiplicity count: with fuel at least `n` this is the
multiplicity of the factor `p` in `n`. -/
def factorCountF : ℕ → ℕ → ℕ → ℕ
  | 0, _, _ => 0
  | fuel + 1, p, n =>
      if 1 < p ∧ 1 < n ∧ n % p = 0 then factorCountF fuel p (n / p) + 1 else 0

/-- Multiplicity of a prime-like factor `p` in `n` (0 when `p ≤ 1`). -/
def factorCount (p n : ℕ) : ℕ :=
  factorCountF n p n

/-- The number of decimal digits needed to render `q` exactly. -/
def pyStrExp (q : ℚ) : ℕ :=
  max (factorCount 2 q.den) (factorCount 5 q.den)

/-- `q` has a finite decimal expansion (its reduced denominator is of the
form `2^a * 5^b`); every float has, so every value written by the encoder
does. -/
def decFiniteQ (q : ℚ) : Bool :=
  decide (q.den ∣ 10 ^ pyStrExp q)

/-- Fuel-driven decimal digit expansion, least significant first; with fuel
at least `n` it is exact. -/
def natDigitsF : ℕ → ℕ → List ℕ
  | 0, n => [n]
  | fuel + 1, n => if n < 10 then [n] else n % 10 :: natDigitsF fuel (n / 10)

/-- Decimal digits of a natural number, least significant first. -/
def natDigitsLE (n : ℕ) : List ℕ :=
  natDigitsF n n

/-- Decimal rendering of a natural number, most significant digit first. -/
def natToChars (n : ℕ) : List Char :=
  (natDigitsLE n).reverse.map (fun d => Char.ofNat (48 + d))

/-- Left-pad a digit list with `'0'` up to length `k`. -/
def padZeros (l : List Char) (k : ℕ) : List Char :=
  List.replicate (k - l.length) '0' ++ l

/-- Decimal rendering of a non-negative rational with a finite decimal
expansion (the exact value of a non-negative float as `str` renders it:
`"300.0"`, `"0.12"`, ...).  Python's switch to scientific notation for very
large or small magnitudes is not modelled; it does not change the value the
string parses back to. -/
def pyStrNN (q : ℚ) : String :=
  let k := pyStrExp q
  let m := (q.num.toNat * 10 ^ k) / q.den
  if k = 0 then String.mk (natToChars m) ++ ".0"
  else String.mk (natToChars (m / 10 ^ k)) ++ "." ++
    String.mk (padZeros (natToChars (m % 10 ^ k)) k)

/-- Model of Python `str` on a float whose exact value is `q` (the sign test
`q < 0` is taken on the numerator, which is equivalent). -/
def pyStr (q : ℚ) : String :=
  if q.num < 0 then "-" ++ pyStrNN (-q) else pyStrNN q

/-- Model of Python `str` on a decoded dynamic value. -/
def pyStrVal : PyVal → String
  | .num q => pyStr q
  | .str s => s
  | .nil => "None"

/-! ## The encoder: `create_enhanced_xml` of `src/appv1.py` -/

/-- Identifiers of a known species in the `COMMON_SPECIES` registry. -/
structure SpeciesIds : Type where
  CAS : String
  chemName : String
  InChI : String
  SMILES : String
deriving DecidableEq, Repr

/-- The static `COMMON_SPECIES` registry (identical in all source files). -/
def COMMON_SPECIES : List (String × SpeciesIds) :=
  [("CH4", ⟨"74-82-8", "methane", "1S/CH4/h1H4", "C"⟩),
   ("O2", ⟨"7782-44-7", "oxygen", "1S/O2/c1-2", "O=O"⟩),
   ("N2", ⟨"7727-37-9", "nitrogen", "1S/N2/c1-2", "N#N"⟩),
   ("CO", ⟨"630-08-0", "carbon monoxide", "1S/CO/c1-2", "[C-]#[O+]"⟩),
   ("CO2", ⟨"124-38-9", "carbon dioxide", "1S/CO2/c2-1-3", "C(=O)=O"⟩),
   ("H2O", ⟨"7732-18-5", "water", "1S/H2O/h1H2", "O"⟩),
   ("H2", ⟨"1333-74-0", "hydrogen", "1S/H2/h1H", "[H][H]"⟩),
   ("NH3", ⟨"7664-41-7", "ammonia", "1S/H3N/h1H3", "N"⟩),
   ("NO", ⟨"10102-43-9", "nitric oxide", "1S/NO/c1-2", "[N]=O"⟩),
   ("NO2", ⟨"10102-44-0", "nitrogen dioxide", "1S/NO2/c2-1-3", "N(=O)[O]"⟩),
   ("N2O", ⟨"10024-97-2", "nitrous oxide", "1S/N2O/c1-2-3", "N#[N+][O-]"⟩),
   ("Ar", ⟨"7440-37-1", "argon", "1S/Ar", "[Ar]"⟩),
   ("He", ⟨"7440-59-7", "helium", "1S/He", "[He]"⟩)]

/-- Python truthiness of an optional string (`None` and `""` are falsy). -/
def optTruthy : Option String → Bool
  | some s => !(s == "")
  | none => false

/-- The `reference` sub-dict of a draft's `basic_info`; an absent dict is the
all-`none` value (every access in the encoder is `ref.get(...)`). -/
structure Reference : Type where
  author : Option String
  title : Option String
  journal : Option String
  year : Option String
  doi : Option String
deriving DecidableEq, Repr

/-- The `basic_info` dict accumulated by the interactive builder.  Every
field the encoder reads from it is optional (`basic_info.get(...)`); an
absent `basic_info` behaves as the all-`none` value. -/
structure BasicInfo : Type where
  author : Option String
  doi : Option String
  exp_type : Option String
  reactor : Option String
  description : Option String
  reference : Reference
deriving DecidableEq, Repr

/-- A `{'value': ..., 'units': ...}` condition (temperature or pressure) of a
draft.  When present, the builder always stores both sub-fields. -/
structure TPCond : Type where
  value : PyVal
  units : String
deriving DecidableEq, Repr

/-- One entry of the draft composition list, as accumulated by the builder
(identifier fields present only when known). -/
structure CompEntry : Type where
  species : String
  amount : PyVal
  units : String
  CAS : Option String
  chemName : Option String
  InChI : Option String
  SMILES : Option String
deriving DecidableEq, Repr

/-- The `conditions` dict of a draft; an absent dict is the value with no
temperature, no pressure, and empty lists. -/
structure Conditions : Type where
  temperature : Option TPCond
  pressure : Option TPCond
  composition : List CompEntry
  reactor_params : List (String × ℚ)
deriving DecidableEq, Repr

/-- The draft X-axis column descriptor (`dg['x_axis']`): the encoder indexes
all four fields directly. -/
structure XAxis : Type where
  id : String
  name : String
  label : String
  unit : String
deriving DecidableEq, Repr

/-- A draft Y-axis column descriptor: `label` is read with
`.get('label', name)`, `species` with `.get('species')`. -/
structure YAxis : Type where
  id : String
  name : String
  label : Option String
  unit : String
  species : Option String
deriving DecidableEq, Repr

/-- One draft data group (`st.session_state.data_groups_new` entry): data
rows are dicts keyed by the column names. -/
structure DraftDG : Type where
  id : String
  name : String
  x_axis : XAxis
  y_axes : List YAxis
  data : List (List (String × PyVal))
deriving DecidableEq, Repr

/-- The whole draft the encoder reads: `new_exp_data` (basic info and
conditions), `optional_params`, and `data_groups_new`. -/
structure Draft : Type where
  basic_info : BasicInfo
  conditions : Conditions
  optional_params : List (String × PyVal)
  data_groups : List DraftDG
deriving DecidableEq, Repr

/-- Element constructor shorthand. -/
def el (t : String) (a : List (String × String)) (tx : Option String)
    (cs : List Elem) : Elem :=
  .node t a tx cs

/-- The optional-parameter name whitelist of the encoder. -/
def OPTIONAL_WHITELIST : List String :=
  ["equivalence_ratio", "fuel", "oxidizer", "diluent"]

/-- The `bibliographyLink` block written by the encoder when the reference
has a truthy author and title. -/
def bibElem (ref : Reference) : Elem :=
  el "bibliographyLink" [] none
    ([el "details" [] none
        ([el "author" [] (some (ref.author.getD "")) [],
          el "title" [] (some (ref.title.getD "")) []]
          ++ (if optTruthy ref.journal then [el "journal" [] ref.journal []] else [])
          ++ (if optTruthy ref.year then [el "year" [] ref.year []] else []))]
      ++ (if optTruthy ref.doi then [el "referenceDOI" [] ref.doi []] else []))

/-- One `component` element of the encoded initial composition. -/
def compElem (c : CompEntry) : Elem :=
  el "component" [] none
    [el "speciesLink"
        ([("preferredKey", c.species)]
          ++ (match c.CAS with | some v => [("CAS", v)] | none => [])
          ++ (match c.chemName with | some v => [("chemName", v)] | none => [])
          ++ (match c.InChI with | some v => [("InChI", v)] | none => [])
          ++ (match c.SMILES with | some v => [("SMILES", v)] | none => []))
        none [],
     el "amount" [("units", c.units)] (some (pyStrVal c.amount)) []]

/-- The children of the `commonProperties` element written by the encoder:
temperature, pressure, positive reactor parameters, whitelisted optional
parameters, then the initial composition. -/
def cpKids (conds : Conditions) (optional : List (String × PyVal)) : List Elem :=
  (match conds.temperature with
   | some t =>
       [el "property"
          [("name", "temperature"), ("label", "T"), ("units", t.units),
           ("sourcetype", "reported")]
          none [el "value" [] (some (pyStrVal t.value)) []]]
   | none => [])
  ++ (match conds.pressure with
      | some p =>
          [el "property"
             [("name", "pressure"), ("label", "P"), ("units", p.units),
              ("sourcetype", "reported")]
             none [el "value" [] (some (pyStrVal p.value)) []]]
      | none => [])
  ++ conds.reactor_params.filterMap
      (fun kv =>
        if kv.2.num ≠ 0 ∧ 0 < kv.2.num then
          some (el "property"
            [("name", replaceChar '_' ' ' kv.1), ("sourcetype", "reported")]
            none [el "value" [] (some (pyStr kv.2)) []])
        else none)
  ++ optional.filterMap
      (fun kv =>
        if kv.1 ∈ OPTIONAL_WHITELIST then
          some (el "property"
            [("name", replaceChar '_' ' ' kv.1), ("sourcetype", "reported")]
            none [el "value" [] (some (pyStrVal kv.2)) []])
        else none)
  ++ (if conds.composition.isEmpty then []
      else
        [el "property" [("name", "initial composition"), ("sourcetype", "reported")]
           none (conds.composition.map compElem)])

/-- The `speciesLink` children of an encoded Y property: written only when
the species is truthy and known to the registry, with the registry
identifiers copied in. -/
def ySpeciesKids (y : YAxis) : List Elem :=
  match y.species with
  | some sp =>
      if sp ≠ "" then
        match COMMON_SPECIES.lookup sp with
        | some ids =>
            [el "speciesLink"
               [("preferredKey", sp), ("CAS", ids.CAS), ("chemName", ids.chemName),
                ("InChI", ids.InChI), ("SMILES", ids.SMILES)]
               none []]
        | none => []
      else []
  | none => []

/-- One encoded `dataGroup` element: the X property, the Y properties, then
one `dataPoint` per draft row (a row missing a column omits that child). -/
def dgElem (dg : DraftDG) : Elem :=
  el "dataGroup" [("id", dg.id), ("label", dg.name)] none
    ([el "property"
        [("id", dg.x_axis.id), ("name", dg.x_axis.name), ("label", dg.x_axis.label),
         ("units", dg.x_axis.unit), ("sourcetype", "digitized")]
        none []]
      ++ dg.y_axes.map
          (fun y =>
            el "property"
              [("id", y.id), ("name", y.name), ("label", y.label.getD y.name),
               ("units", y.unit), ("sourcetype", "digitized")]
              none (ySpeciesKids y))
      ++ dg.data.map
          (fun row =>
            el "dataPoint" [] none
              ((match row.lookup dg.x_axis.name with
                | some v => [el dg.x_axis.id [] (some (pyStrVal v)) []]
                | none => [])
                ++ dg.y_axes.filterMap
                    (fun y => (row.lookup y.name).map
                      (fun v => el y.id [] (some (pyStrVal v)) [])))))

/-- `create_enhanced_xml` of `src/appv1.py`: the root `experiment` element
built from a draft.  (The subsequent serialization, pretty-printing and
blank-line stripping are modelled separately by `prettyReparse`.) -/
def create_enhanced_xml (d : Draft) : Elem :=
  let bi := d.basic_info
  let ref := bi.reference
  el "experiment" [] none
    ([el "fileAuthor" [] (some (bi.author.getD "Unknown")) []]
      ++ (if optTruthy bi.doi then [el "fileDOI" [] (some (bi.doi.getD "")) []] else [])
      ++ [el "fileVersion" [] none
            [el "major" [] (some "1") [], el "minor" [] (some "0") []],
          el "experimentType" [] (some (bi.exp_type.getD "")) [],
          el "apparatus" [] none [el "kind" [] (some (bi.reactor.getD "JSR")) []]]
      ++ (if optTruthy ref.author && optTruthy ref.title then [bibElem ref] else [])
      ++ [el "commonProperties" [] none (cpKids d.conditions d.optional_params)]
      ++ d.data_groups.map dgElem)

/-! ## Serialization round trip

The encoder returns `'\n'.join` of the non-blank lines of
`minidom.toprettyxml(indent = 4 spaces)` applied to `ET.tostring(root)`, and
the decoder re-parses that text with `ET.parse`.  This composite is not the
identity on strings embedded in the document:

* `minidom.parseString` normalizes line endings in character data (CRLF and
  lone CR become LF); in attribute values the whitespace characters survive
  this step because `ET.tostring` writes them as character references.
* `toprettyxml` writes a childless element's non-empty text inline and raw,
  and writes attribute values raw, so newlines inside either spread the
  value over several physical lines.
* the encoder's blank-line filter (`if line.strip()`) deletes every
  whitespace-only physical line; for an embedded string this removes the
  whitespace-only fragments strictly between two of its own newlines (the
  first and last fragment share their line with markup and survive).
* the decoder's `ET.parse` normalizes line endings again and, in attribute
  values only, turns the remaining literal newlines and tabs into spaces.

`textPipe` and `attrPipe` below model the net effect on a text value and on
an attribute value; `prettyReparse` models the effect of the composite on
the element tree: a childless element keeps its text, piped, exactly when
the text is non-empty (minidom writes a lone text child inline) and loses
it otherwise; an element with children acquires the indentation whitespace
of the next level as its text; every attribute value is piped.  Tails are
not modelled (the decoder never reads them), and mixed content does not
occur in encoder output. -/

/-- XML end-of-line normalization of a parser: CRLF and a lone CR both
become LF. -/
def normEOLChars : List Char → List Char
  | [] => []
  | [c] => [if c = '\r' then '\n' else c]
  | c :: d :: rest =>
      if c = '\r' then
        if d = '\n' then '\n' :: normEOLChars rest
        else '\n' :: normEOLChars (d :: rest)
      else c :: normEOLChars (d :: rest)

/-- Split a character list at newline characters into line fragments. -/
def splitNL : List Char → List (List Char)
  | [] => [[]]
  | c :: rest =>
      if c = '\n' then [] :: splitNL rest
      else
        match splitNL rest with
        | [] => [[c]]
        | f :: fs => (c :: f) :: fs

/-- Rejoin line fragments with newlines. -/
def joinNL : List (List Char) → List Char
  | [] => []
  | [f] => f
  | f :: fs => f ++ '\n' :: joinNL fs

/-- A fragment that the blank-line filter drops when it stands on a
physical line of its own: entirely Python whitespace. -/
def blankLine (l : List Char) : Bool := l.all pyWS

/-- Drop the blank fragments of the tail, always keeping the final
fragment (it shares its physical line with closing markup). -/
def dropInteriorTail : List (List Char) → List (List Char)
  | [] => []
  | [f] => [f]
  | f :: fs => if blankLine f then dropInteriorTail fs else f :: dropInteriorTail fs

/-- Drop the whitespace-only interior fragments of a value: the first and
last fragment share their physical lines with markup and always survive. -/
def dropInterior : List (List Char) → List (List Char)
  | [] => []
  | [f] => [f]
  | f :: fs => f :: dropInteriorTail fs

/-- Effect of the encoder's blank-line filter on a string embedded in the
pretty-printed document: each whitespace-only interior line disappears
together with one of its delimiting newlines. -/
def interiorStrip (s : String) : String :=
  String.mk (joinNL (dropInterior (splitNL s.data)))

/-- Net effect of the pipeline on a childless element's text value:
minidom's end-of-line normalization, then the blank-line filter; the
re-parse reads text content back verbatim. -/
def textPipe (s : String) : String :=
  interiorStrip (String.mk (normEOLChars s.data))

/-- Net effect of the pipeline on an attribute value: the pretty printer
writes it raw, the blank-line filter drops its whitespace-only interior
lines, and the re-parse end-of-line-normalizes and then turns literal
newlines and tabs into spaces (XML attribute-value normalization). -/
def attrPipe (s : String) : String :=
  String.mk ((normEOLChars (interiorStrip s).data).map
    (fun c => if c = '\n' ∨ c = '\t' then ' ' else c))

/-- A string the text pipeline returns unchanged: no newlines and no
carriage returns. -/
def textOk (s : String) : Bool :=
  s.data.all (fun c => !(c == '\n' || c == '\r'))

/-- A string the attribute pipeline returns unchanged: no newlines, tabs
or carriage returns. -/
def attrOk (s : String) : Bool :=
  s.data.all (fun c => !(c == '\n' || c == '\t' || c == '\r'))

mutual

/-- Effect on an element at nesting level `lvl` of serializing, pretty
printing with 4-space indentation, stripping blank lines, and re-parsing. -/
def prettyReparse (lvl : ℕ) : Elem → Elem
  | .node t a tx [] =>
      .node t (a.map (fun kv => (kv.1, attrPipe kv.2)))
        (match tx with
         | some s => if s = "" then none else some (textPipe s)
         | none => none)
        []
  | .node t a _ (c :: cs) =>
      .node t (a.map (fun kv => (kv.1, attrPipe kv.2)))
        (some ("\n" ++ String.mk (List.replicate (4 * (lvl + 1)) ' ')))
        (prettyReparseList (lvl + 1) (c :: cs))
termination_by structural e => e

/-- `prettyReparse` mapped over a list of children. -/
def prettyReparseList (lvl : ℕ) : List Elem → List Elem
  | [] => []
  | c :: cs => prettyReparse lvl c :: prettyReparseList lvl cs
termination_by structural l => l

end

mutual

/-- The verbatim variant of `prettyReparse`: identical except that text and
attribute values are kept unchanged.  `prettyReparse` agrees with it on
whitespace-clean trees (`pretty_eq_keep`); the decode computations are
carried out over it. -/
def prettyKeep (lvl : ℕ) : Elem → Elem
  | .node t a tx [] =>
      .node t a
        (match tx with
         | some s => if s = "" then none else some s
         | none => none)
        []
  | .node t a _ (c :: cs) =>
      .node t a (some ("\n" ++ String.mk (List.replicate (4 * (lvl + 1)) ' ')))
        (prettyKeepList (lvl + 1) (c :: cs))
termination_by structural e => e

/-- `prettyKeep` mapped over a list of children. -/
def prettyKeepList (lvl : ℕ) : List Elem → List Elem
  | [] => []
  | c :: cs => prettyKeep lvl c :: prettyKeepList lvl cs
termination_by structural l => l

end

mutual

/-- A whitespace-clean tree: every attribute value is free of newlines,
tabs and carriage returns, and every text value is free of newlines and
carriage returns, so the serialization pipeline returns both unchanged. -/
def elemClean : Elem → Bool
  | .node _ a tx cs =>
      a.all (fun kv => attrOk kv.2) &&
      (match tx with
       | some s => textOk s
       | none => true) &&
      elemsClean cs
termination_by structural e => e

/-- `elemClean` over a list of trees. -/
def elemsClean : List Elem → Bool
  | [] => true
  | c :: cs => elemClean c && elemsClean cs
termination_by structural l => l

end

/-! ## The draft built from a decoded record (spec-modelled) -/

/-- The scalar entries of a decoded `common_properties` mapping, with their
binding keys. -/
def scalarsOf (cp : List (String × CPEntry)) : List (String × PropVal) :=
  cp.filterMap
    (fun kv => match kv.2 with | .scalar v => some (kv.1, v) | .comp _ => none)

/-- The first scalar common property whose `name` field is `nm`. -/
def findByName (cp : List (String × CPEntry)) (nm : String) : Option PropVal :=
  ((scalarsOf cp).find? (fun kv => kv.2.name == nm)).map (fun kv => kv.2)

/-- The decoded initial-composition mapping of a record (empty when absent). -/
def compositionOf (r : ExpRecord) : List (String × CompVal) :=
  match r.common_properties.lookup "initial_composition" with
  | some (.comp m) => m
  | _ => []

/-- Property names that the draft builder does not treat as reactor or
optional parameters: they are carried by the dedicated condition fields. -/
def RESERVED_NAMES : List String :=
  ["temperature", "pressure", "initial composition"]

/-- Modelled from the spec: the record-to-draft builder presupposed by the
round-trip property (§3 Lifecycle, §8 "a draft built from a decoded record's
salient fields") has no implementation under `src/`; this definition follows
the spec's description of a draft's parts.  Basic info comes from the
metadata, apparatus and bibliography; the conditions take temperature and
pressure from the scalar properties so named, the composition from the
decoded species mapping, and the remaining numeric scalars as reactor
parameters (string scalars become optional parameters, with spaces restored
to underscores); each decoded data group contributes its first declared
property as the X axis, the remaining ones as Y axes, and its rows rekeyed
from column names to column (property) names.  A degenerate data group with
no declared columns is rejected, as §7 requires of the caller. -/
def draftOfRecord (r : ExpRecord) : Draft :=
  let scalars := scalarsOf r.common_properties
  { basic_info :=
      { author := some r.metadata.author
        doi := some r.metadata.doi
        exp_type := some r.experiment_type
        reactor := some ((r.apparatus.map Apparatus.kind).getD "")
        description := none
        reference :=
          match r.bibliography with
          | some b =>
              { author := b.details.map BibDetails.author
                title := b.details.map BibDetails.title
                journal := b.details.map BibDetails.journal
                year := b.details.map BibDetails.year
                doi := some b.doi }
          | none => ⟨none, none, none, none, none⟩ }
    conditions :=
      { temperature :=
          (findByName r.common_properties "temperature").map (fun v => ⟨v.value, v.units⟩)
        pressure :=
          (findByName r.common_properties "pressure").map (fun v => ⟨v.value, v.units⟩)
        composition :=
          (compositionOf r).map
            (fun kv => ⟨kv.1, .num kv.2.amount, kv.2.units, none, none, none, none⟩)
        reactor_params :=
          scalars.filterMap
            (fun kv =>
              if kv.2.name ∈ RESERVED_NAMES then none
              else match kv.2.value with
                   | .num q => some (kv.2.name, q)
                   | _ => none) }
    optional_params :=
      scalars.filterMap
        (fun kv =>
          if kv.2.name ∈ RESERVED_NAMES then none
          else match kv.2.value with
               | .str s => some (replaceChar ' ' '_' kv.2.name, PyVal.str s)
               | _ => none)
    data_groups :=
      r.datagroups.filterMap
        (fun g =>
          match g.properties with
          | [] => none
          | x :: ys =>
              some
                { id := g.id
                  name := g.label
                  x_axis := ⟨x.id.getD "", x.name, x.label, x.units⟩
                  y_axes :=
                    ys.map (fun y => ⟨y.id.getD "", y.name, some y.label, y.units, y.species⟩)
                  data :=
                    g.datapoints.map
                      (fun row =>
                        row.filterMap
                          (fun kv =>
                            ((x :: ys).find? (fun p => p.column_name == kv.1)).map
                              (fun p => (p.name, kv.2)))) }) }

/-- The full round trip of the testable property: encode a draft, serialize
and re-parse it, and decode the result. -/
def roundTrip (d : Draft) : Except String ExpRecord :=
  parse_experiment (prettyReparse 0 (create_enhanced_xml d))

/-! ## Spec-side formulations and concrete inputs used by the theorems -/

/-- The column-name derivation rule as the specification words it: a
species-linked column renders as `"{key} ({units})"`; otherwise the label
when present, else the name, with the parenthetical units omitted when
`units` is empty. -/
def claimColumnName (speciesKey : Option String) (label name units : String) :
    String :=
  match speciesKey with
  | some k => k ++ " (" ++ units ++ ")"
  | none =>
      if label ≠ "" then
        (if units = "" then label else label ++ " (" ++ units ++ ")")
      else
        (if units = "" then name else name ++ " (" ++ units ++ ")")

/-- Whether a dataGroup element exists anywhere strictly below the root. -/
def hasDataGroup (root : Elem) : Prop :=
  ∃ e ∈ root.descendants, e.tag = "dataGroup"

/-- The spec's concrete data group: two declared properties (temperature and
a species-linked CH4 column) and two data points. -/
def egDG : Elem :=
  .node "dataGroup" [("id", "dg1")] none
    [.node "property" [("id", "x1"), ("name", "Temperature"), ("units", "K")] none [],
     .node "property" [("id", "x2"), ("name", "CH4"), ("units", "mole_fraction")] none
       [.node "speciesLink" [("preferredKey", "CH4")] none []],
     .node "dataPoint" [] none
       [.node "x1" [] (some "300") [], .node "x2" [] (some "0.1") []],
     .node "dataPoint" [] none
       [.node "x1" [] (some "350") [], .node "x2" [] (some "0.12") []]]

/-- A document holding the spec's concrete data group. -/
def egDoc : Elem :=
  .node "experiment" [] none
    [.node "experimentType" [] (some "ignition_delay") [],
     .node "apparatus" [] none [],
     .node "commonProperties" [] none [],
     egDG]

/-- A data group whose only data point carries one recognized field (`x1`)
and one field (`foo`) matching no declared property id. -/
def egUnmatched : Elem :=
  .node "dataGroup" [("id", "dg1")] none
    [.node "property" [("id", "x1"), ("name", "A")] none [],
     .node "dataPoint" [] none
       [.node "x1" [] (some "1") [], .node "foo" [] (some "2") []]]

/-- A well-formed document with the three required elements present and no
dataGroup anywhere. -/
def egNoDG : Elem :=
  .node "experiment" [] none
    [.node "experimentType" [] (some "ignition_delay") [],
     .node "apparatus" [] none [],
     .node "commonProperties" [] none []]

/-- A document whose initial composition has a component with the
unparsable amount text `"abc"`. -/
def egBadAmount : Elem :=
  .node "experiment" [] none
    [.node "commonProperties" [] none
      [.node "property" [("name", "initial composition")] none
        [.node "component" [] none
          [.node "speciesLink" [("preferredKey", "CH4")] none [],
           .node "amount" [("units", "mole_fraction")] (some "abc") []]]]]

/-- An `amount` element with a missing text. -/
def egAmountEmpty : Elem :=
  .node "amount" [("units", "mole_fraction")] none []

/-- An `amount` element with the unparsable text `"abc"`. -/
def egAmountBad : Elem :=
  .node "amount" [("units", "mole_fraction")] (some "abc") []

/-- A component lacking a `speciesLink` child. -/
def egCompNoLink : Elem :=
  .node "component" [] none
    [.node "amount" [("units", "mole_fraction")] (some "0.5") []]

/-- A complete component. -/
def egCompFull : Elem :=
  .node "component" [] none
    [.node "speciesLink" [("preferredKey", "CH4")] none [],
     .node "amount" [("units", "mole_fraction")] (some "0.25") []]

/-- A data group with declared columns and no data points. -/
def egEmptyDG : Elem :=
  .node "dataGroup" [("id", "dg2")] none
    [.node "property" [("id", "x1"), ("name", "Temperature"), ("units", "K")] none []]

/-- A document holding a data group with declared columns and no points. -/
def egDocEmptyDG : Elem :=
  .node "experiment" [] none [egEmptyDG]

/-- A scalar temperature property element. -/
def egTempProp : Elem :=
  .node "property" [("name", "temperature"), ("label", "T"), ("units", "K")] none
    [.node "value" [] (some "800") []]

/-- An initial-composition property element with raw text and one
component. -/
def egICProp : Elem :=
  .node "property" [("name", "initial composition")] (some "\n  ")
    [.node "component" [] none
      [.node "speciesLink" [("preferredKey", "CH4")] none [],
       .node "amount" [("units", "mole_fraction")] (some "0.3") []]]

/-- The `commonProperties` element holding both. -/
def egCP : Elem :=
  .node "commonProperties" [] none [egTempProp, egICProp]

/-- A document whose common properties hold a scalar property and an initial
composition (with surrounding raw text on the composition property). -/
def egCompDoc : Elem :=
  .node "experiment" [] none [egCP]

/-- A draft with no author and otherwise empty content. -/
def egDraftNoAuthor : Draft :=
  { basic_info := ⟨none, none, none, none, none, ⟨none, none, none, none, none⟩⟩
    conditions := ⟨none, none, [], []⟩
    optional_params := []
    data_groups := [] }

/-- A column name appears in at least one decoded row. -/
def appearsIn (rows : List (List (String × PyVal))) (c : String) : Bool :=
  rows.any (fun row => row.any (fun kv => kv.1 == c))

/-- Decidable equality of parse results, used to evaluate the codec on
concrete documents. -/
instance {ε α : Type} [DecidableEq ε] [DecidableEq α] : DecidableEq (Except ε α) :=
  fun a b =>
    match a, b with
    | .ok x, .ok y =>
        if h : x = y then isTrue (by rw [h])
        else isFalse (fun hc => by cases hc; exact h rfl)
    | .error x, .error y =>
        if h : x = y then isTrue (by rw [h])
        else isFalse (fun hc => by cases hc; exact h rfl)
    | .ok _, .error _ => isFalse (fun hc => by cases hc)
    | .error _, .ok _ => isFalse (fun hc => by cases hc)

/-! ## C7: column-name views, canonical decoded records, counterexample -/

/-- The per-group lists of declared-property column names of a record. -/
def dgColNames (r : ExpRecord) : List (List String) :=
  r.datagroups.map (fun g => g.properties.map PropInfo.column_name)

/-- The per-group column lists of the reconstructed tables of a record. -/
def dfColNames (r : ExpRecord) : List (Option (List String)) :=
  r.datagroups.map (fun g => g.data_df.map Table.columns)

/-- A row dict built by pairing keys with values positionally (zip). -/
def keyedRow : List String → List PyVal → List (String × PyVal)
  | k :: ks, v :: vs => (k, v) :: keyedRow ks vs
  | _, _ => []

/-- The text acquired by the encoded `initial composition` property on the
serialization round trip (the pretty-printer indentation of level 3). -/
def ws12 : String := "\n" ++ String.mk (List.replicate 12 ' ')

/-- Canonical decoded common properties: the free data of a decoded
`common_properties` mapping as the decoder produces it from encoder output
(temperature, pressure, numeric reactor parameters, string optional
parameters, and a non-empty initial composition). -/
structure CanonCP : Type where
  tval : ℚ
  pval : ℚ
  tunits : String
  punits : String
  nums : List (String × ℚ)
  strs : List (String × String)
  comp : List (String × CompVal)
deriving DecidableEq, Repr

/-- The `common_properties` mapping determined by canonical data, in the
decoder's own binding order. -/
def canonCPList (c : CanonCP) : List (String × CPEntry) :=
  [("T", .scalar ⟨.num c.tval, c.tunits, "temperature"⟩),
   ("P", .scalar ⟨.num c.pval, c.punits, "pressure"⟩)]
  ++ c.nums.map (fun kv => (kv.1, CPEntry.scalar ⟨.num kv.2, "", kv.1⟩))
  ++ c.strs.map (fun kv => (kv.1, CPEntry.scalar ⟨.str kv.2, "", kv.1⟩))
  ++ [("initial composition", .scalar ⟨.str ws12, "", "initial composition"⟩),
      ("initial_composition", .comp c.comp)]

/-- The free data of one declared data-group column of a decoded record. -/
structure CanonProp : Type where
  id : String
  name : String
  label : String
  units : String
  species : Option String
deriving DecidableEq, Repr

/-- The decoded `prop_info` determined by canonical column data, with the
`column_name` the decoder derives. -/
def canonPropInfo (p : CanonProp) : PropInfo :=
  match p.species with
  | some sp => ⟨some p.id, p.name, p.label, p.units, some sp, sp ++ " (" ++ p.units ++ ")"⟩
  | none =>
      ⟨some p.id, p.name, p.label, p.units, none,
        if p.label ≠ "" then
          (if p.units ≠ "" then p.label ++ " (" ++ p.units ++ ")" else p.label)
        else
          (if p.units ≠ "" then p.name ++ " (" ++ p.units ++ ")" else p.name)⟩

/-- The free data of one decoded data group: identity, an X column, the Y
columns, and the value matrix of the data points (one inner list per point,
aligned with the declared columns). -/
structure CanonDG : Type where
  id : String
  label : String
  x : CanonProp
  ys : List CanonProp
  rowvals : List (List PyVal)
deriving DecidableEq, Repr

/-- The declared columns of a canonical data group. -/
def canonProps (g : CanonDG) : List PropInfo :=
  (g.x :: g.ys).map canonPropInfo

/-- The decoded data group determined by canonical data, in the decoder's
own shape (full rows, all columns displayed). -/
def canonDgData (g : CanonDG) : DgData :=
  let props := canonProps g
  let cols := props.map PropInfo.column_name
  let dps := g.rowvals.map (keyedRow cols)
  { id := g.id
    label := g.label
    properties := props
    property_map := props.map (fun p => (p.id, p))
    datapoints := dps
    data_df := if dps.isEmpty then none else some ⟨cols, dps⟩
    statistics :=
      if dps.isEmpty then none
      else some ⟨dps.length, cols, (dps.length, cols.length)⟩ }

/-- A canonical decoded record: an experiment record of the exact shape the
decoder produces on encoder output (metadata, apparatus and bibliography
free; common properties and data groups determined by canonical data). -/
structure CanonRecord : Type where
  metadata : Metadata
  experiment_type : String
  apparatus : Option Apparatus
  bibliography : Option Bib
  cp : CanonCP
  dgs : List CanonDG
deriving DecidableEq, Repr

/-- The experiment record determined by canonical data. -/
def recordOfCanon (c : CanonRecord) : ExpRecord :=
  { metadata := c.metadata
    experiment_type := c.experiment_type
    apparatus := c.apparatus
    bibliography := c.bibliography
    common_properties := canonCPList c.cp
    datagroups := c.dgs.map canonDgData }

/-- Whitespace-cleanliness of the strings a bibliography block contributes
to the document. -/
def bibOk : Option Bib → Bool
  | none => true
  | some b =>
      textOk b.doi &&
      (match b.details with
       | none => true
       | some d =>
           textOk d.author && textOk d.title && textOk d.journal && textOk d.year)

/-- Whitespace-cleanliness of the strings a canonical record's metadata,
experiment type, apparatus and bibliography contribute to the document. -/
def metaOk (c : CanonRecord) : Bool :=
  textOk c.metadata.author && textOk c.metadata.doi &&
  textOk c.experiment_type &&
  textOk ((c.apparatus.map Apparatus.kind).getD "") &&
  bibOk c.bibliography

/-- A decodable document whose data group declares a Y column carrying a
`speciesLink` to the species `C2H6`, which is not in the `COMMON_SPECIES`
registry. -/
def egC7Doc : Elem :=
  el "experiment" [] none
    [el "experimentType" [] (some "Species profile") [],
     el "apparatus" [] none [el "kind" [] (some "JSR") []],
     el "dataGroup" [("id", "dg1"), ("label", "profiles")] none
       [el "property"
          [("id", "x1"), ("name", "time"), ("label", "t"), ("units", "s")]
          none [],
        el "property"
          [("id", "y1"), ("name", "composition"), ("label", "[C2H6]"),
           ("units", "mole fraction")]
          none
          [el "speciesLink" [("preferredKey", "C2H6")] none []],
        el "dataPoint" [] none
          [el "x1" [] (some "1.0") [], el "y1" [] (some "0.5") []]]]

/-- A concrete canonical record exercising every hypothesis of the amended
C7 theorem: T and P, one numeric reactor parameter, one whitelisted string
parameter, a one-component composition, and one data group with a
registry-species Y column and one data point. -/
def cEgC7 : CanonRecord :=
  { metadata := ⟨"", "", none, "", ""⟩
    experiment_type := "Species profile"
    apparatus := none
    bibliography := none
    cp := { tval := mkRat 1000 1, pval := mkRat 1 1, tunits := "K",
            punits := "atm",
            nums := [("residence time", mkRat 2 1)],
            strs := [("fuel", "methane")],
            comp := [("CH4", ⟨mkRat 1 10, "mole fraction"⟩)] }
    dgs := [{ id := "dg1", label := "profiles",
              x := ⟨"x1", "time", "t", "s", none⟩,
              ys := [⟨"y1", "composition", "X", "mole fraction", some "CH4"⟩],
              rowvals := [[.num (mkRat 1 1), .num (mkRat 1 2)]] }] }

/-- The draft data group built from a canonical decoded data group. -/
def draftDGOfCanon (g : CanonDG) : DraftDG :=
  { id := g.id
    name := g.label
    x_axis := ⟨g.x.id, g.x.name, g.x.label, g.x.units⟩
    y_axes := g.ys.map (fun y => ⟨y.id, y.name, some y.label, y.units, y.species⟩)
    data := g.rowvals.map (keyedRow ((g.x :: g.ys).map CanonProp.name)) }

/-- The draft built from a canonical decoded record. -/
def draftOfCanon (c : CanonRecord) : Draft :=
  { basic_info :=
      { author := some c.metadata.author
        doi := some c.metadata.doi
        exp_type := some c.experiment_type
        reactor := some ((c.apparatus.map Apparatus.kind).getD "")
        description := none
        reference :=
          match c.bibliography with
          | some b =>
              { author := b.details.map BibDetails.author
                title := b.details.map BibDetails.title
                journal := b.details.map BibDetails.journal
                year := b.details.map BibDetails.year
                doi := some b.doi }
          | none => ⟨none, none, none, none, none⟩ }
    conditions :=
      { temperature := some ⟨.num c.cp.tval, c.cp.tunits⟩
        pressure := some ⟨.num c.cp.pval, c.cp.punits⟩
        composition :=
          c.cp.comp.map (fun kv => ⟨kv.1, .num kv.2.amount, kv.2.units, none, none, none, none⟩)
        reactor_params := c.cp.nums }
    optional_params :=
      c.cp.strs.map (fun kv => (replaceChar ' ' '_' kv.1, PyVal.str kv.2))
    data_groups := c.dgs.map draftDGOfCanon }

mutual

/-- No element of the tree rooted at `e` (including `e`) carries tag `t`. -/
def tagFree (t : String) : Elem → Bool
  | .node tg _ _ cs => (tg != t) && tagFreeList t cs
termination_by structural e => e

/-- `tagFree` over a list of trees. -/
def tagFreeList (t : String) : List Elem → Bool
  | [] => true
  | c :: cs => tagFree t c && tagFreeList t cs
termination_by structural l => l

end

/-! ## The computed shape of the encoder output on a canonical draft -/

/-- A decoded value after one serialization round trip. -/
def reVal (v : PyVal) : PyVal := coerceText (some (pyStrVal v))

/-- A canonical data group with its row values re-decoded. -/
def reValDG (g : CanonDG) : CanonDG :=
  { g with rowvals := g.rowvals.map (List.map reVal) }

/-- An encoded temperature/pressure property element. -/
def encTP (nm lb un txt : String) : Elem :=
  el "property" [("name", nm), ("label", lb), ("units", un),
    ("sourcetype", "reported")] none [el "value" [] (some txt) []]

/-- An encoded reactor/optional parameter property element. -/
def encParam (nm txt : String) : Elem :=
  el "property" [("name", nm), ("sourcetype", "reported")] none
    [el "value" [] (some txt) []]

/-- An encoded component element of the initial composition. -/
def encComp (sp un txt : String) : Elem :=
  el "component" [] none
    [el "speciesLink" [("preferredKey", sp)] none [],
     el "amount" [("units", un)] (some txt) []]

/-- The children of the encoded `commonProperties` element on a canonical
draft. -/
def encCPKids (c : CanonCP) : List Elem :=
  [encTP "temperature" "T" c.tunits (pyStr c.tval),
   encTP "pressure" "P" c.punits (pyStr c.pval)]
  ++ c.nums.map (fun kv => encParam kv.1 (pyStr kv.2))
  ++ c.strs.map (fun kv => encParam kv.1 kv.2)
  ++ [el "property" [("name", "initial composition"), ("sourcetype", "reported")]
       none (c.comp.map (fun kv => encComp kv.1 kv.2.units (pyStr kv.2.amount)))]

/-- The children of the encoded root element on a canonical draft. -/
def encRootKids (c : CanonRecord) : List Elem :=
  [el "fileAuthor" [] (some c.metadata.author) []]
  ++ (if optTruthy (some c.metadata.doi) then
        [el "fileDOI" [] (some c.metadata.doi) []] else [])
  ++ [el "fileVersion" [] none
        [el "major" [] (some "1") [], el "minor" [] (some "0") []],
      el "experimentType" [] (some c.experiment_type) [],
      el "apparatus" [] none
        [el "kind" [] (some ((c.apparatus.map Apparatus.kind).getD "")) []]]
  ++ (if optTruthy (draftOfCanon c).basic_info.reference.author
        && optTruthy (draftOfCanon c).basic_info.reference.title then
        [bibElem (draftOfCanon c).basic_info.reference] else [])
  ++ [el "commonProperties" [] none (encCPKids c.cp)]
  ++ c.dgs.map (fun g => dgElem (draftDGOfCanon g))

/-- The encoded X-column property element of a canonical data group. -/
def encX (g : CanonDG) : Elem :=
  el "property" [("id", g.x.id), ("name", g.x.name), ("label", g.x.label),
    ("units", g.x.units), ("sourcetype", "digitized")] none []

/-- The encoded Y-column property element of a canonical column. -/
def encY (y : CanonProp) : Elem :=
  el "property" [("id", y.id), ("name", y.name), ("label", y.label),
    ("units", y.units), ("sourcetype", "digitized")] none
    (ySpeciesKids ⟨y.id, y.name, some y.label, y.units, y.species⟩)

/-- The encoded data-point element of one canonical row. -/
def encDP (g : CanonDG) (vs : List PyVal) : Elem :=
  el "dataPoint" [] none
    ((match (keyedRow ((g.x :: g.ys).map CanonProp.name) vs).lookup g.x.name with
      | some v => [el g.x.id [] (some (pyStrVal v)) []]
      | none => [])
     ++ (g.ys.map (fun y =>
        (⟨y.id, y.name, some y.label, y.units, y.species⟩ : YAxis))).filterMap
        (fun y => ((keyedRow ((g.x :: g.ys).map CanonProp.name) vs).lookup
          y.name).map (fun v => el y.id [] (some (pyStrVal v)) [])))

/-! ## Structural lemmas about the data-group decode -/

theorem descendants_eq_children (e : Elem) :
    e.descendants = descendantsList e.children := by
  cases e
  rfl

theorem dgPropState_foldl (ps : List Elem)
    (a : List (Option String × PropInfo)) (b : List (Option String))
    (c : List PropInfo) :
    ps.foldl
      (fun st p =>
        let info := parsePropInfo p
        (pmSet st.1 info.id info, st.2.1 ++ [info.id], st.2.2 ++ [info]))
      (a, b, c)
    = (ps.foldl (fun pm p => pmSet pm (parsePropInfo p).id (parsePropInfo p)) a,
       b ++ ps.map (fun p => (parsePropInfo p).id),
       c ++ ps.map parsePropInfo) := by
  induction ps generalizing a b c with
  | nil => simp
  | cons p ps ih => simp [ih]

theorem dgPropState_props (ps : List Elem) :
    (dgPropState ps).2.2 = ps.map parsePropInfo := by
  unfold dgPropState
  rw [dgPropState_foldl]
  simp

theorem dgPropState_order (ps : List Elem) :
    (dgPropState ps).2.1 = ps.map (fun p => (parsePropInfo p).id) := by
  unfold dgPropState
  rw [dgPropState_foldl]
  simp

theorem dgPropState_pm (ps : List Elem) :
    (dgPropState ps).1
      = ps.foldl (fun pm p => pmSet pm (parsePropInfo p).id (parsePropInfo p)) [] := by
  unfold dgPropState
  rw [dgPropState_foldl]

theorem parseDatagroup_properties (dg : Elem) :
    (parseDatagroup dg).properties = (dg.findall "property").map parsePropInfo := by
  simp only [parseDatagroup]
  split <;> simp [dgPropState_props]

theorem parseDatagroup_datapoints (dg : Elem) :
    (parseDatagroup dg).datapoints
      = dgRows (dgPropState (dg.findall "property")).1 (dg.findall "dataPoint") := by
  simp only [parseDatagroup]
  split <;> rfl

theorem parseDatagroup_of_empty (dg : Elem)
    (h : dgRows (dgPropState (dg.findall "property")).1 (dg.findall "dataPoint") = []) :
    (parseDatagroup dg).data_df = none ∧ (parseDatagroup dg).statistics = none := by
  simp only [parseDatagroup]
  rw [if_pos (by simpa [List.isEmpty_iff] using h)]
  exact ⟨rfl, rfl⟩

theorem parseDatagroup_of_nonempty (dg : Elem)
    (h : ¬ dgRows (dgPropState (dg.findall "property")).1 (dg.findall "dataPoint") = []) :
    ∃ cols : List String,
      (parseDatagroup dg).data_df = some ⟨cols, (parseDatagroup dg).datapoints⟩
      ∧ (parseDatagroup dg).statistics
        = some ⟨(parseDatagroup dg).datapoints.length, cols,
            ((parseDatagroup dg).datapoints.length, cols.length)⟩ := by
  simp only [parseDatagroup]
  rw [if_neg (by simpa [List.isEmpty_iff] using h)]
  exact ⟨_, rfl, rfl⟩

theorem parsePropInfo_column_name (p : Elem) :
    (parsePropInfo p).column_name
      = claimColumnName (parsePropInfo p).species (parsePropInfo p).label
          (parsePropInfo p).name (parsePropInfo p).units := by
  unfold parsePropInfo claimColumnName
  cases hs : p.find "speciesLink" with
  | some sl => simp
  | none =>
      by_cases hl : p.getAttr "label" "" ≠ "" <;>
        by_cases hu : p.getAttr "units" "" ≠ "" <;>
          simp_all

/-! ## Claim C1: column-name derivation -/

/-- C1: for every property declared in a data group, the decoder derives its
`column_name` by the rule of the claim: a species link renders as
`"{preferredKey} ({units})"`; otherwise the label when present, else the
name, with the parenthetical omitted when `units` is empty (so a property
with neither label nor units yields exactly its name). -/
theorem C1_column_name_derivation (dg : Elem) (info : PropInfo)
    (h : info ∈ (parseDatagroup dg).properties) :
    info.column_name = claimColumnName info.species info.label info.name info.units := by
  rw [parseDatagroup_properties] at h
  rcases List.mem_map.mp h with ⟨p, _, rfl⟩
  exact parsePropInfo_column_name p

/-- Witness for C1 on the spec's concrete data group: the species-linked
CH4 column and the plain temperature column. -/
theorem C1_column_name_derivation_witness :
    (("CH4 (mole_fraction)" : String)
        = claimColumnName (some "CH4") "" "CH4" "mole_fraction")
    ∧ (("Temperature (K)" : String)
        = claimColumnName none "" "Temperature" "K") :=
  ⟨C1_column_name_derivation egDG
      ⟨some "x2", "CH4", "", "mole_fraction", some "CH4", "CH4 (mole_fraction)"⟩
      (by decide),
   C1_column_name_derivation egDG
      ⟨some "x1", "Temperature", "", "K", none, "Temperature (K)"⟩
      (by decide)⟩

/-! ## Claim C5: statistics match the table -/

/-- C5: for every decoded data group in which statistics is present, the
number of rows equals `statistics.num_points` and `statistics.columns` is
exactly the table's column order. -/
theorem C5_statistics_consistent (root : Elem) (g : DgData)
    (hg : g ∈ parse_datagroups root) (st : Stats) (hst : g.statistics = some st) :
    st.num_points = g.datapoints.length
    ∧ ∃ t : Table, g.data_df = some t ∧ st.columns = t.columns
        ∧ st.num_points = t.rows.length := by
  rcases List.mem_map.mp hg with ⟨dg, _, rfl⟩
  by_cases h : dgRows (dgPropState (dg.findall "property")).1 (dg.findall "dataPoint") = []
  · rcases parseDatagroup_of_empty dg h with ⟨-, h2⟩
    rw [h2] at hst
    cases hst
  · rcases parseDatagroup_of_nonempty dg h with ⟨cols, hdf, hs⟩
    rw [hs] at hst
    cases hst
    exact ⟨rfl, ⟨cols, (parseDatagroup dg).datapoints⟩, hdf, rfl, rfl⟩

/-- Witness for C5 on the spec's concrete document: statistics reports two
points over the two derived columns. -/
theorem C5_statistics_consistent_witness :
    (⟨2, ["Temperature (K)", "CH4 (mole_fraction)"], (2, 2)⟩ : Stats).num_points
        = (parseDatagroup egDG).datapoints.length
    ∧ ∃ t : Table, (parseDatagroup egDG).data_df = some t
        ∧ (⟨2, ["Temperature (K)", "CH4 (mole_fraction)"], (2, 2)⟩ : Stats).columns
            = t.columns
        ∧ (⟨2, ["Temperature (K)", "CH4 (mole_fraction)"], (2, 2)⟩ : Stats).num_points
            = t.rows.length :=
  C5_statistics_consistent egDoc (parseDatagroup egDG) (by decide)
    ⟨2, ["Temperature (K)", "CH4 (mole_fraction)"], (2, 2)⟩ (by decide)

/-! ## Claim C6: empty data groups -/

/-- C6: a decoded data group with zero surviving rows has no table, its
statistics field is omitted entirely, and its declared property descriptors
are still present, exactly as declared. -/
theorem C6_empty_group (root dg : Elem)
    (hdg : dg ∈ root.descendants) (htag : dg.tag = "dataGroup")
    (h : (parseDatagroup dg).datapoints = []) :
    (parseDatagroup dg).data_df = none
    ∧ (parseDatagroup dg).statistics = none
    ∧ (parseDatagroup dg).properties = (dg.findall "property").map parsePropInfo
    ∧ parseDatagroup dg ∈ parse_datagroups root := by
  rw [parseDatagroup_datapoints] at h
  rcases parseDatagroup_of_empty dg h with ⟨h1, h2⟩
  refine ⟨h1, h2, parseDatagroup_properties dg, ?_⟩
  unfold parse_datagroups
  refine List.mem_map.mpr ⟨dg, List.mem_filter.mpr ⟨?_, by simp [htag]⟩, rfl⟩
  rw [← descendants_eq_children]
  exact hdg

/-- Witness for C6 on a document with a pointless data group. -/
theorem C6_empty_group_witness :
    (parseDatagroup egEmptyDG).data_df = none
    ∧ (parseDatagroup egEmptyDG).statistics = none
    ∧ (parseDatagroup egEmptyDG).properties
        = (egEmptyDG.findall "property").map parsePropInfo
    ∧ parseDatagroup egEmptyDG ∈ parse_datagroups egDocEmptyDG :=
  C6_empty_group egDocEmptyDG egEmptyDG (by decide) (by decide) (by decide)


/-! ## Claim C3: the structural validator -/

theorem hasDataGroup_iff_filter (root : Elem) :
    hasDataGroup root ↔
      ((descendantsList root.children).filter (fun e => e.tag == "dataGroup")) ≠ [] := by
  unfold hasDataGroup
  rw [descendants_eq_children]
  constructor
  · rintro ⟨e, he, ht⟩ hnil
    have hmem : e ∈ (descendantsList root.children).filter (fun e => e.tag == "dataGroup") :=
      List.mem_filter.mpr ⟨he, by simp [ht]⟩
    rw [hnil] at hmem
    cases hmem
  · intro hne
    rcases List.exists_mem_of_ne_nil _ hne with ⟨e, he⟩
    rcases List.mem_filter.mp he with ⟨h1, h2⟩
    exact ⟨e, h1, by simpa using h2⟩

theorem validate_ok_spec (root : Elem) :
    ((validate_xml_structure (.ok root)).1 = true ↔
      ((root.find "experimentType").isSome ∧ (root.find "apparatus").isSome
        ∧ (root.find "commonProperties").isSome ∧ hasDataGroup root))
    ∧ ((validate_xml_structure (.ok root)).1 = false →
        (validate_xml_structure (.ok root)).2 ≠ [])
    ∧ ((root.find "experimentType").isSome → (root.find "apparatus").isSome →
        (root.find "commonProperties").isSome → ¬ hasDataGroup root →
        (validate_xml_structure (.ok root)).1 = false
          ∧ (validate_xml_structure (.ok root)).2.length = 1) := by
  have hfilt := hasDataGroup_iff_filter root
  by_cases h1 : root.find "experimentType" = none <;>
    by_cases h2 : root.find "apparatus" = none <;>
      by_cases h3 : root.find "commonProperties" = none <;>
        by_cases h4 :
          ((descendantsList root.children).filter (fun e => e.tag == "dataGroup")) = [] <;>
          simp_all [validate_xml_structure, Option.isNone_iff_eq_none,
            Option.isSome_iff_ne_none, List.isEmpty_iff] <;>
            (split <;> simp)

/-- C3: validation of a well-formed document succeeds exactly when
`experimentType`, `apparatus` and `commonProperties` are children of the
root and some `dataGroup` exists at any depth; a failed validation carries a
non-empty error list; when only the data groups are missing the error list
has exactly one entry; and a malformed document yields `ok = false` with a
single parse error, without raising. -/
theorem C3_validator (doc : Except String Elem) :
    (∀ root, doc = .ok root →
      ((validate_xml_structure doc).1 = true ↔
        ((root.find "experimentType").isSome ∧ (root.find "apparatus").isSome
          ∧ (root.find "commonProperties").isSome ∧ hasDataGroup root)))
    ∧ ((validate_xml_structure doc).1 = false → (validate_xml_structure doc).2 ≠ [])
    ∧ (∀ root, doc = .ok root →
        (root.find "experimentType").isSome → (root.find "apparatus").isSome →
        (root.find "commonProperties").isSome → ¬ hasDataGroup root →
        (validate_xml_structure doc).1 = false
          ∧ (validate_xml_structure doc).2.length = 1)
    ∧ (∀ msg, doc = .error msg →
        (validate_xml_structure doc).1 = false
          ∧ (validate_xml_structure doc).2.length = 1) := by
  cases doc with
  | error msg =>
      refine ⟨fun root h => Except.noConfusion h, ?_,
        fun root h => Except.noConfusion h, ?_⟩
      · intro _
        simp [validate_xml_structure]
      · intro m h
        cases h
        simp [validate_xml_structure]
  | ok root =>
      rcases validate_ok_spec root with ⟨ha, hb, hc⟩
      refine ⟨?_, hb, ?_, fun m h => Except.noConfusion h⟩
      · intro r h
        injection h with h
        subst h
        exact ha
      · intro r h
        injection h with h
        subst h
        exact hc

/-- Witness for C3: the three required elements present with zero data
groups give exactly one error, and a malformed document gives exactly one
error. -/
theorem C3_validator_witness :
    ((validate_xml_structure (.ok egNoDG)).1 = false
      ∧ (validate_xml_structure (.ok egNoDG)).2.length = 1)
    ∧ ((validate_xml_structure (.error "syntax error: line 1")).1 = false
      ∧ (validate_xml_structure (.error "syntax error: line 1")).2.length = 1) :=
  ⟨(C3_validator (.ok egNoDG)).2.2.1 egNoDG rfl (by decide) (by decide) (by decide)
      (by rw [hasDataGroup_iff_filter]; decide),
   (C3_validator (.error "syntax error: line 1")).2.2.2 "syntax error: line 1" rfl⟩


/-! ## Claim C4: composition amount decoding (corrected) -/

/-- Counterexample to C4: a component whose amount text is the non-empty,
unparsable string `"abc"` does not decode to 0 — the whole decode fails
with a `ValueError`, contradicting "decoding the components never fails for
this reason". -/
theorem C4_counterexample :
    parse_experiment egBadAmount
      = .error "could not convert string to float: abc" := by
  decide

/-- C4 (amended): a component's amount decodes to 0 exactly when the amount
text is missing or empty; a non-empty text that does not parse as a float
makes the decode fail with a conversion error instead of defaulting to 0. -/
theorem C4_amended_amount_default (am : Elem) :
    ((am.text = none ∨ am.text = some "") → amountValue am = .ok 0)
    ∧ (∀ s, am.text = some s → s ≠ "" → pyFloat? s = none →
        amountValue am = .error ("could not convert string to float: " ++ s)) := by
  constructor
  · rintro (h | h) <;> simp [amountValue, h]
  · intro s hs hne hp
    simp [amountValue, hs, hne, hp]

/-- Witness for the amended C4: an absent text gives 0 and the text `"abc"`
raises. -/
theorem C4_amended_amount_default_witness :
    amountValue egAmountEmpty = .ok 0
    ∧ amountValue egAmountBad = .error "could not convert string to float: abc" :=
  ⟨(C4_amended_amount_default egAmountEmpty).1 (Or.inl rfl),
   (C4_amended_amount_default egAmountBad).2 "abc" rfl (by decide) (by decide)⟩

/-! ## Claim C10: components without speciesLink or amount are skipped -/

/-- C10: a component that lacks a `speciesLink` child or an `amount` child
is silently skipped: the decoded composition (and the success of decoding)
is exactly as if the component were not there at all — no entry, no error,
no warning. -/
theorem C10_component_skipped (cs1 cs2 : List Elem) (c : Elem)
    (h : c.find "speciesLink" = none ∨ c.find "amount" = none) :
    parseComponents (cs1 ++ c :: cs2) = parseComponents (cs1 ++ cs2) := by
  unfold parseComponents
  rw [List.foldlM_append, List.foldlM_append]
  refine congrArg _ (funext fun acc => ?_)
  rw [List.foldlM_cons]
  rcases h with h | h
  · rw [h]
    cases hc : c.find "amount" <;> simp
  · rw [h]
    cases hc : c.find "speciesLink" <;> simp

/-- Witness for C10: dropping the linkless component changes nothing. -/
theorem C10_component_skipped_witness :
    parseComponents [egCompFull, egCompNoLink] = parseComponents [egCompFull] :=
  C10_component_skipped [egCompFull] [] egCompNoLink (Or.inl (by decide))

/-! ## Claim C8: the encoder degrades to defaults -/

/-- C8: the encoder is total on drafts — every field it reads from
`basic_info` and `conditions` is optional and replaced by a default when
absent, so encoding never raises; in particular the `fileAuthor` element
text is exactly `basic_info.author` defaulted to `"Unknown"`, and it
survives serialization as `"Unknown"` when the author is absent (the
`apparatus/kind` element likewise defaults to `"JSR"`). -/
theorem C8_encoder_defaults (d : Draft) :
    ((create_enhanced_xml d).find "fileAuthor").map Elem.text
        = some (some (d.basic_info.author.getD "Unknown"))
    ∧ (d.basic_info.author = none →
        ((prettyReparse 0 (create_enhanced_xml d)).find "fileAuthor").map Elem.text
          = some (some "Unknown"))
    ∧ (((create_enhanced_xml d).find "apparatus").bind (fun a => a.find "kind")).map
          Elem.text
        = some (some (d.basic_info.reactor.getD "JSR")) := by
  refine ⟨?_, ?_, ?_⟩
  · simp [create_enhanced_xml, el, Elem.find, Elem.children, Elem.tag, Elem.text]
  · intro h
    simp [create_enhanced_xml, el, h, prettyReparse, prettyReparseList,
      Elem.find, Elem.children, Elem.tag, Elem.text]
    decide
  · cases hb : optTruthy d.basic_info.doi <;>
      cases hr : optTruthy d.basic_info.reference.author
          && optTruthy d.basic_info.reference.title <;>
        simp [create_enhanced_xml, el, hb, hr, Elem.find, Elem.children, Elem.tag,
          Elem.text]

/-- Witness for C8: a draft with no author encodes with author `"Unknown"`. -/
theorem C8_encoder_defaults_witness :
    ((prettyReparse 0 (create_enhanced_xml egDraftNoAuthor)).find "fileAuthor").map
        Elem.text
      = some (some "Unknown") :=
  (C8_encoder_defaults egDraftNoAuthor).2.1 rfl


/-! ## Claim C9: the raw-text scalar entry of the composition property -/

theorem dictSet_lookup_self {α : Type} (d : List (String × α)) (k : String) (v : α) :
    (dictSet d k v).lookup k = some v := by
  induction d with
  | nil => simp [dictSet, List.lookup]
  | cons kv rest ih =>
      obtain ⟨k', v'⟩ := kv
      by_cases h : k' = k
      · subst h
        simp [dictSet, List.lookup]
      · have hb : (k == k') = false := by simp [Ne.symm h]
        simp [dictSet, h, List.lookup, hb, ih]

theorem dictSet_lookup_ne {α : Type} (d : List (String × α)) (k k' : String) (v : α)
    (h : k' ≠ k) : (dictSet d k v).lookup k' = d.lookup k' := by
  have hb : (k' == k) = false := by simp [h]
  induction d with
  | nil => simp [dictSet, List.lookup, hb]
  | cons kv rest ih =>
      obtain ⟨k'', v''⟩ := kv
      by_cases hk : k'' = k
      · subst hk
        simp [dictSet, List.lookup, hb]
      · simp [dictSet, hk, List.lookup, ih]

theorem mem_descList_of_mem {x : Elem} {l : List Elem} (h : x ∈ l) :
    x ∈ descendantsList l := by
  induction l with
  | nil => cases h
  | cons c cs ih =>
      rw [descendantsList]
      rcases List.mem_cons.mp h with h | h
      · exact h ▸ List.mem_cons_self _ _
      · exact List.mem_cons_of_mem _ (List.mem_append_right _ (ih h))

theorem cpFold_lookup_skip (l : List Elem) (d : List (String × CPEntry)) (k : String)
    (h : ∀ q ∈ l, (parseCommonProp q).1 ≠ k) :
    (l.foldl
        (fun d p =>
          let kv := parseCommonProp p
          dictSet d kv.1 (.scalar kv.2))
        d).lookup k
      = d.lookup k := by
  induction l generalizing d with
  | nil => rfl
  | cons q l ih =>
      rw [List.foldl_cons]
      rw [ih _ (fun r hr => h r (List.mem_cons_of_mem _ hr))]
      exact dictSet_lookup_ne _ _ _ _ (Ne.symm (h q (List.mem_cons_self _ _)))

/-- C9: when `commonProperties` declares a property named
`"initial composition"` (with no label, no `value` child, and no later
property binding the same key), the decoded mapping carries — besides the
`"initial_composition"` species mapping — a scalar entry under the
property's own name whose value is the element's raw text, because the
generic property loop does not exclude the composition property. -/
theorem C9_generic_composition_entry (root cp p : Elem) (l1 l2 : List Elem)
    (hcp : root.find "commonProperties" = some cp)
    (hsplit : cp.findall "property" = l1 ++ p :: l2)
    (hname : p.attr? "name" = some "initial composition")
    (hlabel : p.getAttr "label" "" = "")
    (hnoval : p.find "value" = none)
    (hlast : ∀ q ∈ l2, (parseCommonProp q).1 ≠ "initial composition")
    (res : List (String × CPEntry))
    (hok : parse_common_properties root = .ok res) :
    res.lookup "initial composition"
        = some (.scalar ⟨rawText p.text, p.getAttr "units" "", "initial composition"⟩)
    ∧ ∃ m, res.lookup "initial_composition" = some (.comp m) := by
  have hmem : p ∈ cp.findall "property" := by
    rw [hsplit]
    exact List.mem_append_right _ (List.mem_cons_self _ _)
  have hmf : p ∈ cp.children ∧ p.tag = "property" := by
    simpa [Elem.findall, List.mem_filter] using hmem
  obtain ⟨hpmem, htag⟩ := hmf
  have hdesc : p ∈ descendantsList cp.children := mem_descList_of_mem hpmem
  have hfind : ((descendantsList cp.children).find?
      (fun e => e.tag == "property" && e.attr? "name" == some "initial composition")).isSome :=
    List.find?_isSome.mpr ⟨p, hdesc, by simp [htag, hname]⟩
  obtain ⟨ic, hic⟩ := Option.isSome_iff_exists.mp hfind
  have hname' : List.lookup "name" p.attrs = some "initial composition" := by
    simpa [Elem.attr?] using hname
  have hlabel' : (List.lookup "label" p.attrs).getD "" = "" := by
    simpa [Elem.getAttr] using hlabel
  have hkey : (parseCommonProp p).1 = "initial composition" := by
    simp [parseCommonProp, Elem.getAttr, Elem.attr?, hname', hlabel']
  have hval : (parseCommonProp p).2
      = ⟨rawText p.text, p.getAttr "units" "", "initial composition"⟩ := by
    simp [parseCommonProp, hnoval, Elem.getAttr, Elem.attr?, hname']
  unfold parse_common_properties at hok
  rw [hcp] at hok
  simp only [hic] at hok
  cases hpc : parseComponents (ic.findall "component") with
  | error msg =>
      rw [hpc] at hok
      cases hok
  | ok m =>
      rw [hpc] at hok
      injection hok with hok
      subst hok
      refine ⟨?_, m, dictSet_lookup_self _ _ _⟩
      rw [dictSet_lookup_ne _ _ _ _ (by decide)]
      rw [hsplit, List.foldl_append, List.foldl_cons]
      rw [cpFold_lookup_skip _ _ _ hlast]
      show (dictSet _ (parseCommonProp p).1 (CPEntry.scalar (parseCommonProp p).2)).lookup _ = _
      rw [hkey, hval]
      exact dictSet_lookup_self _ _ _

/-- Witness for C9 on the concrete document: the decoded mapping holds the
raw-text entry and the species mapping side by side. -/
theorem C9_generic_composition_entry_witness :
    ([("T", CPEntry.scalar ⟨.num (mkRat 800 1), "K", "temperature"⟩),
      ("initial composition",
        CPEntry.scalar ⟨.str "\n  ", "", "initial composition"⟩),
      ("initial_composition",
        CPEntry.comp [("CH4", ⟨mkRat 3 10, "mole_fraction"⟩)])].lookup
          "initial composition"
        = some (.scalar ⟨rawText egICProp.text, egICProp.getAttr "units" "",
            "initial composition"⟩))
    ∧ ∃ m,
        [("T", CPEntry.scalar ⟨.num (mkRat 800 1), "K", "temperature"⟩),
         ("initial composition",
           CPEntry.scalar ⟨.str "\n  ", "", "initial composition"⟩),
         ("initial_composition",
           CPEntry.comp [("CH4", ⟨mkRat 3 10, "mole_fraction"⟩)])].lookup
            "initial_composition"
          = some (.comp m) :=
  C9_generic_composition_entry egCompDoc egCP egICProp [egTempProp] []
    (by decide) (by decide) (by decide) (by decide) (by decide)
    (by decide)
    [("T", CPEntry.scalar ⟨.num (mkRat 800 1), "K", "temperature"⟩),
     ("initial composition",
       CPEntry.scalar ⟨.str "\n  ", "", "initial composition"⟩),
     ("initial_composition",
       CPEntry.comp [("CH4", ⟨mkRat 3 10, "mole_fraction"⟩)])]
    (by decide)

/-! ## Claim C2: column order (corrected) -/

theorem pmSet_lookup_self (d : List (Option String × PropInfo)) (k : Option String)
    (v : PropInfo) : (pmSet d k v).lookup k = some v := by
  induction d with
  | nil => simp [pmSet, List.lookup]
  | cons kv rest ih =>
      obtain ⟨k', v'⟩ := kv
      by_cases h : k' = k
      · subst h
        simp [pmSet, List.lookup]
      · have hb : (k == k') = false := by simp [Ne.symm h]
        simp [pmSet, h, List.lookup, hb, ih]

theorem pmSet_lookup_ne (d : List (Option String × PropInfo)) (k k' : Option String)
    (v : PropInfo) (h : k' ≠ k) : (pmSet d k v).lookup k' = d.lookup k' := by
  have hb : (k' == k) = false := by simp [h]
  induction d with
  | nil => simp [pmSet, List.lookup, hb]
  | cons kv rest ih =>
      obtain ⟨k'', v''⟩ := kv
      by_cases hk : k'' = k
      · subst hk
        simp [pmSet, List.lookup, hb]
      · simp [pmSet, hk, List.lookup, ih]

theorem pmFold_lookup_skip (ps : List Elem) (acc : List (Option String × PropInfo))
    (k : Option String) (h : ∀ q ∈ ps, (parsePropInfo q).id ≠ k) :
    (ps.foldl (fun pm q => pmSet pm (parsePropInfo q).id (parsePropInfo q)) acc).lookup k
      = acc.lookup k := by
  induction ps generalizing acc with
  | nil => rfl
  | cons q rest ih =>
      rw [List.foldl_cons]
      rw [ih _ (fun r hr => h r (List.mem_cons_of_mem _ hr))]
      exact pmSet_lookup_ne _ _ _ _ (Ne.symm (h q (List.mem_cons_self _ _)))

theorem pmFold_lookup (ps : List Elem) (acc : List (Option String × PropInfo))
    (hids : (ps.map (fun p => (parsePropInfo p).id)).Nodup) (p : Elem) (hp : p ∈ ps) :
    (ps.foldl (fun pm q => pmSet pm (parsePropInfo q).id (parsePropInfo q)) acc).lookup
        (parsePropInfo p).id = some (parsePropInfo p) := by
  induction ps generalizing acc with
  | nil => cases hp
  | cons q rest ih =>
      rw [List.map_cons, List.nodup_cons] at hids
      rcases List.mem_cons.mp hp with h | h
      · subst h
        rw [List.foldl_cons]
        rw [pmFold_lookup_skip _ _ _ ?_]
        · exact pmSet_lookup_self _ _ _
        · intro r hr hk
          exact hids.1 (by
            rw [← hk]
            exact List.mem_map_of_mem _ hr)
      · rw [List.foldl_cons]
        exact ih _ hids.2 h

theorem pm_values_sub (ps : List Elem) (acc : List (Option String × PropInfo))
    (k : Option String) (info : PropInfo)
    (h : (ps.foldl (fun pm q => pmSet pm (parsePropInfo q).id (parsePropInfo q)) acc).lookup k
      = some info) :
    info ∈ ps.map parsePropInfo ∨ acc.lookup k = some info := by
  induction ps generalizing acc with
  | nil => exact Or.inr h
  | cons q rest ih =>
      rw [List.foldl_cons] at h
      rcases ih _ h with h1 | h1
      · exact Or.inl (List.mem_cons_of_mem _ h1)
      · by_cases hk : k = (parsePropInfo q).id
        · subst hk
          rw [pmSet_lookup_self] at h1
          injection h1 with h1
          exact Or.inl (h1 ▸ List.mem_cons_self _ _)
        · rw [pmSet_lookup_ne _ _ _ _ hk] at h1
          exact Or.inr h1


theorem mem_inner_fold (row : List (String × PyVal)) (acc : List String) (c : String) :
    (c ∈ row.foldl (fun cs kv => if cs.contains kv.1 then cs else cs ++ [kv.1]) acc)
      ↔ (c ∈ acc ∨ ∃ kv ∈ row, kv.1 = c) := by
  induction row generalizing acc with
  | nil => simp
  | cons kv rest ih =>
      rw [List.foldl_cons]
      rw [ih]
      by_cases h : acc.contains kv.1
      · simp only [h, if_pos]
        constructor
        · rintro (h1 | h1)
          · exact Or.inl h1
          · exact Or.inr (by simpa using Or.inr h1)
        · rintro (h1 | ⟨kv', hkv', hc⟩)
          · exact Or.inl h1
          · rcases List.mem_cons.mp hkv' with h2 | h2
            · subst h2
              exact Or.inl (by rw [← hc]; simpa using h)
            · exact Or.inr ⟨kv', h2, hc⟩
      · simp only [h, if_neg, Bool.false_eq_true, not_false_iff]
        constructor
        · rintro (h1 | h1)
          · rcases List.mem_append.mp h1 with h2 | h2
            · exact Or.inl h2
            · exact Or.inr ⟨kv, List.mem_cons_self _ _, by simpa using (List.mem_singleton.mp h2).symm⟩
          · exact Or.inr (by
              rcases h1 with ⟨kv', hkv', hc⟩
              exact ⟨kv', List.mem_cons_of_mem _ hkv', hc⟩)
        · rintro (h1 | ⟨kv', hkv', hc⟩)
          · exact Or.inl (List.mem_append_left _ h1)
          · rcases List.mem_cons.mp hkv' with h2 | h2
            · subst h2
              exact Or.inl (List.mem_append_right _ (by simp [hc]))
            · exact Or.inr ⟨kv', h2, hc⟩

theorem mem_dfColumns_iff (rows : List (List (String × PyVal))) (c : String) :
    c ∈ dfColumns rows ↔ ∃ row ∈ rows, ∃ kv ∈ row, kv.1 = c := by
  unfold dfColumns
  suffices h : ∀ acc, (c ∈ rows.foldl
      (fun cols row =>
        row.foldl (fun cs kv => if cs.contains kv.1 then cs else cs ++ [kv.1]) cols)
      acc) ↔ (c ∈ acc ∨ ∃ row ∈ rows, ∃ kv ∈ row, kv.1 = c) by
    simpa using h []
  intro acc
  induction rows generalizing acc with
  | nil => simp
  | cons row rest ih =>
      rw [List.foldl_cons, ih, mem_inner_fold]
      constructor
      · rintro ((h | h) | h)
        · exact Or.inl h
        · exact Or.inr ⟨row, List.mem_cons_self _ _, h⟩
        · rcases h with ⟨r, hr, hkv⟩
          exact Or.inr ⟨r, List.mem_cons_of_mem _ hr, hkv⟩
      · rintro (h | ⟨r, hr, hkv⟩)
        · exact Or.inl (Or.inl h)
        · rcases List.mem_cons.mp hr with h2 | h2
          · subst h2
            exact Or.inl (Or.inr hkv)
          · exact Or.inr ⟨r, h2, hkv⟩

theorem appearsIn_iff (rows : List (List (String × PyVal))) (c : String) :
    appearsIn rows c = true ↔ ∃ row ∈ rows, ∃ kv ∈ row, kv.1 = c := by
  simp [appearsIn]


theorem mem_dictSet_sub {α : Type} {d : List (String × α)} {k : String} {v : α}
    {kv : String × α} (h : kv ∈ dictSet d k v) : kv = (k, v) ∨ kv ∈ d := by
  induction d with
  | nil => simpa [dictSet] using h
  | cons kv' rest ih =>
      obtain ⟨k', v'⟩ := kv'
      by_cases hk : k' = k
      · subst hk
        rcases List.mem_cons.mp (by simpa [dictSet] using h) with h1 | h1
        · exact Or.inl h1
        · exact Or.inr (List.mem_cons_of_mem _ h1)
      · rcases List.mem_cons.mp (by simpa [dictSet, hk] using h) with h1 | h1
        · exact Or.inr (h1 ▸ List.mem_cons_self _ _)
        · rcases ih h1 with h2 | h2
          · exact Or.inl h2
          · exact Or.inr (List.mem_cons_of_mem _ h2)

theorem parsePoint_keys (pm : List (Option String × PropInfo)) (dp : Elem) :
    ∀ kv ∈ parsePoint pm dp,
      ∃ k info, pm.lookup k = some info ∧ kv.1 = info.column_name := by
  unfold parsePoint
  suffices h : ∀ (cs : List Elem) (acc : List (String × PyVal)),
      (∀ kv ∈ acc, ∃ k info, pm.lookup k = some info ∧ kv.1 = info.column_name) →
      ∀ kv ∈ cs.foldl
          (fun pd child =>
            match pm.lookup (some child.tag) with
            | some info => dictSet pd info.column_name (coerceText child.text)
            | none => pd)
          acc,
        ∃ k info, pm.lookup k = some info ∧ kv.1 = info.column_name by
    exact h dp.children [] (by simp)
  intro cs
  induction cs with
  | nil => intro acc hacc kv hkv; exact hacc kv hkv
  | cons child rest ih =>
      intro acc hacc kv hkv
      rw [List.foldl_cons] at hkv
      cases hc : pm.lookup (some child.tag) with
      | none =>
          rw [hc] at hkv
          exact ih _ hacc kv hkv
      | some info =>
          rw [hc] at hkv
          refine ih _ ?_ kv hkv
          intro kv' hkv'
          rcases mem_dictSet_sub hkv' with h1 | h1
          · exact ⟨some child.tag, info, hc, by rw [h1]⟩
          · exact hacc kv' h1

theorem dgRows_mem (pm : List (Option String × PropInfo)) (dps : List Elem)
    (acc : List (List (String × PyVal))) (row : List (String × PyVal))
    (h : row ∈ dps.foldl
        (fun rs dp =>
          let pd := parsePoint pm dp
          if pd.isEmpty then rs else rs ++ [pd])
        acc) :
    row ∈ acc ∨ (row ≠ [] ∧ ∃ dp ∈ dps, row = parsePoint pm dp) := by
  induction dps generalizing acc with
  | nil => exact Or.inl h
  | cons dp rest ih =>
      rw [List.foldl_cons] at h
      rcases ih _ h with h1 | h1
      · by_cases he : (parsePoint pm dp).isEmpty
        · simp only [he, if_pos] at h1
          exact Or.inl h1
        · simp only [he, if_neg, Bool.false_eq_true, not_false_iff] at h1
          rcases List.mem_append.mp h1 with h2 | h2
          · exact Or.inl h2
          · refine Or.inr ⟨?_, dp, List.mem_cons_self _ _, List.mem_singleton.mp h2⟩
            rw [List.mem_singleton.mp h2]
            simpa [List.isEmpty_iff] using he
      · rcases h1 with ⟨hne, dp', hdp', hrow⟩
        exact Or.inr ⟨hne, dp', List.mem_cons_of_mem _ hdp', hrow⟩

theorem dgOrdered1_foldl (pm : List (Option String × PropInfo)) (ps : List Elem)
    (display init : List String)
    (hl : ∀ p ∈ ps, pm.lookup (parsePropInfo p).id = some (parsePropInfo p)) :
    (ps.map (fun p => (parsePropInfo p).id)).foldl
        (fun oc pid =>
          match pm.lookup pid with
          | some info =>
              if display.contains info.column_name then oc ++ [info.column_name] else oc
          | none => oc)
        init
      = init ++ ((ps.map parsePropInfo).map PropInfo.column_name).filter
          (fun c => display.contains c) := by
  induction ps generalizing init with
  | nil => simp
  | cons p rest ih =>
      rw [List.map_cons, List.foldl_cons]
      rw [hl p (List.mem_cons_self _ _)]
      by_cases hd : display.contains (parsePropInfo p).column_name
      · have hd' : (parsePropInfo p).column_name ∈ display := by simpa using hd
        simp only [hd, if_pos]
        rw [ih _ (fun r hr => hl r (List.mem_cons_of_mem _ hr))]
        simp [List.filter_cons, hd']
      · have hd' : ¬ (parsePropInfo p).column_name ∈ display := by simpa using hd
        simp only [hd, if_neg, Bool.false_eq_true, not_false_iff]
        rw [ih _ (fun r hr => hl r (List.mem_cons_of_mem _ hr))]
        simp [List.filter_cons, hd']

theorem dgOrdered2_no_new (display oc : List String) (h : ∀ c ∈ display, c ∈ oc) :
    dgOrdered2 display oc = oc := by
  unfold dgOrdered2
  induction display generalizing oc with
  | nil => rfl
  | cons c rest ih =>
      rw [List.foldl_cons]
      have hc : oc.contains c := by
        simpa using h c (List.mem_cons_self _ _)
      rw [if_pos hc]
      exact ih _ (fun c' hc' => h c' (List.mem_cons_of_mem _ hc'))


theorem parseDatagroup_df_eq (dg : Elem)
    (h : ¬ dgRows (dgPropState (dg.findall "property")).1 (dg.findall "dataPoint") = []) :
    (parseDatagroup dg).data_df
      = some ⟨dgFinalCols dg,
          dgRows (dgPropState (dg.findall "property")).1 (dg.findall "dataPoint")⟩ := by
  simp only [parseDatagroup, dgFinalCols]
  rw [if_neg (by simpa [List.isEmpty_iff] using h)]

/-- Counterexample to C2: a data point carrying the field `foo`, whose tag
matches no declared property id, yields a table whose only column is the
declared `"A"` — the unmatched field is discarded, not appended after the
declared columns as the claim states. -/
theorem C2_counterexample :
    (parseDatagroup egUnmatched).data_df
        = some ⟨["A"], [[("A", PyVal.num (mkRat 1 1))]]⟩
    ∧ (parseDatagroup egUnmatched).data_df.map Table.columns ≠ some ["A", "foo"] := by
  decide

/-- C2 (amended): the reconstructed table's column order is the declared
properties in declaration order, restricted to those columns that appear in
at least one row; a data-point field whose tag matches no declared property
id is discarded entirely (it contributes neither a row entry nor a column).
Stated under the §3 invariant that property ids are unique within a data
group and with no derived column name starting with `'_'` (such columns are
additionally dropped by the display filter). -/
theorem C2_amended_column_order (dg : Elem)
    (hids : ((dg.findall "property").map (fun p => (parsePropInfo p).id)).Nodup)
    (hus : ∀ p ∈ dg.findall "property",
      startsWithUnderscore (parsePropInfo p).column_name = false)
    (hrows : (parseDatagroup dg).datapoints ≠ []) :
    (∃ t, (parseDatagroup dg).data_df = some t
      ∧ t.columns
          = (((dg.findall "property").map parsePropInfo).map PropInfo.column_name).filter
              (appearsIn (parseDatagroup dg).datapoints))
    ∧ (∀ row ∈ (parseDatagroup dg).datapoints, ∀ kv ∈ row,
        kv.1 ∈ ((dg.findall "property").map parsePropInfo).map PropInfo.column_name) := by
  have hdp := parseDatagroup_datapoints dg
  have hrows' : dgRows (dgPropState (dg.findall "property")).1 (dg.findall "dataPoint") ≠ [] := by
    rw [← hdp]
    exact hrows
  have hlook : ∀ p ∈ dg.findall "property",
      (dgPropState (dg.findall "property")).1.lookup (parsePropInfo p).id
        = some (parsePropInfo p) := by
    intro p hp
    rw [dgPropState_pm]
    exact pmFold_lookup _ [] hids p hp
  -- every key of every surviving row is a declared column name
  have hkeys : ∀ row ∈ dgRows (dgPropState (dg.findall "property")).1 (dg.findall "dataPoint"),
      row ≠ [] ∧ ∀ kv ∈ row,
        kv.1 ∈ ((dg.findall "property").map parsePropInfo).map PropInfo.column_name := by
    intro row hrow
    rcases dgRows_mem _ _ [] row (by simpa [dgRows] using hrow) with h1 | ⟨hne, dp, _, hrow'⟩
    · cases h1
    · subst hrow'
      refine ⟨hne, fun kv hkv => ?_⟩
      rcases parsePoint_keys _ dp kv hkv with ⟨k, info, hk, hcn⟩
      rw [dgPropState_pm] at hk
      rcases pm_values_sub _ [] k info hk with h2 | h2
      · rw [hcn]
        exact List.mem_map_of_mem _ h2
      · simp [List.lookup] at h2
  -- shorthand
  set rows := dgRows (dgPropState (dg.findall "property")).1 (dg.findall "dataPoint") with hrowsdef
  -- the underscore filter is vacuous
  have hdisp : (dfColumns rows).filter (fun c => !(startsWithUnderscore c)) = dfColumns rows := by
    apply List.filter_eq_self.mpr
    intro c hc
    rcases (mem_dfColumns_iff rows c).mp hc with ⟨row, hrow, kv, hkv, hc'⟩
    have hmem := (hkeys row hrow).2 kv hkv
    rw [hc'] at hmem
    rcases List.mem_map.mp hmem with ⟨info, hinfo, hcn⟩
    rcases List.mem_map.mp hinfo with ⟨p, hp, hpi⟩
    rw [← hcn, ← hpi]
    simp [hus p hp]
  -- the first ordering loop is the declared-order filter
  have hord1 : dgOrdered1 (dgPropState (dg.findall "property")).1
      (dgPropState (dg.findall "property")).2.1 (dfColumns rows)
      = (((dg.findall "property").map parsePropInfo).map PropInfo.column_name).filter
          (fun c => (dfColumns rows).contains c) := by
    rw [dgPropState_order]
    unfold dgOrdered1
    have := dgOrdered1_foldl (dgPropState (dg.findall "property")).1 (dg.findall "property")
      (dfColumns rows) [] hlook
    simpa using this
  -- every displayed column is already in the first loop's output
  have hsub : ∀ c ∈ dfColumns rows,
      c ∈ (((dg.findall "property").map parsePropInfo).map PropInfo.column_name).filter
          (fun c => (dfColumns rows).contains c) := by
    intro c hc
    rcases (mem_dfColumns_iff rows c).mp hc with ⟨row, hrow, kv, hkv, hc'⟩
    have hmem := (hkeys row hrow).2 kv hkv
    rw [hc'] at hmem
    exact List.mem_filter.mpr ⟨hmem, by simpa using hc⟩
  -- hence the second loop adds nothing
  have hord2 : dgOrdered2 (dfColumns rows)
      ((((dg.findall "property").map parsePropInfo).map PropInfo.column_name).filter
          (fun c => (dfColumns rows).contains c))
      = (((dg.findall "property").map parsePropInfo).map PropInfo.column_name).filter
          (fun c => (dfColumns rows).contains c) :=
    dgOrdered2_no_new _ _ hsub
  -- the result is non-empty
  have hone : ∃ c, c ∈ dfColumns rows := by
    rcases List.exists_mem_of_ne_nil _ hrows' with ⟨row, hrow⟩
    rcases List.exists_mem_of_ne_nil _ (hkeys row hrow).1 with ⟨kv, hkv⟩
    exact ⟨kv.1, (mem_dfColumns_iff rows kv.1).mpr ⟨row, hrow, kv, hkv, rfl⟩⟩
  have hnonempty : (((dg.findall "property").map parsePropInfo).map PropInfo.column_name).filter
      (fun c => (dfColumns rows).contains c) ≠ [] := by
    rcases hone with ⟨c, hc⟩
    intro hnil
    have := hsub c hc
    rw [hnil] at this
    cases this
  -- assemble the final column list
  have hfinal : dgFinalCols dg
      = (((dg.findall "property").map parsePropInfo).map PropInfo.column_name).filter
          (fun c => (dfColumns rows).contains c) := by
    simp only [dgFinalCols]
    rw [← hrowsdef]
    rw [hdisp, hord1, hord2]
    rw [if_neg (by simpa [List.isEmpty_iff] using hnonempty)]
  -- convert the contains predicate to appearsIn
  have hconv : (((dg.findall "property").map parsePropInfo).map PropInfo.column_name).filter
        (fun c => (dfColumns rows).contains c)
      = (((dg.findall "property").map parsePropInfo).map PropInfo.column_name).filter
          (appearsIn rows) := by
    apply List.filter_congr
    intro c _
    by_cases h : c ∈ dfColumns rows
    · have h2 : appearsIn rows c = true := (appearsIn_iff rows c).mpr ((mem_dfColumns_iff rows c).mp h)
      simp [h, h2]
    · have h2 : appearsIn rows c = false := by
        rcases hb : appearsIn rows c with _ | _
        · rfl
        · exact absurd ((mem_dfColumns_iff rows c).mpr ((appearsIn_iff rows c).mp hb)) h
      simp [h, h2]
  refine ⟨⟨⟨dgFinalCols dg, rows⟩, parseDatagroup_df_eq dg hrows', ?_⟩, ?_⟩
  · rw [hfinal, hconv, hdp]
  · intro row hrow kv hkv
    rw [hdp] at hrow
    exact (hkeys row hrow).2 kv hkv


/-- Witness for the amended C2 on the spec's concrete data group: both
declared columns appear, in declaration order. -/
theorem C2_amended_column_order_witness :
    (∃ t, (parseDatagroup egDG).data_df = some t
      ∧ t.columns
          = (((egDG.findall "property").map parsePropInfo).map PropInfo.column_name).filter
              (appearsIn (parseDatagroup egDG).datapoints))
    ∧ (∀ row ∈ (parseDatagroup egDG).datapoints, ∀ kv ∈ row,
        kv.1 ∈ ((egDG.findall "property").map parsePropInfo).map PropInfo.column_name) :=
  C2_amended_column_order egDG (by decide) (by decide) (by decide)




theorem char_digit_toNat (d : ℕ) (h : d < 10) :
    (Char.ofNat (48 + d)).toNat = 48 + d := by
  interval_cases d <;> decide

theorem char_digit_isDigit (d : ℕ) (h : d < 10) :
    (Char.ofNat (48 + d)).isDigit = true := by
  interval_cases d <;> decide

theorem digitsVal_append (l1 l2 : List Char) :
    digitsVal (l1 ++ l2) = l2.foldl (fun n c => 10 * n + (c.toNat - 48)) (digitsVal l1) := by
  unfold digitsVal
  rw [List.foldl_append]

theorem digitsVal_snoc (l : List Char) (c : Char) :
    digitsVal (l ++ [c]) = 10 * digitsVal l + (c.toNat - 48) := by
  rw [digitsVal_append]
  rfl

theorem natDigitsF_spec (f : ℕ) : ∀ n, n ≤ f →
    (∀ d ∈ natDigitsF f n, d < 10)
    ∧ digitsVal ((natDigitsF f n).reverse.map (fun d => Char.ofNat (48 + d))) = n
    ∧ natDigitsF f n ≠ [] := by
  induction f with
  | zero =>
      intro n hn
      interval_cases n
      refine ⟨?_, ?_, ?_⟩ <;> simp [natDigitsF, digitsVal]
  | succ f ih =>
      intro n hn
      by_cases h10 : n < 10
      · refine ⟨?_, ?_, ?_⟩ <;> simp [natDigitsF, h10, digitsVal]
        · have := char_digit_toNat n h10
          omega
      · have hrec := ih (n / 10) (by omega)
        have hstep : natDigitsF (f + 1) n = n % 10 :: natDigitsF f (n / 10) := by
          simp [natDigitsF, h10]
        refine ⟨?_, ?_, ?_⟩
        · intro d hd
          rw [hstep] at hd
          rcases List.mem_cons.mp hd with h | h
          · omega
          · exact hrec.1 d h
        · rw [hstep]
          simp only [List.reverse_cons, List.map_append, List.map_cons, List.map_nil]
          rw [digitsVal_snoc]
          rw [hrec.2.1]
          have := char_digit_toNat (n % 10) (by omega)
          omega
        · rw [hstep]
          simp

theorem digitsVal_natToChars (n : ℕ) : digitsVal (natToChars n) = n :=
  (natDigitsF_spec n n le_rfl).2.1

theorem natToChars_ne_nil (n : ℕ) : natToChars n ≠ [] := by
  unfold natToChars natDigitsLE
  simp [natDigitsF_spec n n le_rfl |>.2.2]

theorem natToChars_all_digits (n : ℕ) : ∀ c ∈ natToChars n, c.isDigit = true := by
  intro c hc
  rcases List.mem_map.mp (by simpa [natToChars, natDigitsLE] using hc) with ⟨d, hd, hc'⟩
  have hd10 := (natDigitsF_spec n n le_rfl).1 d hd
  rw [← hc']
  exact char_digit_isDigit d hd10

theorem natDigitsF_length_le (f : ℕ) : ∀ n k, n ≤ f → 1 ≤ k → n < 10 ^ k →
    (natDigitsF f n).length ≤ k := by
  induction f with
  | zero =>
      intro n k hn hk _
      interval_cases n
      simpa [natDigitsF] using hk
  | succ f ih =>
      intro n k hn hk hnk
      by_cases h10 : n < 10
      · simpa [natDigitsF, h10] using hk
      · have hk2 : 2 ≤ k := by
          by_contra hlt
          have hk1 : k = 1 := by omega
          rw [hk1] at hnk
          simp at hnk
          omega
        have hdiv : n / 10 < 10 ^ (k - 1) := by
          have h1 : 10 ^ k = 10 * 10 ^ (k - 1) := by
            rw [← pow_succ']
            congr 1
            omega
          rw [h1] at hnk
          omega
        have hlen := ih (n / 10) (k - 1) (by omega) (by omega) hdiv
        simp only [natDigitsF, h10, if_neg, not_false_iff]
        simp only [List.length_cons]
        omega

theorem natToChars_length_le (n k : ℕ) (hk : 1 ≤ k) (h : n < 10 ^ k) :
    (natToChars n).length ≤ k := by
  unfold natToChars natDigitsLE
  simpa using natDigitsF_length_le n n k le_rfl hk h

theorem digit_ne_special (c : Char) (h : c.isDigit = true) :
    c ≠ '.' ∧ c ≠ 'e' ∧ c ≠ 'E' ∧ c ≠ '+' ∧ c ≠ '-' ∧ pyWS c = false := by
  refine ⟨?_, ?_, ?_, ?_, ?_, ?_⟩
  · intro hc; rw [hc] at h; cases h
  · intro hc; rw [hc] at h; cases h
  · intro hc; rw [hc] at h; cases h
  · intro hc; rw [hc] at h; cases h
  · intro hc; rw [hc] at h; cases h
  · simp only [pyWS, Bool.or_eq_false_iff, beq_eq_false_iff_ne, ne_eq]
    and_intros <;> (intro hc; rw [hc] at h; cases h)

theorem digitsVal_replicate_zero (j : ℕ) (l : List Char) :
    digitsVal (List.replicate j '0' ++ l)
      = digitsVal l := by
  rw [digitsVal_append]
  have hz : digitsVal (List.replicate j '0') = 0 := by
    induction j with
    | zero => rfl
    | succ j ih =>
        unfold digitsVal at ih ⊢
        simpa [List.replicate_succ] using ih
  rw [hz]
  rfl

theorem splitSign_no_sign (c : Char) (r : List Char) (h1 : c ≠ '+') (h2 : c ≠ '-') :
    splitSign (c :: r) = (false, c :: r) := by
  rw [splitSign.eq_def]
  split
  · rename_i heq
    injection heq with heq1 heq2
    exact absurd heq1 h1
  · rename_i heq
    injection heq with heq1 heq2
    exact absurd heq1 h2
  · rfl

theorem takeWhile_append_stop (p : Char → Bool) (l1 l2 : List Char) (c : Char)
    (h1 : ∀ x ∈ l1, p x = true) (hc : p c = false) :
    (l1 ++ c :: l2).takeWhile p = l1 ∧ (l1 ++ c :: l2).dropWhile p = c :: l2 := by
  induction l1 with
  | nil => simp [List.takeWhile_cons, List.dropWhile_cons, hc]
  | cons x xs ih =>
      have hx := h1 x (List.mem_cons_self _ _)
      have ih' := ih (fun y hy => h1 y (List.mem_cons_of_mem _ hy))
      simp [List.takeWhile_cons, List.dropWhile_cons, hx, ih'.1, ih'.2]

theorem takeWhile_all_true (p : Char → Bool) (l : List Char)
    (h : ∀ x ∈ l, p x = true) :
    l.takeWhile p = l ∧ l.dropWhile p = [] := by
  induction l with
  | nil => simp
  | cons x xs ih =>
      have hx := h x (List.mem_cons_self _ _)
      have ih' := ih (fun y hy => h y (List.mem_cons_of_mem _ hy))
      simp [List.takeWhile_cons, List.dropWhile_cons, hx, ih'.1, ih'.2]

theorem pyStrip_eq_self (s : String) (h : ∀ c ∈ s.data, pyWS c = false) :
    pyStrip s = s := by
  unfold pyStrip
  have h1 : s.data.dropWhile pyWS = s.data := by
    cases hd : s.data with
    | nil => rfl
    | cons c cs =>
        have := h c (by rw [hd]; exact List.mem_cons_self _ _)
        simp [List.dropWhile_cons, this]
  rw [h1]
  have h2 : s.data.reverse.dropWhile pyWS = s.data.reverse := by
    cases hd : s.data.reverse with
    | nil => rfl
    | cons c cs =>
        have hc : c ∈ s.data := by
          rw [← List.mem_reverse, hd]
          exact List.mem_cons_self _ _
        simp [List.dropWhile_cons, h c hc]
  rw [h2, List.reverse_reverse]

theorem data_append (a b : String) : (a ++ b).data = a.data ++ b.data := rfl

theorem pyStrNN_mantissa (q : ℚ) (hq : 0 ≤ q.num) (h : decFiniteQ q = true) :
    (∀ c ∈ (pyStrNN q).data, c.isDigit = true ∨ c = '.')
    ∧ (∃ c cs, (pyStrNN q).data = c :: cs ∧ c.isDigit = true)
    ∧ ∃ v kk, parseMantissa (pyStrNN q).data = some (v, kk)
        ∧ mkRat (v : ℤ) (10 ^ kk) = q := by
  have hdvd : q.den ∣ 10 ^ pyStrExp q := by
    simpa [decFiniteQ] using h
  have hden0 : q.den ≠ 0 := q.den_nz
  have hdenQ : ((q.den : ℚ)) ≠ 0 := by exact_mod_cast hden0
  set k := pyStrExp q with hk
  set m := (q.num.toNat * 10 ^ k) / q.den with hm
  have hmden : m * q.den = q.num.toNat * 10 ^ k := by
    rw [hm]
    exact Nat.div_mul_cancel (Dvd.dvd.mul_left hdvd _)
  have hnum : ((q.num.toNat : ℕ) : ℚ) = (q.num : ℚ) := by
    exact_mod_cast Int.toNat_of_nonneg hq
  have hqval : ((m : ℚ)) = q * (10 : ℚ) ^ k := by
    have hq' : (q : ℚ) = (q.num : ℚ) / (q.den : ℚ) := (Rat.num_div_den q).symm
    rw [hq', div_mul_eq_mul_div, eq_div_iff hdenQ, ← hnum]
    exact_mod_cast hmden
  by_cases hk0 : k = 0
  · -- integral value, rendered as "<m>.0"
    have hdata : (pyStrNN q).data = natToChars m ++ '.' :: ['0'] := by
      simp only [pyStrNN]
      rw [← hk, ← hm, if_pos hk0, data_append]
    obtain ⟨c, cs, hcons⟩ : ∃ c cs, natToChars m = c :: cs := by
      cases hnc : natToChars m with
      | nil => exact absurd hnc (natToChars_ne_nil m)
      | cons c cs => exact ⟨c, cs, rfl⟩
    have hdigs := natToChars_all_digits m
    refine ⟨?_, ?_, ?_⟩
    · intro x hx
      rw [hdata] at hx
      rcases List.mem_append.mp hx with h1 | h1
      · exact Or.inl (hdigs x h1)
      · rcases List.mem_cons.mp h1 with h2 | h2
        · exact Or.inr h2
        · exact Or.inl (by rcases List.mem_singleton.mp h2 with rfl; decide)
    · refine ⟨c, cs ++ '.' :: ['0'], ?_, ?_⟩
      · rw [hdata, hcons]
        rfl
      · exact hdigs c (by rw [hcons]; exact List.mem_cons_self _ _)
    · have hsplit := takeWhile_append_stop (fun c => c != '.') (natToChars m) ['0'] '.'
        (fun x hx => by
          have hd := hdigs x hx
          simp [(digit_ne_special x hd).1])
        (by decide)
      refine ⟨m * 10 ^ 1 + 0, 1, ?_, ?_⟩
      · simp only [parseMantissa]
        rw [hdata, hsplit.1, hsplit.2]
        have hip : (natToChars m).all (·.isDigit) = true :=
          List.all_eq_true.mpr (fun x hx => hdigs x hx)
        simp [hip, natToChars_ne_nil m, digitsVal_natToChars,
          show digitsVal ['0'] = 0 from by decide]
      · have hden1 : q.den = 1 := Nat.dvd_one.mp (by simpa [hk0] using hdvd)
        have : ((m : ℚ)) = q := by
          rw [hqval, hk0]
          simp
        rw [Rat.mkRat_eq_div]
        push_cast
        rw [← this]
        norm_num
  · have hk1 : 1 ≤ k := Nat.one_le_iff_ne_zero.mpr hk0
    set A := natToChars (m / 10 ^ k) with hA
    set B := padZeros (natToChars (m % 10 ^ k)) k with hB
    have hdata : (pyStrNN q).data = A ++ '.' :: B := by
      simp only [pyStrNN]
      rw [← hk, ← hm, if_neg hk0]
      rw [data_append, data_append]
      simp [List.append_assoc]
    have hAdig : ∀ c ∈ A, c.isDigit = true := natToChars_all_digits _
    have hBlen0 : (natToChars (m % 10 ^ k)).length ≤ k :=
      natToChars_length_le _ k hk1 (Nat.mod_lt _ (by positivity))
    have hBlen : B.length = k := by
      rw [hB]
      unfold padZeros
      simp only [List.length_append, List.length_replicate]
      omega
    have hBdig : ∀ c ∈ B, c.isDigit = true := by
      intro c hc
      rw [hB] at hc
      unfold padZeros at hc
      rcases List.mem_append.mp hc with h1 | h1
      · rw [List.eq_of_mem_replicate h1]
        decide
      · exact natToChars_all_digits _ c h1
    have hBval : digitsVal B = m % 10 ^ k := by
      rw [hB]
      unfold padZeros
      rw [digitsVal_replicate_zero, digitsVal_natToChars]
    obtain ⟨c, cs, hcons⟩ : ∃ c cs, A = c :: cs := by
      cases hnc : A with
      | nil => exact absurd hnc (natToChars_ne_nil _)
      | cons c cs => exact ⟨c, cs, rfl⟩
    have hsplit := takeWhile_append_stop (fun c => c != '.') A B '.'
      (fun x hx => by simp [(digit_ne_special x (hAdig x hx)).1])
      (by decide)
    refine ⟨?_, ?_, ?_⟩
    · intro x hx
      rw [hdata] at hx
      rcases List.mem_append.mp hx with h1 | h1
      · exact Or.inl (hAdig x h1)
      · rcases List.mem_cons.mp h1 with h2 | h2
        · exact Or.inr h2
        · exact Or.inl (hBdig x h2)
    · exact ⟨c, cs ++ '.' :: B, by rw [hdata, hcons]; rfl,
        hAdig c (by rw [hcons]; exact List.mem_cons_self _ _)⟩
    · refine ⟨digitsVal A * 10 ^ B.length + digitsVal B, B.length, ?_, ?_⟩
      · simp only [parseMantissa]
        rw [hdata, hsplit.1, hsplit.2]
        have hip : A.all (·.isDigit) = true :=
          List.all_eq_true.mpr (fun x hx => hAdig x hx)
        have hfp : B.all (·.isDigit) = true :=
          List.all_eq_true.mpr (fun x hx => hBdig x hx)
        simp [hip, hfp, natToChars_ne_nil _]
      · have hAval : digitsVal A = m / 10 ^ k := by
          rw [hA, digitsVal_natToChars]
        rw [hAval, hBval, hBlen]
        have hmm : m / 10 ^ k * 10 ^ k + m % 10 ^ k = m :=
          Nat.div_add_mod' m (10 ^ k)
        rw [hmm, Rat.mkRat_eq_div]
        push_cast
        rw [hqval]
        exact mul_div_cancel_right₀ q (by positivity)

theorem decFiniteQ_neg (q : ℚ) (h : decFiniteQ q = true) : decFiniteQ (-q) = true := by
  have hden : (-q).den = q.den := Rat.neg_den q
  have hexp : pyStrExp (-q) = pyStrExp q := by
    unfold pyStrExp
    rw [hden]
  unfold decFiniteQ at h ⊢
  rw [hden, hexp]
  exact h

theorem pyFloat_pyStr (q : ℚ) (h : decFiniteQ q = true) :
    pyFloat? (pyStr q) = some q := by
  by_cases hneg : q.num < 0
  · have h' : decFiniteQ (-q) = true := decFiniteQ_neg q h
    have hnum : 0 ≤ (-q).num := by
      rw [Rat.neg_num]
      omega
    obtain ⟨hch, ⟨c, cs, hcons, hcd⟩, v, kk, hparse, hval⟩ := pyStrNN_mantissa (-q) hnum h'
    have hdata : (pyStr q).data = '-' :: (pyStrNN (-q)).data := by
      unfold pyStr
      rw [if_pos hneg, data_append]
      rfl
    have hnoWS : ∀ x ∈ (pyStr q).data, pyWS x = false := by
      intro x hx
      rw [hdata] at hx
      rcases List.mem_cons.mp hx with h1 | h1
      · rw [h1]
        decide
      · rcases hch x h1 with hd | hd
        · exact (digit_ne_special x hd).2.2.2.2.2
        · rw [hd]
          decide
    have hstrip : pyStrip (pyStr q) = pyStr q := pyStrip_eq_self _ hnoWS
    have hpred : ∀ x ∈ (pyStr q).data, (x != 'e' && x != 'E') = true := by
      intro x hx
      rw [hdata] at hx
      rcases List.mem_cons.mp hx with h1 | h1
      · rw [h1]
        decide
      · rcases hch x h1 with hd | hd
        · have hdn := digit_ne_special x hd
          simp [hdn.2.1, hdn.2.2.1]
        · rw [hd]
          decide
    have htw := takeWhile_all_true _ _ hpred
    have hsplit : splitSign ('-' :: (pyStrNN (-q)).data) = (true, (pyStrNN (-q)).data) := rfl
    simp only [pyFloat?]
    rw [hstrip, htw.1, htw.2, hdata, hsplit]
    simp only [hparse]
    have hgoal : mkRat ((if True then (-1 : ℤ) else 1) * v) (10 ^ kk) = q := by
      rw [if_pos trivial, Rat.mkRat_eq_div] at *
      push_cast at hval ⊢
      linear_combination -hval
    rw [hgoal]
  · have hnum : 0 ≤ q.num := by omega
    obtain ⟨hch, ⟨c, cs, hcons, hcd⟩, v, kk, hparse, hval⟩ := pyStrNN_mantissa q hnum h
    have hdata : (pyStr q).data = (pyStrNN q).data := by
      unfold pyStr
      rw [if_neg hneg]
    have hnoWS : ∀ x ∈ (pyStr q).data, pyWS x = false := by
      intro x hx
      rw [hdata] at hx
      rcases hch x hx with hd | hd
      · exact (digit_ne_special x hd).2.2.2.2.2
      · rw [hd]
        decide
    have hstrip : pyStrip (pyStr q) = pyStr q := pyStrip_eq_self _ hnoWS
    have hpred : ∀ x ∈ (pyStr q).data, (x != 'e' && x != 'E') = true := by
      intro x hx
      rw [hdata] at hx
      rcases hch x hx with hd | hd
      · have hdn := digit_ne_special x hd
        simp [hdn.2.1, hdn.2.2.1]
      · rw [hd]
        decide
    have htw := takeWhile_all_true _ _ hpred
    have hdns := digit_ne_special c hcd
    have hsplit : splitSign ((pyStrNN q).data) = (false, (pyStrNN q).data) := by
      rw [hcons]
      exact splitSign_no_sign c cs hdns.2.2.2.1 hdns.2.2.2.2.1
    simp only [pyFloat?]
    rw [hstrip, htw.1, htw.2, hdata, hsplit]
    simp only [hparse]
    have hgoal : mkRat ((if false = true then (-1 : ℤ) else 1) * v) (10 ^ kk) = q := by
      rw [if_neg (by simp), one_mul]
      exact hval
    rw [hgoal]

theorem replaceChar_of_not_mem (a : Char) (b : Char) (s : String)
    (h : a ∉ s.data) : replaceChar a b s = s := by
  unfold replaceChar
  have hmap : s.data.map (fun c => if c == a then b else c) = s.data := by
    have := List.map_congr_left (l := s.data)
      (f := fun c => if c == a then b else c) (g := id)
      (fun x hx => by
        have : x ≠ a := fun he => h (he ▸ hx)
        simp [this])
    rw [this, List.map_id]
  rw [hmap]

theorem canonPropInfo_id (p : CanonProp) : (canonPropInfo p).id = some p.id := by
  cases hp : p.species <;> simp [canonPropInfo, hp]

theorem canonPropInfo_name (p : CanonProp) : (canonPropInfo p).name = p.name := by
  cases hp : p.species <;> simp [canonPropInfo, hp]

theorem canonPropInfo_label (p : CanonProp) : (canonPropInfo p).label = p.label := by
  cases hp : p.species <;> simp [canonPropInfo, hp]

theorem canonPropInfo_units (p : CanonProp) : (canonPropInfo p).units = p.units := by
  cases hp : p.species <;> simp [canonPropInfo, hp]

theorem canonPropInfo_species (p : CanonProp) :
    (canonPropInfo p).species = p.species := by
  cases hp : p.species <;> simp [canonPropInfo, hp]

theorem filterMap_congr_some {α β : Type} (f : α → Option β) (h : α → β) :
    ∀ (l : List α), (∀ x ∈ l, f x = some (h x)) → l.filterMap f = l.map h := by
  intro l
  induction l with
  | nil => intro _; rfl
  | cons x xs ih =>
      intro hall
      rw [List.filterMap_cons, hall x (List.mem_cons_self _ _), List.map_cons,
        ih (fun y hy => hall y (List.mem_cons_of_mem _ hy))]

theorem filterMap_congr_none {α β : Type} (f : α → Option β) :
    ∀ (l : List α), (∀ x ∈ l, f x = none) → l.filterMap f = [] := by
  intro l
  induction l with
  | nil => intro _; rfl
  | cons x xs ih =>
      intro hall
      rw [List.filterMap_cons, hall x (List.mem_cons_self _ _),
        ih (fun y hy => hall y (List.mem_cons_of_mem _ hy))]

theorem scalarsOf_append (a b : List (String × CPEntry)) :
    scalarsOf (a ++ b) = scalarsOf a ++ scalarsOf b := by
  unfold scalarsOf
  rw [List.filterMap_append]

theorem scalarsOf_map_scalar {α : Type} (k : α → String) (v : α → PropVal) :
    ∀ (l : List α),
      scalarsOf (l.map (fun x => (k x, CPEntry.scalar (v x)))) =
        l.map (fun x => (k x, v x)) := by
  intro l
  induction l with
  | nil => rfl
  | cons x xs ih =>
      unfold scalarsOf at ih ⊢
      rw [List.map_cons, List.filterMap_cons, List.map_cons, ← ih]

theorem scalarsOf_canon (c : CanonCP) :
    scalarsOf (canonCPList c) =
      [("T", (⟨.num c.tval, c.tunits, "temperature"⟩ : PropVal)),
       ("P", ⟨.num c.pval, c.punits, "pressure"⟩)]
      ++ c.nums.map (fun kv => (kv.1, (⟨.num kv.2, "", kv.1⟩ : PropVal)))
      ++ c.strs.map (fun kv => (kv.1, (⟨.str kv.2, "", kv.1⟩ : PropVal)))
      ++ [("initial composition", ⟨.str ws12, "", "initial composition"⟩)] := by
  unfold canonCPList
  rw [scalarsOf_append, scalarsOf_append, scalarsOf_append,
    scalarsOf_map_scalar (fun kv => kv.1) (fun kv => ⟨.num kv.2, "", kv.1⟩) c.nums,
    scalarsOf_map_scalar (fun kv => kv.1) (fun kv => ⟨.str kv.2, "", kv.1⟩) c.strs]
  rfl

theorem findByName_canon_T (c : CanonCP) :
    findByName (canonCPList c) "temperature" =
      some ⟨.num c.tval, c.tunits, "temperature"⟩ := by
  unfold findByName
  rw [scalarsOf_canon]
  rfl

theorem findByName_canon_P (c : CanonCP) :
    findByName (canonCPList c) "pressure" =
      some ⟨.num c.pval, c.punits, "pressure"⟩ := by
  unfold findByName
  rw [scalarsOf_canon]
  rfl

theorem lookup_map_fst_none {α β : Type} (k : String) (g : String × α → β) :
    ∀ (l : List (String × α)), (∀ kv ∈ l, kv.1 ≠ k) →
      (l.map (fun kv => (kv.1, g kv))).lookup k = none := by
  intro l
  induction l with
  | nil => intro _; rfl
  | cons kv rest ih =>
      intro hall
      have hne : (k == kv.1) = false :=
        beq_eq_false_iff_ne.mpr (Ne.symm (hall kv (List.mem_cons_self _ _)))
      rw [List.map_cons]
      simp only [List.lookup, hne]
      exact ih (fun y hy => hall y (List.mem_cons_of_mem _ hy))

theorem compositionOf_canon (c : CanonRecord)
    (hn : ∀ kv ∈ c.cp.nums, ('_' : Char) ∉ kv.1.data)
    (hs : ∀ kv ∈ c.cp.strs, ('_' : Char) ∉ kv.1.data) :
    compositionOf (recordOfCanon c) = c.cp.comp := by
  have hnum : (c.cp.nums.map
      (fun kv => (kv.1, CPEntry.scalar ⟨.num kv.2, "", kv.1⟩))).lookup
        "initial_composition" = none :=
    lookup_map_fst_none _ _ _
      (fun kv hkv he => hn kv hkv (by rw [he]; decide))
  have hstr : (c.cp.strs.map
      (fun kv => (kv.1, CPEntry.scalar ⟨.str kv.2, "", kv.1⟩))).lookup
        "initial_composition" = none :=
    lookup_map_fst_none _ _ _
      (fun kv hkv he => hs kv hkv (by rw [he]; decide))
  unfold compositionOf recordOfCanon canonCPList
  simp only [List.lookup_append, hnum, hstr]
  rfl

theorem find?_colname_self :
    ∀ (F : List PropInfo), (F.map PropInfo.column_name).Nodup →
      ∀ p ∈ F, F.find? (fun q => q.column_name == p.column_name) = some p := by
  intro F
  induction F with
  | nil => intro _ p hp; cases hp
  | cons q F ih =>
      intro hnd p hp
      rw [List.map_cons, List.nodup_cons] at hnd
      rcases List.mem_cons.mp hp with h1 | h1
      · subst h1
        rw [List.find?_cons_of_pos _ (by simp)]
      · have hne : (q.column_name == p.column_name) = false := by
          refine beq_eq_false_iff_ne.mpr (fun he => hnd.1 ?_)
          rw [he]
          exact List.mem_map_of_mem _ h1
        rw [List.find?_cons_of_neg _ (by simp [hne]), ih hnd.2 p h1]

theorem keyedRow_rekey (F : List PropInfo) :
    ∀ (ps : List PropInfo) (vs : List PyVal),
      (∀ p ∈ ps, F.find? (fun q => q.column_name == p.column_name) = some p) →
      (keyedRow (ps.map PropInfo.column_name) vs).filterMap
          (fun kv => (F.find? (fun q => q.column_name == kv.1)).map
            (fun p => (p.name, kv.2))) =
        keyedRow (ps.map PropInfo.name) vs := by
  intro ps
  induction ps with
  | nil => intro vs _; rfl
  | cons p ps ih =>
      intro vs hall
      cases vs with
      | nil => rfl
      | cons v vs =>
          rw [List.map_cons, List.map_cons]
          show List.filterMap _ ((p.column_name, v) :: keyedRow _ vs) = _
          rw [List.filterMap_cons]
          rw [show (F.find? (fun q => q.column_name == p.column_name)) = some p from
            hall p (List.mem_cons_self _ _)]
          show (p.name, v) :: List.filterMap _ (keyedRow _ vs) = _
          rw [ih vs (fun y hy => hall y (List.mem_cons_of_mem _ hy))]
          rfl

theorem draftOfRecord_canon (c : CanonRecord)
    (hn : ∀ kv ∈ c.cp.nums, kv.1 ∉ RESERVED_NAMES ∧ ('_' : Char) ∉ kv.1.data)
    (hs : ∀ kv ∈ c.cp.strs, kv.1 ∉ RESERVED_NAMES ∧ ('_' : Char) ∉ kv.1.data)
    (hg : ∀ g ∈ c.dgs, ((canonProps g).map PropInfo.column_name).Nodup) :
    draftOfRecord (recordOfCanon c) = draftOfCanon c := by
  simp only [draftOfRecord, draftOfCanon]
  have hsc : scalarsOf (recordOfCanon c).common_properties =
      [("T", (⟨.num c.cp.tval, c.cp.tunits, "temperature"⟩ : PropVal)),
       ("P", ⟨.num c.cp.pval, c.cp.punits, "pressure"⟩)]
      ++ c.cp.nums.map (fun kv => (kv.1, (⟨.num kv.2, "", kv.1⟩ : PropVal)))
      ++ c.cp.strs.map (fun kv => (kv.1, (⟨.str kv.2, "", kv.1⟩ : PropVal)))
      ++ [("initial composition", ⟨.str ws12, "", "initial composition"⟩)] :=
    scalarsOf_canon c.cp
  congr 1
  · -- conditions
    congr 1
    · -- composition
      rw [compositionOf_canon c (fun kv hkv => (hn kv hkv).2)
        (fun kv hkv => (hs kv hkv).2)]
    · -- reactor parameters
      rw [hsc]
      rw [List.filterMap_append, List.filterMap_append, List.filterMap_append,
        List.filterMap_map, List.filterMap_map]
      rw [filterMap_congr_some _ (fun kv => kv) c.cp.nums
        (fun kv hkv => by
          show (if kv.1 ∈ RESERVED_NAMES then none else _) = some kv
          rw [if_neg (hn kv hkv).1]),
        filterMap_congr_none _ c.cp.strs
        (fun kv hkv => by
          show (if kv.1 ∈ RESERVED_NAMES then none else _) = none
          rw [if_neg (hs kv hkv).1])]
      simp [RESERVED_NAMES]
  · -- optional parameters
    rw [hsc]
    rw [List.filterMap_append, List.filterMap_append, List.filterMap_append,
      List.filterMap_map, List.filterMap_map]
    rw [filterMap_congr_none _ c.cp.nums
      (fun kv hkv => by
        show (if kv.1 ∈ RESERVED_NAMES then none else _) = none
        rw [if_neg (hn kv hkv).1]),
      filterMap_congr_some _
        (fun kv => (replaceChar ' ' '_' kv.1, PyVal.str kv.2)) c.cp.strs
      (fun kv hkv => by
        show (if kv.1 ∈ RESERVED_NAMES then none else _) = some _
        rw [if_neg (hs kv hkv).1])]
    simp [RESERVED_NAMES]
  · -- data groups
    show ((recordOfCanon c).datagroups).filterMap _ = c.dgs.map draftDGOfCanon
    rw [show (recordOfCanon c).datagroups = c.dgs.map canonDgData from rfl,
      List.filterMap_map]
    refine filterMap_congr_some _ draftDGOfCanon c.dgs (fun g hg2 => ?_)
    show (match (canonDgData g).properties with
          | [] => none
          | x :: ys => some _) = some (draftDGOfCanon g)
    rw [show (canonDgData g).properties = canonPropInfo g.x :: g.ys.map canonPropInfo
      from rfl]
    show some _ = some (draftDGOfCanon g)
    unfold draftDGOfCanon
    congr 1
    congr 1
    · -- x axis
      rw [canonPropInfo_id, canonPropInfo_name, canonPropInfo_label, canonPropInfo_units]
      rfl
    · -- y axes
      rw [List.map_map]
      refine List.map_congr_left (fun y _ => ?_)
      show (⟨(canonPropInfo y).id.getD "", (canonPropInfo y).name,
        some (canonPropInfo y).label, (canonPropInfo y).units,
        (canonPropInfo y).species⟩ : YAxis) = _
      rw [canonPropInfo_id, canonPropInfo_name, canonPropInfo_label,
        canonPropInfo_units, canonPropInfo_species]
      rfl
    · -- data rows
      show ((canonDgData g).datapoints).map _ = _
      rw [show (canonDgData g).datapoints =
        g.rowvals.map (keyedRow ((canonProps g).map PropInfo.column_name)) from rfl]
      rw [List.map_map]
      refine List.map_congr_left (fun vs _ => ?_)
      have hfind := find?_colname_self (canonProps g) (hg g hg2)
      have hkr := keyedRow_rekey (canonProps g) (canonProps g) vs hfind
      have hnames : (canonProps g).map PropInfo.name =
          (g.x :: g.ys).map CanonProp.name := by
        unfold canonProps
        rw [List.map_map]
        exact List.map_congr_left (fun p _ => canonPropInfo_name p)
      show (keyedRow ((canonProps g).map PropInfo.column_name) vs).filterMap
          (fun kv => ((canonProps g).find? (fun q => q.column_name == kv.1)).map
            (fun p => (p.name, kv.2))) =
        keyedRow ((g.x :: g.ys).map CanonProp.name) vs
      rw [hkr, hnames]

/-! ## Pretty-reparse infrastructure for the round-trip proof -/

theorem prettyKeepList_eq_map (lvl : ℕ) :
    ∀ (l : List Elem), prettyKeepList lvl l = l.map (prettyKeep lvl) := by
  intro l
  induction l with
  | nil => rfl
  | cons c cs ih => rw [prettyKeepList, ih, List.map_cons]

theorem pretty_tag (lvl : ℕ) (e : Elem) : (prettyKeep lvl e).tag = e.tag := by
  cases e with
  | node t a tx cs => cases cs <;> cases tx <;> rfl

theorem pretty_attrs (lvl : ℕ) (e : Elem) :
    (prettyKeep lvl e).attrs = e.attrs := by
  cases e with
  | node t a tx cs => cases cs <;> cases tx <;> rfl

theorem pretty_childless_some (lvl : ℕ) (t : String) (a : List (String × String))
    (s : String) :
    prettyKeep lvl (.node t a (some s) []) =
      .node t a (if s = "" then none else some s) [] := rfl

theorem pretty_nonempty (lvl : ℕ) (t : String) (a : List (String × String))
    (tx : Option String) (cs : List Elem) (h : cs ≠ []) :
    prettyKeep lvl (.node t a tx cs) =
      .node t a (some ("\n" ++ String.mk (List.replicate (4 * (lvl + 1)) ' ')))
        (cs.map (prettyKeep (lvl + 1))) := by
  cases cs with
  | nil => exact absurd rfl h
  | cons c cs => rw [prettyKeep, prettyKeepList_eq_map]

theorem find?_tag_map_pretty (lvl : ℕ) (t : String) :
    ∀ (l : List Elem),
      (l.map (prettyKeep lvl)).find? (fun c => c.tag == t) =
        (l.find? (fun c => c.tag == t)).map (prettyKeep lvl) := by
  intro l
  induction l with
  | nil => rfl
  | cons c cs ih =>
      rw [List.map_cons]
      by_cases hc : (c.tag == t) = true
      · rw [List.find?_cons_of_pos (p := fun (x : Elem) => x.tag == t) _
            (by show ((prettyKeep lvl c).tag == t) = true; rw [pretty_tag]; exact hc),
          List.find?_cons_of_pos (p := fun (x : Elem) => x.tag == t) _ hc]
        rfl
      · rw [List.find?_cons_of_neg (p := fun (x : Elem) => x.tag == t) _
            (by show ¬((prettyKeep lvl c).tag == t) = true; rw [pretty_tag]; exact hc),
          List.find?_cons_of_neg (p := fun (x : Elem) => x.tag == t) _ hc, ih]

theorem filter_tag_map_pretty (lvl : ℕ) (t : String) :
    ∀ (l : List Elem),
      (l.map (prettyKeep lvl)).filter (fun c => c.tag == t) =
        (l.filter (fun c => c.tag == t)).map (prettyKeep lvl) := by
  intro l
  induction l with
  | nil => rfl
  | cons c cs ih =>
      rw [List.map_cons, List.filter_cons, List.filter_cons]
      by_cases hc : (c.tag == t) = true
      · rw [if_pos (by rw [pretty_tag]; exact hc), if_pos hc, List.map_cons, ih]
      · rw [if_neg (by rw [pretty_tag]; exact hc), if_neg hc, ih]

theorem find?_append_left_none {p : Elem → Bool} (l1 l2 : List Elem)
    (h : l1.find? p = none) : (l1 ++ l2).find? p = l2.find? p := by
  induction l1 with
  | nil => rfl
  | cons c cs ih =>
      rw [List.cons_append]
      rw [List.find?_cons] at h ⊢
      cases hc : p c with
      | true => rw [hc] at h; exact Option.noConfusion h
      | false =>
          rw [hc] at h
          exact ih h

theorem tagFreeList_append (t : String) :
    ∀ (a b : List Elem),
      tagFreeList t (a ++ b) = (tagFreeList t a && tagFreeList t b) := by
  intro a b
  induction a with
  | nil => rfl
  | cons c cs ih =>
      rw [List.cons_append, tagFreeList, tagFreeList, ih, Bool.and_assoc]

theorem tagFreeList_map {α : Type} (t : String) (f : α → Elem) :
    ∀ (l : List α), (∀ x ∈ l, tagFree t (f x) = true) →
      tagFreeList t (l.map f) = true := by
  intro l
  induction l with
  | nil => intro _; rfl
  | cons x xs ih =>
      intro h
      rw [List.map_cons, tagFreeList, h x (List.mem_cons_self _ _),
        ih (fun y hy => h y (List.mem_cons_of_mem _ hy))]
      rfl

theorem sizeOf_children_lt (tg : String) (a : List (String × String))
    (tx : Option String) (cs : List Elem) :
    sizeOf cs < sizeOf (Elem.node tg a tx cs) := by
  simp only [Elem.node.sizeOf_spec]
  omega

theorem tagFree_pretty (t : String) :
    ∀ (n : ℕ) (e : Elem), sizeOf e ≤ n → ∀ (lvl : ℕ), tagFree t e = true →
      tagFree t (prettyKeep lvl e) = true := by
  intro n
  induction n with
  | zero =>
      intro e he
      cases e with
      | node tg a tx cs => simp [Elem.node.sizeOf_spec] at he
  | succ n ih =>
      intro e he lvl h
      have hlist : ∀ (l : List Elem), (∀ x ∈ l, sizeOf x ≤ n) →
          tagFreeList t l = true → ∀ (L : ℕ),
          tagFreeList t (l.map (prettyKeep L)) = true := by
        intro l
        induction l with
        | nil => intro _ _ _; rfl
        | cons x xs ihl =>
            intro hsz hl L
            rw [tagFreeList] at hl
            rw [List.map_cons, tagFreeList,
              ih x (hsz x (List.mem_cons_self _ _)) L (Bool.and_elim_left hl),
              ihl (fun y hy => hsz y (List.mem_cons_of_mem _ hy))
                (Bool.and_elim_right hl) L]
            rfl
      cases e with
      | node tg a tx cs =>
          cases cs with
          | nil =>
              cases tx with
              | none => exact h
              | some s => exact h
          | cons c cs2 =>
              rw [pretty_nonempty _ _ _ _ _ (by simp)]
              rw [tagFree] at h ⊢
              have hsz : ∀ x ∈ c :: cs2, sizeOf x ≤ n := by
                intro x hx
                have h1 := List.sizeOf_lt_of_mem hx
                have h2 := sizeOf_children_lt tg a tx (c :: cs2)
                omega
              rw [hlist (c :: cs2) hsz (Bool.and_elim_right h) (lvl + 1)]
              rw [Bool.and_elim_left h]
              rfl

theorem filter_desc_tagFree (t : String) :
    ∀ (n : ℕ) (l : List Elem), sizeOf l ≤ n → tagFreeList t l = true →
      (descendantsList l).filter (fun e => e.tag == t) = [] := by
  intro n
  induction n with
  | zero =>
      intro l hsz _
      cases l with
      | nil => rfl
      | cons c cs => simp at hsz
  | succ n ih =>
      intro l hsz hl
      cases l with
      | nil => rfl
      | cons c cs =>
          rw [tagFreeList] at hl
          have hc := Bool.and_elim_left hl
          have hcs := Bool.and_elim_right hl
          rw [descendantsList, List.cons_append, List.filter_cons]
          cases c with
          | node tg a tx kids =>
              rw [tagFree] at hc
              have htag : ((Elem.node tg a tx kids).tag == t) = false := by
                have := Bool.and_elim_left hc
                simpa [Elem.tag] using this
              rw [if_neg (by simp [htag])]
              rw [List.filter_append]
              have hone : sizeOf (Elem.node tg a tx kids :: cs) =
                  1 + sizeOf (Elem.node tg a tx kids) + sizeOf cs := by
                simp
              have h3 : sizeOf (Elem.node tg a tx kids) =
                  1 + sizeOf tg + sizeOf a + sizeOf tx + sizeOf kids := by
                simp [Elem.node.sizeOf_spec]
              have hsz1 : sizeOf kids ≤ n := by omega
              have hsz2 : sizeOf cs ≤ n := by omega
              rw [show Elem.descendants (Elem.node tg a tx kids) =
                descendantsList kids from rfl]
              rw [ih kids hsz1 (Bool.and_elim_right hc), ih cs hsz2 hcs]
              rfl

theorem filter_desc_top (t : String) :
    ∀ (l : List Elem),
      (∀ e ∈ l, e.tag = t ∧ tagFreeList t e.children = true) →
      (descendantsList l).filter (fun e => e.tag == t) = l := by
  intro l
  induction l with
  | nil => intro _; rfl
  | cons c cs ih =>
      intro h
      have hc := h c (List.mem_cons_self _ _)
      rw [descendantsList, List.cons_append, List.filter_cons,
        if_pos (by simp [hc.1]), List.filter_append]
      cases c with
      | node tg a tx kids =>
          rw [show Elem.descendants (Elem.node tg a tx kids) =
            descendantsList kids from rfl]
          rw [filter_desc_tagFree t (sizeOf kids) kids le_rfl
            (by simpa [Elem.children] using hc.2)]
          rw [ih (fun y hy => h y (List.mem_cons_of_mem _ hy))]
          rfl

theorem replaceChar_inv (s : String) (h : ('_' : Char) ∉ s.data) :
    replaceChar '_' ' ' (replaceChar ' ' '_' s) = s := by
  unfold replaceChar
  have hmap : (s.data.map (fun c => if c == ' ' then '_' else c)).map
      (fun c => if c == '_' then ' ' else c) = s.data := by
    rw [List.map_map]
    have := List.map_congr_left (l := s.data)
      (f := (fun c => if c == '_' then ' ' else c) ∘ (fun c => if c == ' ' then '_' else c))
      (g := id)
      (fun x hx => by
        have hne : x ≠ '_' := fun he => h (he ▸ hx)
        by_cases hsp : x = ' '
        · simp [hsp]
        · simp [hsp, hne])
    rw [this, List.map_id]
  rw [hmap]

theorem cpKids_shape (tq pq : ℚ) (tu pu : String) (nums : List (String × ℚ))
    (strs : List (String × String)) (comp : List (String × CompVal))
    (hn : ∀ kv ∈ nums, 0 < kv.2.num ∧ ('_' : Char) ∉ kv.1.data)
    (hs : ∀ kv ∈ strs,
      ('_' : Char) ∉ kv.1.data ∧ replaceChar ' ' '_' kv.1 ∈ OPTIONAL_WHITELIST)
    (hc : comp ≠ []) :
    cpKids
      ⟨some ⟨.num tq, tu⟩, some ⟨.num pq, pu⟩,
        comp.map (fun kv => ⟨kv.1, .num kv.2.amount, kv.2.units,
          none, none, none, none⟩),
        nums⟩
      (strs.map (fun kv => (replaceChar ' ' '_' kv.1, PyVal.str kv.2))) =
      encCPKids ⟨tq, pq, tu, pu, nums, strs, comp⟩ := by
  have hA : nums.filterMap
      (fun kv => if kv.2.num ≠ 0 ∧ 0 < kv.2.num then
        some (el "property"
          [("name", replaceChar '_' ' ' kv.1), ("sourcetype", "reported")]
          none [el "value" [] (some (pyStr kv.2)) []]) else none) =
      nums.map (fun kv => encParam kv.1 (pyStr kv.2)) :=
    filterMap_congr_some _ _ nums (fun kv hkv => by
      rw [if_pos ⟨by have := (hn kv hkv).1; omega, (hn kv hkv).1⟩,
        replaceChar_of_not_mem _ _ _ (hn kv hkv).2]
      rfl)
  have hB : (strs.map (fun kv => (replaceChar ' ' '_' kv.1, PyVal.str kv.2))).filterMap
      (fun kv => if kv.1 ∈ OPTIONAL_WHITELIST then
        some (el "property"
          [("name", replaceChar '_' ' ' kv.1), ("sourcetype", "reported")]
          none [el "value" [] (some (pyStrVal kv.2)) []]) else none) =
      strs.map (fun kv => encParam kv.1 kv.2) := by
    rw [List.filterMap_map]
    exact filterMap_congr_some _ _ strs (fun kv hkv => by
      show (if replaceChar ' ' '_' kv.1 ∈ OPTIONAL_WHITELIST then _ else none) = _
      rw [if_pos (hs kv hkv).2]
      show some _ = some (encParam kv.1 kv.2)
      unfold encParam
      rw [replaceChar_inv kv.1 (hs kv hkv).1]
      rfl)
  have hC : (if ((comp.map (fun kv => (⟨kv.1, .num kv.2.amount, kv.2.units,
        none, none, none, none⟩ : CompEntry))).isEmpty = true) then ([] : List Elem)
      else [el "property"
        [("name", "initial composition"), ("sourcetype", "reported")] none
        ((comp.map (fun kv => (⟨kv.1, .num kv.2.amount, kv.2.units,
          none, none, none, none⟩ : CompEntry))).map compElem)]) =
      [el "property"
        [("name", "initial composition"), ("sourcetype", "reported")] none
        (comp.map (fun kv => encComp kv.1 kv.2.units (pyStr kv.2.amount)))] := by
    cases hcc : comp with
    | nil => exact absurd hcc hc
    | cons a l =>
        rw [if_neg (by rw [List.map_cons]; exact fun hemp => by cases hemp)]
        rw [List.map_map]
        rfl
  unfold cpKids
  rw [hA, hB, hC]
  rfl

theorem create_root_canon (c : CanonRecord)
    (hn : ∀ kv ∈ c.cp.nums, 0 < kv.2.num ∧ ('_' : Char) ∉ kv.1.data)
    (hs : ∀ kv ∈ c.cp.strs,
      ('_' : Char) ∉ kv.1.data ∧ replaceChar ' ' '_' kv.1 ∈ OPTIONAL_WHITELIST)
    (hc : c.cp.comp ≠ []) :
    create_enhanced_xml (draftOfCanon c) =
      el "experiment" [] none (encRootKids c) := by
  have hck := cpKids_shape c.cp.tval c.cp.pval c.cp.tunits c.cp.punits
    c.cp.nums c.cp.strs c.cp.comp hn hs hc
  simp only [create_enhanced_xml]
  unfold encRootKids
  congr 1
  congr 1
  · congr 1
    exact congrArg (fun kids => [el "commonProperties" [] none kids]) hck
  · show List.map dgElem (c.dgs.map draftDGOfCanon) = _
    rw [List.map_map]
    rfl

theorem pyStrNN_ne_empty (q : ℚ) : pyStrNN q ≠ "" := by
  intro h
  have hd := congrArg String.data h
  simp only [pyStrNN] at hd
  split at hd
  · rw [data_append] at hd
    have hnil := List.append_eq_nil.mp hd
    have : (".0" : String).data = ['.', '0'] := by decide
    rw [this] at hnil
    cases hnil.2
  · rw [data_append, data_append] at hd
    have hnil := List.append_eq_nil.mp hd
    have hnil2 := List.append_eq_nil.mp hnil.1
    have : ("." : String).data = ['.'] := by decide
    rw [this] at hnil2
    cases hnil2.2

theorem pyStr_ne_empty (q : ℚ) : pyStr q ≠ "" := by
  unfold pyStr
  split
  · intro h
    have hd := congrArg String.data h
    rw [data_append] at hd
    have hnil := List.append_eq_nil.mp hd
    have : ("-" : String).data = ['-'] := by decide
    rw [this] at hnil
    cases hnil.1
  · exact pyStrNN_ne_empty q

theorem find?_append_left_some {p : Elem → Bool} (l1 l2 : List Elem) (x : Elem)
    (h : l1.find? p = some x) : (l1 ++ l2).find? p = some x := by
  induction l1 with
  | nil => cases h
  | cons c cs ih =>
      rw [List.cons_append]
      rw [List.find?_cons] at h ⊢
      cases hc : p c with
      | true => rw [hc] at h; exact h
      | false => rw [hc] at h; exact ih h

theorem encRootKids_ne_nil (c : CanonRecord) : encRootKids c ≠ [] := by
  unfold encRootKids
  intro h
  rw [show [el "fileAuthor" [] (some c.metadata.author) []] ++
      (if optTruthy (some c.metadata.doi) then
        [el "fileDOI" [] (some c.metadata.doi) []] else []) =
      el "fileAuthor" [] (some c.metadata.author) [] ::
      (if optTruthy (some c.metadata.doi) then
        [el "fileDOI" [] (some c.metadata.doi) []] else []) from rfl] at h
  simp at h

theorem pretty_root_canon (c : CanonRecord)
    (hn : ∀ kv ∈ c.cp.nums, 0 < kv.2.num ∧ ('_' : Char) ∉ kv.1.data)
    (hs : ∀ kv ∈ c.cp.strs,
      ('_' : Char) ∉ kv.1.data ∧ replaceChar ' ' '_' kv.1 ∈ OPTIONAL_WHITELIST)
    (hc : c.cp.comp ≠ []) :
    prettyKeep 0 (create_enhanced_xml (draftOfCanon c)) =
      .node "experiment" [] (some ("\n" ++ String.mk (List.replicate 4 ' ')))
        ((encRootKids c).map (prettyKeep 1)) := by
  rw [create_root_canon c hn hs hc]
  show prettyKeep 0 (.node "experiment" [] none (encRootKids c)) = _
  rw [pretty_nonempty _ _ _ _ _ (encRootKids_ne_nil c)]

theorem find_cp_canon (c : CanonRecord)
    (hn : ∀ kv ∈ c.cp.nums, 0 < kv.2.num ∧ ('_' : Char) ∉ kv.1.data)
    (hs : ∀ kv ∈ c.cp.strs,
      ('_' : Char) ∉ kv.1.data ∧ replaceChar ' ' '_' kv.1 ∈ OPTIONAL_WHITELIST)
    (hc : c.cp.comp ≠ []) :
    (prettyKeep 0 (create_enhanced_xml (draftOfCanon c))).find "commonProperties" =
      some (prettyKeep 1 (el "commonProperties" [] none (encCPKids c.cp))) := by
  rw [pretty_root_canon c hn hs hc]
  show ((encRootKids c).map (prettyKeep 1)).find?
    (fun x => x.tag == "commonProperties") = _
  rw [find?_tag_map_pretty]
  have hfk : (encRootKids c).find? (fun x => x.tag == "commonProperties") =
      some (el "commonProperties" [] none (encCPKids c.cp)) := by
    unfold encRootKids
    have h1 : ([el "fileAuthor" [] (some c.metadata.author) []].find?
        (fun x => x.tag == "commonProperties")) = none := rfl
    have h2 : ((if optTruthy (some c.metadata.doi) then
        [el "fileDOI" [] (some c.metadata.doi) []] else []).find?
        (fun x => x.tag == "commonProperties")) = none := by
      split <;> rfl
    have h3 : (([el "fileVersion" [] none
        [el "major" [] (some "1") [], el "minor" [] (some "0") []],
        el "experimentType" [] (some c.experiment_type) [],
        el "apparatus" [] none
          [el "kind" [] (some ((c.apparatus.map Apparatus.kind).getD "")) []]]).find?
        (fun x => x.tag == "commonProperties")) = none := rfl
    have h4 : ((if optTruthy (draftOfCanon c).basic_info.reference.author
        && optTruthy (draftOfCanon c).basic_info.reference.title then
        [bibElem (draftOfCanon c).basic_info.reference] else []).find?
        (fun x => x.tag == "commonProperties")) = none := by
      split <;> rfl
    rw [find?_append_left_some]
    rw [find?_append_left_none _ _ (by
      rw [find?_append_left_none _ _ (by
        rw [find?_append_left_none _ _ (by
          rw [find?_append_left_none _ _ h1, h2]), h3]), h4])]
    rfl
  rw [hfk]
  rfl

theorem pretty_leaf (lvl : ℕ) (t : String) (a : List (String × String))
    (s : String) (h : s ≠ "") :
    prettyKeep lvl (.node t a (some s) []) = .node t a (some s) [] := by
  rw [pretty_childless_some, if_neg h]

theorem coerceText_pyStr (q : ℚ) (h : decFiniteQ q = true) :
    coerceText (some (pyStr q)) = .num q := by
  show (match pyFloat? (pyStr q) with
    | some q2 => PyVal.num q2
    | none => PyVal.str (pyStr q)) = PyVal.num q
  rw [pyFloat_pyStr q h]

theorem coerceText_str (s : String) (h : pyFloat? s = none) :
    coerceText (some s) = .str s := by
  show (match pyFloat? s with
    | some q2 => PyVal.num q2
    | none => PyVal.str s) = PyVal.str s
  rw [h]

theorem parseCommonProp_encTP (nm lb un : String) (q : ℚ)
    (hq : decFiniteQ q = true) (hlb : lb ≠ "") :
    parseCommonProp (prettyKeep 2 (encTP nm lb un (pyStr q))) =
      (lb, ⟨.num q, un, nm⟩) := by
  have hpp : prettyKeep 2 (encTP nm lb un (pyStr q)) =
      .node "property"
        [("name", nm), ("label", lb), ("units", un), ("sourcetype", "reported")]
        (some ("\n" ++ String.mk (List.replicate (4 * (2 + 1)) ' ')))
        [.node "value" [] (some (pyStr q)) []] := by
    show prettyKeep 2 (.node "property"
      [("name", nm), ("label", lb), ("units", un), ("sourcetype", "reported")]
      none [.node "value" [] (some (pyStr q)) []]) = _
    rw [pretty_nonempty _ _ _ _ _ (by simp), List.map_cons,
      pretty_leaf _ _ _ _ (pyStr_ne_empty q)]
    rfl
  rw [hpp]
  show (if lb ≠ "" then lb else nm,
    (⟨coerceText (some (pyStr q)), un, nm⟩ : PropVal)) = _
  rw [if_pos hlb, coerceText_pyStr q hq]

theorem parseCommonProp_encParamNum (nm : String) (q : ℚ)
    (hq : decFiniteQ q = true) :
    parseCommonProp (prettyKeep 2 (encParam nm (pyStr q))) =
      (nm, ⟨.num q, "", nm⟩) := by
  have hpp : prettyKeep 2 (encParam nm (pyStr q)) =
      .node "property" [("name", nm), ("sourcetype", "reported")]
        (some ("\n" ++ String.mk (List.replicate (4 * (2 + 1)) ' ')))
        [.node "value" [] (some (pyStr q)) []] := by
    show prettyKeep 2 (.node "property" [("name", nm), ("sourcetype", "reported")]
      none [.node "value" [] (some (pyStr q)) []]) = _
    rw [pretty_nonempty _ _ _ _ _ (by simp), List.map_cons,
      pretty_leaf _ _ _ _ (pyStr_ne_empty q)]
    rfl
  rw [hpp]
  show (if ("" : String) ≠ "" then "" else nm,
    (⟨coerceText (some (pyStr q)), "", nm⟩ : PropVal)) = _
  rw [if_neg (by simp), coerceText_pyStr q hq]

theorem parseCommonProp_encParamStr (nm s : String) (hempty : s ≠ "")
    (hf : pyFloat? s = none) :
    parseCommonProp (prettyKeep 2 (encParam nm s)) =
      (nm, ⟨.str s, "", nm⟩) := by
  have hpp : prettyKeep 2 (encParam nm s) =
      .node "property" [("name", nm), ("sourcetype", "reported")]
        (some ("\n" ++ String.mk (List.replicate (4 * (2 + 1)) ' ')))
        [.node "value" [] (some s) []] := by
    show prettyKeep 2 (.node "property" [("name", nm), ("sourcetype", "reported")]
      none [.node "value" [] (some s) []]) = _
    rw [pretty_nonempty _ _ _ _ _ (by simp), List.map_cons,
      pretty_leaf _ _ _ _ hempty]
    rfl
  rw [hpp]
  show (if ("" : String) ≠ "" then "" else nm,
    (⟨coerceText (some s), "", nm⟩ : PropVal)) = _
  rw [if_neg (by simp), coerceText_str s hf]

theorem parseCommonProp_encIC (comp : List (String × CompVal)) (h : comp ≠ []) :
    parseCommonProp (prettyKeep 2 (el "property"
      [("name", "initial composition"), ("sourcetype", "reported")] none
      (comp.map (fun kv => encComp kv.1 kv.2.units (pyStr kv.2.amount))))) =
      ("initial composition", ⟨.str ws12, "", "initial composition"⟩) := by
  have hne : comp.map (fun kv => encComp kv.1 kv.2.units (pyStr kv.2.amount)) ≠ [] := by
    cases hcc : comp with
    | nil => exact absurd hcc h
    | cons a l => simp
  have hfv : ∀ e ∈ (comp.map (fun kv => encComp kv.1 kv.2.units
      (pyStr kv.2.amount))).map (prettyKeep 3), (e.tag == "value") = false := by
    intro e he
    obtain ⟨e0, he0, hpe⟩ := List.mem_map.mp he
    obtain ⟨kv, _, hkv⟩ := List.mem_map.mp he0
    rw [← hpe, pretty_tag, ← hkv]
    rfl
  show parseCommonProp (prettyKeep 2 (.node "property"
    [("name", "initial composition"), ("sourcetype", "reported")] none
    (comp.map (fun kv => encComp kv.1 kv.2.units (pyStr kv.2.amount))))) = _
  rw [pretty_nonempty _ _ _ _ _ hne]
  unfold parseCommonProp
  have hfind : (Elem.node "property"
      [("name", "initial composition"), ("sourcetype", "reported")]
      (some ("\n" ++ String.mk (List.replicate (4 * (2 + 1)) ' ')))
      ((comp.map (fun kv => encComp kv.1 kv.2.units (pyStr kv.2.amount))).map
        (prettyKeep 3))).find "value" = none := by
    unfold Elem.find
    exact List.find?_eq_none.mpr (fun x hx => by simp [hfv x hx])
  rw [hfind]
  rfl

theorem dictSet_fresh {α : Type} :
    ∀ (d : List (String × α)) (k : String) (v : α),
      (∀ kv ∈ d, kv.1 ≠ k) → dictSet d k v = d ++ [(k, v)] := by
  intro d
  induction d with
  | nil => intro k v _; rfl
  | cons kv0 rest ih =>
      intro k v h
      rw [dictSet, if_neg (h kv0 (List.mem_cons_self _ _)), List.cons_append,
        ih k v (fun y hy => h y (List.mem_cons_of_mem _ hy))]

theorem cpFold_append :
    ∀ (l : List Elem) (d : List (String × CPEntry)),
      (∀ p ∈ l, ∀ kv ∈ d, kv.1 ≠ (parseCommonProp p).1) →
      (l.map (fun p => (parseCommonProp p).1)).Nodup →
      l.foldl (fun d p =>
        dictSet d (parseCommonProp p).1 (CPEntry.scalar (parseCommonProp p).2)) d =
        d ++ l.map (fun p =>
          ((parseCommonProp p).1, CPEntry.scalar (parseCommonProp p).2)) := by
  intro l
  induction l with
  | nil => intro d _ _; simp
  | cons p ps ih =>
      intro d hfresh hnd
      rw [List.map_cons, List.nodup_cons] at hnd
      rw [List.foldl_cons,
        dictSet_fresh d _ _ (fun kv hkv => hfresh p (List.mem_cons_self _ _) kv hkv)]
      rw [ih (d ++ [((parseCommonProp p).1, CPEntry.scalar (parseCommonProp p).2)])
        ?_ hnd.2]
      · rw [List.map_cons, List.append_assoc]
        rfl
      · intro q hq kv hkv
        rcases List.mem_append.mp hkv with h1 | h1
        · exact hfresh q (List.mem_cons_of_mem _ hq) kv h1
        · rcases List.mem_cons.mp h1 with h2 | h2
          · rw [h2]
            intro he
            exact hnd.1 (he ▸ List.mem_map_of_mem (fun p => (parseCommonProp p).1) hq)
          · cases h2

theorem pretty_encTP (nm lb un : String) (s : String) (h : s ≠ "") :
    prettyKeep 2 (encTP nm lb un s) =
      .node "property"
        [("name", nm), ("label", lb), ("units", un), ("sourcetype", "reported")]
        (some ("\n" ++ String.mk (List.replicate (4 * (2 + 1)) ' ')))
        [.node "value" [] (some s) []] := by
  show prettyKeep 2 (.node "property"
    [("name", nm), ("label", lb), ("units", un), ("sourcetype", "reported")]
    none [.node "value" [] (some s) []]) = _
  rw [pretty_nonempty _ _ _ _ _ (by simp), List.map_cons, pretty_leaf _ _ _ _ h]
  rfl

theorem pretty_encParam (nm s : String) (h : s ≠ "") :
    prettyKeep 2 (encParam nm s) =
      .node "property" [("name", nm), ("sourcetype", "reported")]
        (some ("\n" ++ String.mk (List.replicate (4 * (2 + 1)) ' ')))
        [.node "value" [] (some s) []] := by
  show prettyKeep 2 (.node "property" [("name", nm), ("sourcetype", "reported")]
    none [.node "value" [] (some s) []]) = _
  rw [pretty_nonempty _ _ _ _ _ (by simp), List.map_cons, pretty_leaf _ _ _ _ h]
  rfl

theorem descList_append :
    ∀ (a b : List Elem),
      descendantsList (a ++ b) = descendantsList a ++ descendantsList b := by
  intro a b
  induction a with
  | nil => rfl
  | cons c cs ih =>
      rw [List.cons_append, descendantsList, descendantsList, ih,
        List.cons_append, List.append_assoc]
      rfl

theorem find?_descList_map_none {α : Type} (p : Elem → Bool) (f : α → Elem) :
    ∀ (l : List α),
      (∀ x ∈ l, p (f x) = false ∧ ∀ d ∈ Elem.descendants (f x), p d = false) →
      (descendantsList (l.map f)).find? p = none := by
  intro l
  induction l with
  | nil => intro _; rfl
  | cons x xs ih =>
      intro h
      rw [List.map_cons, descendantsList, List.cons_append]
      rw [List.find?_cons_of_neg _ (by
        rw [(h x (List.mem_cons_self _ _)).1]
        exact Bool.false_ne_true)]
      rw [find?_append_left_none _ _ (List.find?_eq_none.mpr
        (fun d hd => by
          rw [(h x (List.mem_cons_self _ _)).2 d hd]
          exact Bool.false_ne_true))]
      exact ih (fun y hy => h y (List.mem_cons_of_mem _ hy))

theorem compFold_canon :
    ∀ (l : List (String × CompVal)) (acc : List (String × CompVal)),
      (∀ kv ∈ l, decFiniteQ kv.2.amount = true) →
      (∀ kv ∈ l, ∀ kv2 ∈ acc, kv2.1 ≠ kv.1) →
      (l.map Prod.fst).Nodup →
      (l.map (fun kv => prettyKeep 3
          (encComp kv.1 kv.2.units (pyStr kv.2.amount)))).foldlM
        (fun acc c =>
          match c.find "speciesLink", c.find "amount" with
          | some sl, some am => do
              let q ← amountValue am
              pure (dictSet acc (sl.getAttr "preferredKey" "")
                ⟨q, am.getAttr "units" ""⟩)
          | _, _ => pure acc) acc = Except.ok (acc ++ l) := by
  intro l
  induction l with
  | nil => intro acc _ _ _; simp; rfl
  | cons kv rest ih =>
      intro acc hq hfresh hnd
      rw [List.map_cons, List.nodup_cons] at hnd
      have hpc : prettyKeep 3 (encComp kv.1 kv.2.units (pyStr kv.2.amount)) =
          .node "component" []
            (some ("\n" ++ String.mk (List.replicate (4 * (3 + 1)) ' ')))
            [.node "speciesLink" [("preferredKey", kv.1)] none [],
             .node "amount" [("units", kv.2.units)] (some (pyStr kv.2.amount)) []] := by
        show prettyKeep 3 (.node "component" [] none
          [.node "speciesLink" [("preferredKey", kv.1)] none [],
           .node "amount" [("units", kv.2.units)] (some (pyStr kv.2.amount)) []]) = _
        rw [pretty_nonempty _ _ _ _ _ (by simp), List.map_cons, List.map_cons,
          pretty_leaf _ _ _ _ (pyStr_ne_empty kv.2.amount)]
        rfl
      rw [List.map_cons, List.foldlM_cons, hpc]
      have hstep : (match (Elem.node "component" []
          (some ("\n" ++ String.mk (List.replicate (4 * (3 + 1)) ' ')))
          [.node "speciesLink" [("preferredKey", kv.1)] none [],
           .node "amount" [("units", kv.2.units)] (some (pyStr kv.2.amount)) []]).find
            "speciesLink",
          (Elem.node "component" []
          (some ("\n" ++ String.mk (List.replicate (4 * (3 + 1)) ' ')))
          [.node "speciesLink" [("preferredKey", kv.1)] none [],
           .node "amount" [("units", kv.2.units)] (some (pyStr kv.2.amount)) []]).find
            "amount" with
          | some sl, some am => do
              let q ← amountValue am
              pure (dictSet acc (sl.getAttr "preferredKey" "")
                ⟨q, am.getAttr "units" ""⟩)
          | _, _ => pure acc) =
          Except.ok (dictSet acc kv.1 ⟨kv.2.amount, kv.2.units⟩) := by
        show (do
          let q ← amountValue (.node "amount" [("units", kv.2.units)]
            (some (pyStr kv.2.amount)) [])
          pure (dictSet acc kv.1 ⟨q, kv.2.units⟩) : Except String _) = _
        have hav : amountValue (.node "amount" [("units", kv.2.units)]
            (some (pyStr kv.2.amount)) []) = .ok kv.2.amount := by
          show (if pyStr kv.2.amount = "" then Except.ok 0
            else match pyFloat? (pyStr kv.2.amount) with
              | some q => Except.ok q
              | none => Except.error ("could not convert string to float: "
                  ++ pyStr kv.2.amount)) = _
          rw [if_neg (pyStr_ne_empty kv.2.amount),
            pyFloat_pyStr kv.2.amount (hq kv (List.mem_cons_self _ _))]
        rw [hav]
        rfl
      rw [hstep]
      have hacc : dictSet acc kv.1 ⟨kv.2.amount, kv.2.units⟩ =
          acc ++ [(kv.1, kv.2)] := by
        rw [dictSet_fresh acc kv.1 ⟨kv.2.amount, kv.2.units⟩
          (fun kv2 hkv2 => hfresh kv (List.mem_cons_self _ _) kv2 hkv2)]
      rw [hacc]
      have hrest := ih (acc ++ [(kv.1, kv.2)])
        (fun y hy => hq y (List.mem_cons_of_mem _ hy))
        (fun y hy kv2 hkv2 => by
          rcases List.mem_append.mp hkv2 with h1 | h1
          · exact hfresh y (List.mem_cons_of_mem _ hy) kv2 h1
          · rcases List.mem_cons.mp h1 with h2 | h2
            · rw [h2]
              intro he
              exact hnd.1 (he ▸ List.mem_map_of_mem Prod.fst hy)
            · cases h2)
        hnd.2
      rw [show acc ++ kv :: rest = (acc ++ [(kv.1, kv.2)]) ++ rest from by
        rw [List.append_assoc]
        rfl]
      exact hrest

theorem parse_cp_canon (c : CanonRecord)
    (hn1 : ∀ kv ∈ c.cp.nums, 0 < kv.2.num ∧ ('_' : Char) ∉ kv.1.data)
    (hn2 : ∀ kv ∈ c.cp.nums, decFiniteQ kv.2 = true ∧ kv.1 ∉ RESERVED_NAMES)
    (hs1 : ∀ kv ∈ c.cp.strs,
      ('_' : Char) ∉ kv.1.data ∧ replaceChar ' ' '_' kv.1 ∈ OPTIONAL_WHITELIST)
    (hs2 : ∀ kv ∈ c.cp.strs, kv.2 ≠ "" ∧ pyFloat? kv.2 = none ∧ kv.1 ∉ RESERVED_NAMES)
    (hq1 : decFiniteQ c.cp.tval = true) (hq2 : decFiniteQ c.cp.pval = true)
    (hcne : c.cp.comp ≠ [])
    (hcomp : ∀ kv ∈ c.cp.comp, decFiniteQ kv.2.amount = true)
    (hcnd : (c.cp.comp.map Prod.fst).Nodup)
    (hkeys : (["T", "P"] ++ c.cp.nums.map Prod.fst ++ c.cp.strs.map Prod.fst
      ++ ["initial composition"]).Nodup) :
    parse_common_properties
      (prettyKeep 0 (create_enhanced_xml (draftOfCanon c))) =
      .ok (canonCPList c.cp) := by
  have hkids_ne : encCPKids c.cp ≠ [] := by simp [encCPKids]
  have hcpP : prettyKeep 1 (el "commonProperties" [] none (encCPKids c.cp)) =
      .node "commonProperties" []
        (some ("\n" ++ String.mk (List.replicate (4 * (1 + 1)) ' ')))
        ((encCPKids c.cp).map (prettyKeep 2)) := by
    show prettyKeep 1 (.node "commonProperties" [] none (encCPKids c.cp)) = _
    rw [pretty_nonempty _ _ _ _ _ hkids_ne]
  have hsplit : (encCPKids c.cp).map (prettyKeep 2) =
      [prettyKeep 2 (encTP "temperature" "T" c.cp.tunits (pyStr c.cp.tval)),
       prettyKeep 2 (encTP "pressure" "P" c.cp.punits (pyStr c.cp.pval))]
      ++ c.cp.nums.map (fun kv => prettyKeep 2 (encParam kv.1 (pyStr kv.2)))
      ++ c.cp.strs.map (fun kv => prettyKeep 2 (encParam kv.1 kv.2))
      ++ [prettyKeep 2 (el "property"
          [("name", "initial composition"), ("sourcetype", "reported")] none
          (c.cp.comp.map (fun kv => encComp kv.1 kv.2.units (pyStr kv.2.amount))))] := by
    unfold encCPKids
    rw [List.map_append, List.map_append, List.map_append, List.map_map,
      List.map_map]
    rfl
  -- the generic property loop
  have hpairs : ((encCPKids c.cp).map (prettyKeep 2)).map
      (fun p => ((parseCommonProp p).1, CPEntry.scalar (parseCommonProp p).2)) =
      [("T", CPEntry.scalar ⟨.num c.cp.tval, c.cp.tunits, "temperature"⟩),
       ("P", CPEntry.scalar ⟨.num c.cp.pval, c.cp.punits, "pressure"⟩)]
      ++ c.cp.nums.map (fun kv => (kv.1, CPEntry.scalar ⟨.num kv.2, "", kv.1⟩))
      ++ c.cp.strs.map (fun kv => (kv.1, CPEntry.scalar ⟨.str kv.2, "", kv.1⟩))
      ++ [("initial composition",
          CPEntry.scalar ⟨.str ws12, "", "initial composition"⟩)] := by
    rw [hsplit, List.map_append, List.map_append, List.map_append,
      List.map_map, List.map_map]
    rw [show [prettyKeep 2 (encTP "temperature" "T" c.cp.tunits (pyStr c.cp.tval)),
        prettyKeep 2 (encTP "pressure" "P" c.cp.punits (pyStr c.cp.pval))].map
        (fun p => ((parseCommonProp p).1, CPEntry.scalar (parseCommonProp p).2)) =
        [("T", CPEntry.scalar ⟨.num c.cp.tval, c.cp.tunits, "temperature"⟩),
         ("P", CPEntry.scalar ⟨.num c.cp.pval, c.cp.punits, "pressure"⟩)] from by
      rw [List.map_cons, List.map_cons,
        parseCommonProp_encTP _ _ _ _ hq1 (by decide),
        parseCommonProp_encTP _ _ _ _ hq2 (by decide)]
      rfl]
    rw [List.map_congr_left (l := c.cp.nums) (fun kv hkv => by
      show ((parseCommonProp (prettyKeep 2 (encParam kv.1 (pyStr kv.2)))).1,
        CPEntry.scalar (parseCommonProp (prettyKeep 2 (encParam kv.1 (pyStr kv.2)))).2)
        = (kv.1, CPEntry.scalar ⟨.num kv.2, "", kv.1⟩)
      rw [parseCommonProp_encParamNum kv.1 kv.2 (hn2 kv hkv).1])]
    rw [List.map_congr_left (l := c.cp.strs) (fun kv hkv => by
      show ((parseCommonProp (prettyKeep 2 (encParam kv.1 kv.2))).1,
        CPEntry.scalar (parseCommonProp (prettyKeep 2 (encParam kv.1 kv.2))).2)
        = (kv.1, CPEntry.scalar ⟨.str kv.2, "", kv.1⟩)
      rw [parseCommonProp_encParamStr kv.1 kv.2 (hs2 kv hkv).1 (hs2 kv hkv).2.1])]
    rw [show [prettyKeep 2 (el "property"
        [("name", "initial composition"), ("sourcetype", "reported")] none
        (c.cp.comp.map (fun kv => encComp kv.1 kv.2.units (pyStr kv.2.amount))))].map
        (fun p => ((parseCommonProp p).1, CPEntry.scalar (parseCommonProp p).2)) =
        [("initial composition",
          CPEntry.scalar ⟨.str ws12, "", "initial composition"⟩)] from by
      rw [List.map_cons, parseCommonProp_encIC c.cp.comp hcne]
      rfl]
  have hkeym : ((encCPKids c.cp).map (prettyKeep 2)).map
      (fun p => (parseCommonProp p).1) =
      ["T", "P"] ++ c.cp.nums.map Prod.fst ++ c.cp.strs.map Prod.fst
      ++ ["initial composition"] := by
    have : ((encCPKids c.cp).map (prettyKeep 2)).map
        (fun p => (parseCommonProp p).1) =
        (((encCPKids c.cp).map (prettyKeep 2)).map
          (fun p => ((parseCommonProp p).1,
            CPEntry.scalar (parseCommonProp p).2))).map Prod.fst := by
      rw [List.map_map, List.map_map, List.map_map]
      rfl
    rw [this, hpairs]
    rw [List.map_append, List.map_append, List.map_append, List.map_map,
      List.map_map]
    rfl
  have htags : ∀ e ∈ encCPKids c.cp, (e.tag == "property") = true := by
    intro e he
    unfold encCPKids at he
    rcases List.mem_append.mp he with h1 | h1
    · rcases List.mem_append.mp h1 with h2 | h2
      · rcases List.mem_append.mp h2 with h3 | h3
        · rcases List.mem_cons.mp h3 with h4 | h4
          · rw [h4]; rfl
          · rcases List.mem_cons.mp h4 with h5 | h5
            · rw [h5]; rfl
            · cases h5
        · obtain ⟨kv, _, hkv⟩ := List.mem_map.mp h3
          rw [← hkv]; rfl
      · obtain ⟨kv, _, hkv⟩ := List.mem_map.mp h2
        rw [← hkv]; rfl
    · rcases List.mem_cons.mp h1 with h2 | h2
      · rw [h2]; rfl
      · cases h2
  have hfoldall : ((Elem.node "commonProperties" []
      (some ("\n" ++ String.mk (List.replicate (4 * (1 + 1)) ' ')))
      ((encCPKids c.cp).map (prettyKeep 2))).findall "property").foldl
      (fun d p => dictSet d (parseCommonProp p).1
        (CPEntry.scalar (parseCommonProp p).2)) [] =
      [("T", CPEntry.scalar ⟨.num c.cp.tval, c.cp.tunits, "temperature"⟩),
       ("P", CPEntry.scalar ⟨.num c.cp.pval, c.cp.punits, "pressure"⟩)]
      ++ c.cp.nums.map (fun kv => (kv.1, CPEntry.scalar ⟨.num kv.2, "", kv.1⟩))
      ++ c.cp.strs.map (fun kv => (kv.1, CPEntry.scalar ⟨.str kv.2, "", kv.1⟩))
      ++ [("initial composition",
          CPEntry.scalar ⟨.str ws12, "", "initial composition"⟩)] := by
    have hflt : (Elem.node "commonProperties" []
        (some ("\n" ++ String.mk (List.replicate (4 * (1 + 1)) ' ')))
        ((encCPKids c.cp).map (prettyKeep 2))).findall "property" =
        (encCPKids c.cp).map (prettyKeep 2) := by
      show ((encCPKids c.cp).map (prettyKeep 2)).filter
        (fun x => x.tag == "property") = _
      rw [filter_tag_map_pretty]
      rw [List.filter_eq_self.mpr htags]
    rw [hflt]
    rw [cpFold_append _ [] (fun p _ kv hkv => absurd hkv (List.not_mem_nil kv))
      (by rw [hkeym]; exact hkeys)]
    rw [hpairs]
    rfl
  have hicne : c.cp.comp.map (fun kv => encComp kv.1 kv.2.units
      (pyStr kv.2.amount)) ≠ [] := by
    cases hcc : c.cp.comp with
    | nil => exact absurd hcc hcne
    | cons a l => simp
  have hicP : prettyKeep 2 (el "property"
      [("name", "initial composition"), ("sourcetype", "reported")] none
      (c.cp.comp.map (fun kv => encComp kv.1 kv.2.units (pyStr kv.2.amount)))) =
      Elem.node "property"
        [("name", "initial composition"), ("sourcetype", "reported")]
        (some ("\n" ++ String.mk (List.replicate (4 * (2 + 1)) ' ')))
        ((c.cp.comp.map (fun kv => encComp kv.1 kv.2.units
          (pyStr kv.2.amount))).map (prettyKeep 3)) := by
    show prettyKeep 2 (.node "property"
      [("name", "initial composition"), ("sourcetype", "reported")] none
      (c.cp.comp.map (fun kv => encComp kv.1 kv.2.units (pyStr kv.2.amount)))) = _
    rw [pretty_nonempty _ _ _ _ _ hicne]
  have hicfind : (descendantsList ((encCPKids c.cp).map (prettyKeep 2))).find?
      (fun e => e.tag == "property" && e.attr? "name" == some "initial composition") =
      some (prettyKeep 2 (el "property"
        [("name", "initial composition"), ("sourcetype", "reported")] none
        (c.cp.comp.map (fun kv => encComp kv.1 kv.2.units (pyStr kv.2.amount))))) := by
    rw [hsplit]
    rw [pretty_encTP _ _ _ _ (pyStr_ne_empty c.cp.tval),
      pretty_encTP _ _ _ _ (pyStr_ne_empty c.cp.pval)]
    rw [descList_append, descList_append, descList_append]
    have hnums : (descendantsList (c.cp.nums.map
        (fun kv => prettyKeep 2 (encParam kv.1 (pyStr kv.2))))).find?
        (fun e => e.tag == "property"
          && e.attr? "name" == some "initial composition") = none := by
      refine find?_descList_map_none _ _ c.cp.nums (fun kv hkv => ?_)
      rw [pretty_encParam kv.1 _ (pyStr_ne_empty kv.2)]
      constructor
      · show (true && (kv.1 == "initial composition")) = false
        rw [beq_eq_false_iff_ne.mpr (fun he => by
          have h1 := (hn2 kv hkv).2
          rw [he] at h1
          exact h1 (by decide))]
        rfl
      · intro d hd
        have hd2 : d ∈ [Elem.node "value" [] (some (pyStr kv.2)) []] := hd
        rw [List.mem_singleton.mp hd2]
        rfl
    have hstrs : (descendantsList (c.cp.strs.map
        (fun kv => prettyKeep 2 (encParam kv.1 kv.2)))).find?
        (fun e => e.tag == "property"
          && e.attr? "name" == some "initial composition") = none := by
      refine find?_descList_map_none _ _ c.cp.strs (fun kv hkv => ?_)
      rw [pretty_encParam kv.1 _ (hs2 kv hkv).1]
      constructor
      · show (true && (kv.1 == "initial composition")) = false
        rw [beq_eq_false_iff_ne.mpr (fun he => by
          have h1 := (hs2 kv hkv).2.2
          rw [he] at h1
          exact h1 (by decide))]
        rfl
      · intro d hd
        have hd2 : d ∈ [Elem.node "value" [] (some kv.2) []] := hd
        rw [List.mem_singleton.mp hd2]
        rfl
    rw [find?_append_left_none _ _ (by
      rw [find?_append_left_none _ _ (by
        rw [find?_append_left_none _ _ (by rfl), hnums]), hstrs])]
    rw [hicP, descendantsList, List.cons_append]
    rw [List.find?_cons_of_pos _ (by rfl)]
  have hcomps : parseComponents ((Elem.node "property"
      [("name", "initial composition"), ("sourcetype", "reported")]
      (some ("\n" ++ String.mk (List.replicate (4 * (2 + 1)) ' ')))
      ((c.cp.comp.map (fun kv => encComp kv.1 kv.2.units
        (pyStr kv.2.amount))).map (prettyKeep 3))).findall "component") =
      .ok c.cp.comp := by
    have hflt : (Elem.node "property"
        [("name", "initial composition"), ("sourcetype", "reported")]
        (some ("\n" ++ String.mk (List.replicate (4 * (2 + 1)) ' ')))
        ((c.cp.comp.map (fun kv => encComp kv.1 kv.2.units
          (pyStr kv.2.amount))).map (prettyKeep 3))).findall "component" =
        c.cp.comp.map (fun kv => prettyKeep 3 (encComp kv.1 kv.2.units
          (pyStr kv.2.amount))) := by
      show ((c.cp.comp.map (fun kv => encComp kv.1 kv.2.units
        (pyStr kv.2.amount))).map (prettyKeep 3)).filter
        (fun x => x.tag == "component") = _
      rw [filter_tag_map_pretty]
      rw [List.filter_eq_self.mpr (fun e he => by
        obtain ⟨kv, _, hkv⟩ := List.mem_map.mp he
        rw [← hkv]
        rfl)]
      rw [List.map_map]
      rfl
    rw [hflt]
    show (c.cp.comp.map (fun kv => prettyKeep 3 (encComp kv.1 kv.2.units
      (pyStr kv.2.amount)))).foldlM _ [] = _
    rw [compFold_canon c.cp.comp [] hcomp
      (fun kv _ kv2 hkv2 => absurd hkv2 (List.not_mem_nil kv2)) hcnd]
    rfl
  have hfreshic : ∀ kv ∈ ([("T", CPEntry.scalar
        (⟨.num c.cp.tval, c.cp.tunits, "temperature"⟩ : PropVal)),
       ("P", CPEntry.scalar ⟨.num c.cp.pval, c.cp.punits, "pressure"⟩)]
      ++ c.cp.nums.map (fun kv => (kv.1, CPEntry.scalar ⟨.num kv.2, "", kv.1⟩))
      ++ c.cp.strs.map (fun kv => (kv.1, CPEntry.scalar ⟨.str kv.2, "", kv.1⟩))
      ++ [("initial composition",
          CPEntry.scalar ⟨.str ws12, "", "initial composition"⟩)]),
      kv.1 ≠ "initial_composition" := by
    intro kv hkv
    rcases List.mem_append.mp hkv with h1 | h1
    · rcases List.mem_append.mp h1 with h2 | h2
      · rcases List.mem_append.mp h2 with h3 | h3
        · rcases List.mem_cons.mp h3 with h4 | h4
          · rw [h4]
            show ("T" : String) ≠ "initial_composition"
            decide
          · rcases List.mem_cons.mp h4 with h5 | h5
            · rw [h5]
              show ("P" : String) ≠ "initial_composition"
              decide
            · cases h5
        · obtain ⟨kv0, hkv0, hkve⟩ := List.mem_map.mp h3
          rw [← hkve]
          intro he
          exact (hn1 kv0 hkv0).2 (by rw [show kv0.1 = "initial_composition" from he]; decide)
      · obtain ⟨kv0, hkv0, hkve⟩ := List.mem_map.mp h2
        rw [← hkve]
        intro he
        exact (hs1 kv0 hkv0).1 (by rw [show kv0.1 = "initial_composition" from he]; decide)
    · rcases List.mem_cons.mp h1 with h2 | h2
      · rw [h2]
        show ("initial composition" : String) ≠ "initial_composition"
        decide
      · cases h2
  unfold parse_common_properties
  rw [find_cp_canon c hn1 hs1 hcne]
  show (match (descendantsList (prettyKeep 1 (el "commonProperties" [] none
      (encCPKids c.cp))).children).find?
      (fun e => e.tag == "property" && e.attr? "name" == some "initial composition") with
    | none => Except.ok (((prettyKeep 1 (el "commonProperties" [] none
        (encCPKids c.cp))).findall "property").foldl
        (fun d p => dictSet d (parseCommonProp p).1
          (CPEntry.scalar (parseCommonProp p).2)) [])
    | some ic =>
        match parseComponents (ic.findall "component") with
        | .error msg => Except.error msg
        | .ok m => Except.ok (dictSet (((prettyKeep 1 (el "commonProperties" []
            none (encCPKids c.cp))).findall "property").foldl
            (fun d p => dictSet d (parseCommonProp p).1
              (CPEntry.scalar (parseCommonProp p).2)) [])
            "initial_composition" (CPEntry.comp m))) = Except.ok (canonCPList c.cp)
  rw [hcpP]
  rw [show (Elem.node "commonProperties" []
      (some ("\n" ++ String.mk (List.replicate (4 * (1 + 1)) ' ')))
      ((encCPKids c.cp).map (prettyKeep 2))).children =
      (encCPKids c.cp).map (prettyKeep 2) from rfl]
  rw [hicfind]
  show (match parseComponents ((prettyKeep 2 (el "property"
      [("name", "initial composition"), ("sourcetype", "reported")] none
      (c.cp.comp.map (fun kv => encComp kv.1 kv.2.units
        (pyStr kv.2.amount))))).findall "component") with
    | .error msg => Except.error msg
    | .ok m => Except.ok (dictSet (((Elem.node "commonProperties" []
        (some ("\n" ++ String.mk (List.replicate (4 * (1 + 1)) ' ')))
        ((encCPKids c.cp).map (prettyKeep 2))).findall "property").foldl
        (fun d p => dictSet d (parseCommonProp p).1
          (CPEntry.scalar (parseCommonProp p).2)) [])
        "initial_composition" (CPEntry.comp m))) = Except.ok (canonCPList c.cp)
  rw [hicP, hcomps]
  show Except.ok (dictSet (((Elem.node "commonProperties" []
      (some ("\n" ++ String.mk (List.replicate (4 * (1 + 1)) ' ')))
      ((encCPKids c.cp).map (prettyKeep 2))).findall "property").foldl
      (fun d p => dictSet d (parseCommonProp p).1
        (CPEntry.scalar (parseCommonProp p).2)) [])
      "initial_composition" (CPEntry.comp c.cp.comp)) = Except.ok (canonCPList c.cp)
  rw [hfoldall]
  rw [dictSet_fresh _ _ _ hfreshic]
  unfold canonCPList
  simp [List.append_assoc]

theorem pretty_childless_none (lvl : ℕ) (t : String) (a : List (String × String)) :
    prettyKeep lvl (.node t a none []) = .node t a none [] := rfl

theorem parsePropInfo_none (p : CanonProp) (hsp : p.species = none) :
    parsePropInfo (prettyKeep 2 (el "property"
      [("id", p.id), ("name", p.name), ("label", p.label), ("units", p.units),
       ("sourcetype", "digitized")] none [])) = canonPropInfo p := by
  rw [show el "property"
      [("id", p.id), ("name", p.name), ("label", p.label), ("units", p.units),
       ("sourcetype", "digitized")] none [] =
      Elem.node "property"
      [("id", p.id), ("name", p.name), ("label", p.label), ("units", p.units),
       ("sourcetype", "digitized")] none [] from rfl,
    pretty_childless_none]
  unfold canonPropInfo
  rw [hsp]
  rfl

theorem parsePropInfo_species (p : CanonProp) (sp : String) (i : SpeciesIds)
    (hsp : p.species = some sp) (hne : sp ≠ "")
    (hreg : COMMON_SPECIES.lookup sp = some i) :
    parsePropInfo (prettyKeep 2 (el "property"
      [("id", p.id), ("name", p.name), ("label", p.label), ("units", p.units),
       ("sourcetype", "digitized")] none
      (ySpeciesKids ⟨p.id, p.name, some p.label, p.units, p.species⟩))) =
      canonPropInfo p := by
  have hyk : ySpeciesKids ⟨p.id, p.name, some p.label, p.units, p.species⟩ =
      [el "speciesLink"
        [("preferredKey", sp), ("CAS", i.CAS), ("chemName", i.chemName),
         ("InChI", i.InChI), ("SMILES", i.SMILES)] none []] := by
    unfold ySpeciesKids
    rw [show (⟨p.id, p.name, some p.label, p.units, p.species⟩ : YAxis).species =
      p.species from rfl, hsp]
    show (if sp ≠ "" then
      match COMMON_SPECIES.lookup sp with
      | some ids =>
          [el "speciesLink"
             [("preferredKey", sp), ("CAS", ids.CAS), ("chemName", ids.chemName),
              ("InChI", ids.InChI), ("SMILES", ids.SMILES)]
             none []]
      | none => []
      else []) = _
    rw [if_pos hne, hreg]
  rw [hyk]
  show parsePropInfo (prettyKeep 2 (Elem.node "property"
    [("id", p.id), ("name", p.name), ("label", p.label), ("units", p.units),
     ("sourcetype", "digitized")] none
    [el "speciesLink"
      [("preferredKey", sp), ("CAS", i.CAS), ("chemName", i.chemName),
       ("InChI", i.InChI), ("SMILES", i.SMILES)] none []])) = _
  rw [pretty_nonempty _ _ _ _ _ (by simp)]
  rw [List.map_cons]
  rw [show prettyKeep 3 (el "speciesLink"
      [("preferredKey", sp), ("CAS", i.CAS), ("chemName", i.chemName),
       ("InChI", i.InChI), ("SMILES", i.SMILES)] none []) =
      Elem.node "speciesLink"
      [("preferredKey", sp), ("CAS", i.CAS), ("chemName", i.chemName),
       ("InChI", i.InChI), ("SMILES", i.SMILES)] none [] from
    pretty_childless_none 3 _ _]
  unfold canonPropInfo
  rw [hsp]
  rfl

theorem pmSet_fresh :
    ∀ (d : List (Option String × PropInfo)) (k : Option String) (v : PropInfo),
      (∀ kv ∈ d, kv.1 ≠ k) → pmSet d k v = d ++ [(k, v)] := by
  intro d
  induction d with
  | nil => intro k v _; rfl
  | cons kv0 rest ih =>
      intro k v h
      rw [pmSet, if_neg (h kv0 (List.mem_cons_self _ _)), List.cons_append,
        ih k v (fun y hy => h y (List.mem_cons_of_mem _ hy))]

theorem dgPropState_canon :
    ∀ (ps : List Elem) (pm0 : List (Option String × PropInfo))
      (co0 : List (Option String)) (pr0 : List PropInfo),
      ((ps.map parsePropInfo).map PropInfo.id).Nodup →
      (∀ p ∈ ps, ∀ kv ∈ pm0, kv.1 ≠ (parsePropInfo p).id) →
      ps.foldl (fun st p =>
        let info := parsePropInfo p
        (pmSet st.1 info.id info, st.2.1 ++ [info.id], st.2.2 ++ [info]))
        (pm0, co0, pr0) =
      (pm0 ++ (ps.map parsePropInfo).map (fun i => (i.id, i)),
       co0 ++ (ps.map parsePropInfo).map PropInfo.id,
       pr0 ++ ps.map parsePropInfo) := by
  intro ps
  induction ps with
  | nil => intro pm0 co0 pr0 _ _; simp
  | cons p rest ih =>
      intro pm0 co0 pr0 hnd hfresh
      rw [List.map_cons, List.map_cons, List.nodup_cons] at hnd
      rw [List.foldl_cons]
      show rest.foldl _
        (pmSet pm0 (parsePropInfo p).id (parsePropInfo p),
         co0 ++ [(parsePropInfo p).id], pr0 ++ [parsePropInfo p]) = _
      rw [pmSet_fresh pm0 _ _ (fun kv hkv =>
        hfresh p (List.mem_cons_self _ _) kv hkv)]
      rw [ih (pm0 ++ [((parsePropInfo p).id, parsePropInfo p)])
        (co0 ++ [(parsePropInfo p).id]) (pr0 ++ [parsePropInfo p]) hnd.2 ?_]
      · rw [List.map_cons, List.map_cons, List.map_cons]
        rw [List.append_assoc, List.append_assoc, List.append_assoc]
        rfl
      · intro q hq kv hkv
        rcases List.mem_append.mp hkv with h1 | h1
        · exact hfresh q (List.mem_cons_of_mem _ hq) kv h1
        · rcases List.mem_cons.mp h1 with h2 | h2
          · rw [h2]
            intro he
            refine hnd.1 ?_
            have he2 : (parsePropInfo p).id = (parsePropInfo q).id := he
            rw [he2]
            exact List.mem_map_of_mem PropInfo.id
              (List.mem_map_of_mem parsePropInfo hq)
          · cases h2

theorem keyedRow_lookup :
    ∀ (ks : List String) (vs : List PyVal) (i : ℕ) (hi : i < ks.length)
      (hj : i < vs.length), ks.Nodup →
      (keyedRow ks vs).lookup (ks.get ⟨i, hi⟩) = some (vs.get ⟨i, hj⟩) := by
  intro ks
  induction ks with
  | nil => intro vs i hi; cases hi
  | cons k ks ih =>
      intro vs i hi hj hnd
      rw [List.nodup_cons] at hnd
      cases vs with
      | nil => cases hj
      | cons v vs =>
          cases i with
          | zero =>
              show List.lookup k ((k, v) :: keyedRow ks vs) = some v
              simp [List.lookup]
          | succ n =>
              show List.lookup (ks.get ⟨n, _⟩) ((k, v) :: keyedRow ks vs) = _
              have hne : (ks.get ⟨n, Nat.lt_of_succ_lt_succ hi⟩ == k) = false := by
                refine beq_eq_false_iff_ne.mpr (fun he => hnd.1 ?_)
                rw [← he]
                exact ks.get_mem n _
              simp only [List.lookup]
              rw [show ((ks.get ⟨n, Nat.lt_of_succ_lt_succ hi⟩) == k) = false from hne]
              exact ih vs n _ (Nat.lt_of_succ_lt_succ hj) hnd.2

theorem ysChildren :
    ∀ (l : List CanonProp) (ws : List PyVal) (F : List (String × PyVal)),
      ws.length = l.length →
      (∀ (i : ℕ) (hi : i < l.length) (hj : i < ws.length),
        F.lookup ((l.get ⟨i, hi⟩).name) = some (ws.get ⟨i, hj⟩)) →
      (l.map (fun y => (⟨y.id, y.name, some y.label, y.units, y.species⟩ : YAxis))).filterMap
        (fun y => (F.lookup y.name).map (fun v => el y.id [] (some (pyStrVal v)) [])) =
      List.zipWith (fun (p : CanonProp) (v : PyVal) =>
        Elem.node p.id [] (some (pyStrVal v)) []) l ws := by
  intro l
  induction l with
  | nil => intro ws F _ _; rfl
  | cons y l ih =>
      intro ws F hlen hlook
      cases ws with
      | nil => cases hlen
      | cons w ws =>
          rw [List.map_cons, List.filterMap_cons]
          have h0 := hlook 0 (by simp) (by simp)
          rw [show ((y :: l).get ⟨0, by simp⟩).name = y.name from rfl] at h0
          rw [show F.lookup
            ((⟨y.id, y.name, some y.label, y.units, y.species⟩ : YAxis).name) =
            F.lookup y.name from rfl, h0]
          rw [List.zipWith_cons_cons]
          rw [ih ws F (by simpa using hlen)
            (fun i hi hj => hlook (i + 1) (by simpa using hi) (by simpa using hj))]
          rfl

theorem pm_lookup_canon :
    ∀ (infos : List PropInfo), (infos.map PropInfo.id).Nodup →
      ∀ info ∈ infos,
        (infos.map (fun i => (i.id, i))).lookup info.id = some info := by
  intro infos
  induction infos with
  | nil => intro _ info hinfo; cases hinfo
  | cons i0 rest ih =>
      intro hnd info hinfo
      rw [List.map_cons, List.nodup_cons] at hnd
      rcases List.mem_cons.mp hinfo with h1 | h1
      · subst h1
        show List.lookup info.id ((info.id, info) :: _) = some info
        simp [List.lookup]
      · have hne : (info.id == i0.id) = false := by
          refine beq_eq_false_iff_ne.mpr (fun he => hnd.1 ?_)
          rw [← he]
          exact List.mem_map_of_mem PropInfo.id h1
        rw [List.map_cons]
        show List.lookup info.id ((i0.id, i0) :: _) = some info
        simp only [List.lookup]
        rw [show (info.id == i0.id) = false from hne]
        exact ih hnd.2 info h1

theorem ppFold :
    ∀ (ps : List CanonProp) (vs : List PyVal)
      (pm : List (Option String × PropInfo)) (pd : List (String × PyVal)),
      (∀ p ∈ ps, pm.lookup (some p.id) = some (canonPropInfo p)) →
      ((ps.map (fun p => (canonPropInfo p).column_name)).Nodup) →
      (∀ p ∈ ps, ∀ kv ∈ pd, kv.1 ≠ (canonPropInfo p).column_name) →
      (List.zipWith (fun (p : CanonProp) (v : PyVal) =>
        Elem.node p.id [] (some (pyStrVal v)) []) ps vs).foldl
        (fun pd child => match pm.lookup (some child.tag) with
          | some info => dictSet pd info.column_name (coerceText child.text)
          | none => pd) pd =
      pd ++ keyedRow (ps.map (fun p => (canonPropInfo p).column_name)) (vs.map reVal) := by
  intro ps
  induction ps with
  | nil => intro vs pm pd _ _ _; simp [keyedRow]
  | cons p ps ih =>
      intro vs pm pd hlook hnd hfresh
      rw [List.map_cons, List.nodup_cons] at hnd
      cases vs with
      | nil =>
          show pd = pd ++ keyedRow (_ :: _) []
          rw [show keyedRow ((canonPropInfo p).column_name ::
            ps.map (fun p => (canonPropInfo p).column_name)) [] = [] from rfl]
          simp
      | cons v vs =>
          rw [List.zipWith_cons_cons, List.foldl_cons]
          rw [show (match pm.lookup (some (Elem.node p.id [] (some (pyStrVal v)) []).tag) with
            | some info => dictSet pd info.column_name
                (coerceText (Elem.node p.id [] (some (pyStrVal v)) []).text)
            | none => pd) =
            dictSet pd (canonPropInfo p).column_name (reVal v) from by
            rw [show (Elem.node p.id [] (some (pyStrVal v)) []).tag = p.id from rfl]
            rw [hlook p (List.mem_cons_self _ _)]
            rfl]
          rw [dictSet_fresh pd _ _
            (fun kv hkv => hfresh p (List.mem_cons_self _ _) kv hkv)]
          rw [ih vs pm (pd ++ [((canonPropInfo p).column_name, reVal v)])
            (fun q hq => hlook q (List.mem_cons_of_mem _ hq)) hnd.2 ?_]
          · rw [List.map_cons, List.map_cons,
              show keyedRow ((canonPropInfo p).column_name ::
                ps.map (fun p => (canonPropInfo p).column_name))
                (reVal v :: vs.map reVal) =
                ((canonPropInfo p).column_name, reVal v) ::
                keyedRow (ps.map (fun p => (canonPropInfo p).column_name))
                  (vs.map reVal) from rfl]
            rw [List.append_assoc]
            rfl
          · intro q hq kv hkv
            rcases List.mem_append.mp hkv with h1 | h1
            · exact hfresh q (List.mem_cons_of_mem _ hq) kv h1
            · rcases List.mem_cons.mp h1 with h2 | h2
              · rw [h2]
                intro he
                refine hnd.1 ?_
                have he2 : (canonPropInfo p).column_name =
                    (canonPropInfo q).column_name := he
                rw [he2]
                exact List.mem_map_of_mem _ hq
              · cases h2

theorem dgRows_map_all :
    ∀ (dps : List Elem) (pm : List (Option String × PropInfo))
      (acc : List (List (String × PyVal))),
      (∀ dp ∈ dps, parsePoint pm dp ≠ []) →
      dps.foldl (fun rs dp =>
        let pd := parsePoint pm dp
        if pd.isEmpty then rs else rs ++ [pd]) acc =
      acc ++ dps.map (parsePoint pm) := by
  intro dps
  induction dps with
  | nil => intro pm acc _; simp
  | cons dp dps ih =>
      intro pm acc hne
      rw [List.foldl_cons]
      show dps.foldl _ (if (parsePoint pm dp).isEmpty then acc
        else acc ++ [parsePoint pm dp]) = _
      rw [if_neg (by
        intro he
        exact hne dp (List.mem_cons_self _ _) (List.isEmpty_iff.mp he))]
      rw [ih pm (acc ++ [parsePoint pm dp])
        (fun d hd => hne d (List.mem_cons_of_mem _ hd))]
      rw [List.map_cons, List.append_assoc]
      rfl

theorem contains_of_mem {a : String} :
    ∀ {l : List String}, a ∈ l → l.contains a = true := by
  intro l h
  exact List.elem_eq_true_of_mem h

theorem contains_eq_false_of_not_mem {a : String} :
    ∀ {l : List String}, a ∉ l → l.contains a = false := by
  intro l h
  cases hc : l.contains a with
  | false => rfl
  | true => exact absurd (List.mem_of_elem_eq_true hc) h

theorem foldl_addNew_subset :
    ∀ (l acc : List String), (∀ x ∈ l, x ∈ acc) →
      l.foldl (fun cs k => if cs.contains k then cs else cs ++ [k]) acc = acc := by
  intro l
  induction l with
  | nil => intro acc _; rfl
  | cons x xs ih =>
      intro acc h
      rw [List.foldl_cons, if_pos (by
        rw [contains_of_mem (h x (List.mem_cons_self _ _))])]
      exact ih acc (fun y hy => h y (List.mem_cons_of_mem _ hy))

theorem foldl_addNew_fresh :
    ∀ (l acc : List String), l.Nodup → (∀ x ∈ l, x ∉ acc) →
      l.foldl (fun cs k => if cs.contains k then cs else cs ++ [k]) acc =
        acc ++ l := by
  intro l
  induction l with
  | nil => intro acc _ _; simp
  | cons x xs ih =>
      intro acc hnd hdisj
      rw [List.nodup_cons] at hnd
      rw [List.foldl_cons, if_neg (by
        rw [contains_eq_false_of_not_mem (hdisj x (List.mem_cons_self _ _))]
        exact Bool.false_ne_true)]
      rw [ih (acc ++ [x]) hnd.2 (fun y hy => by
        intro hmem
        rcases List.mem_append.mp hmem with h1 | h1
        · exact hdisj y (List.mem_cons_of_mem _ hy) h1
        · exact hnd.1 (List.mem_singleton.mp h1 ▸ hy))]
      rw [List.append_assoc]
      rfl

theorem dfColumns_full (cols : List String) (hnd : cols.Nodup) :
    ∀ (rows : List (List (String × PyVal))),
      (∀ r ∈ rows, r.map Prod.fst = cols) →
      dfColumns rows = if rows.isEmpty then [] else cols := by
  have hinner : ∀ (r : List (String × PyVal)) (acc : List String),
      r.foldl (fun cs kv => if cs.contains kv.1 then cs else cs ++ [kv.1]) acc =
        (r.map Prod.fst).foldl
          (fun cs k => if cs.contains k then cs else cs ++ [k]) acc := by
    intro r acc
    rw [List.foldl_map]
  intro rows
  cases rows with
  | nil => intro _; rfl
  | cons r rest =>
      intro hall
      show (rest.foldl _ (r.foldl _ [])) = cols
      rw [hinner r [], hall r (List.mem_cons_self _ _),
        foldl_addNew_fresh cols [] hnd (fun x _ hx => List.not_mem_nil x hx)]
      rw [show ([] : List String) ++ cols = cols from rfl]
      induction rest with
      | nil => rfl
      | cons r2 rest2 ih2 =>
          rw [List.foldl_cons, hinner r2 cols,
            hall r2 (List.mem_cons_of_mem _ (List.mem_cons_self _ _)),
            foldl_addNew_subset cols cols (fun x hx => hx)]
          exact ih2 (fun y hy => by
            rcases List.mem_cons.mp hy with h1 | h1
            · exact hall y (h1 ▸ List.mem_cons_self _ _)
            · exact hall y (List.mem_cons_of_mem _ (List.mem_cons_of_mem _ h1)))

theorem dgOrdered1_canon (pm : List (Option String × PropInfo)) :
    ∀ (infos : List PropInfo) (display : List String) (acc : List String),
      (∀ i ∈ infos, pm.lookup i.id = some i) →
      (∀ i ∈ infos, i.column_name ∈ display) →
      (infos.map PropInfo.id).foldl
        (fun oc pid =>
          match pm.lookup pid with
          | some info =>
              if display.contains info.column_name then oc ++ [info.column_name]
              else oc
          | none => oc) acc =
      acc ++ infos.map PropInfo.column_name := by
  intro infos
  induction infos with
  | nil => intro display acc _ _; simp
  | cons i rest ih =>
      intro display acc hlook hdisp
      rw [List.map_cons, List.foldl_cons]
      rw [show (match pm.lookup i.id with
        | some info =>
            if display.contains info.column_name then acc ++ [info.column_name]
            else acc
        | none => acc) = acc ++ [i.column_name] from by
        rw [hlook i (List.mem_cons_self _ _)]
        show (if display.contains i.column_name then acc ++ [i.column_name]
          else acc) = _
        rw [if_pos (by rw [contains_of_mem (hdisp i (List.mem_cons_self _ _))])]]
      rw [ih display (acc ++ [i.column_name])
        (fun y hy => hlook y (List.mem_cons_of_mem _ hy))
        (fun y hy => hdisp y (List.mem_cons_of_mem _ hy))]
      rw [List.map_cons, List.append_assoc]
      rfl

theorem keyedRow_keys :
    ∀ (ks : List String) (vs : List PyVal), vs.length = ks.length →
      (keyedRow ks vs).map Prod.fst = ks := by
  intro ks
  induction ks with
  | nil => intro vs _; rfl
  | cons k ks ih =>
      intro vs hlen
      cases vs with
      | nil => cases hlen
      | cons v vs =>
          show (k, v).1 :: (keyedRow ks vs).map Prod.fst = k :: ks
          rw [ih vs (by simpa using hlen)]

theorem map_zipWith_elem {α β : Type} (f : Elem → Elem) (g : α → β → Elem) :
    ∀ (a : List α) (b : List β),
      (List.zipWith g a b).map f = List.zipWith (fun x y => f (g x y)) a b := by
  intro a
  induction a with
  | nil => intro b; rfl
  | cons x xs ih =>
      intro b
      cases b with
      | nil => rfl
      | cons y ys => rw [List.zipWith_cons_cons, List.map_cons, ih,
          List.zipWith_cons_cons]

theorem get_map_name :
    ∀ (l : List CanonProp) (i : ℕ) (hi : i < l.length)
      (h2 : i < (l.map CanonProp.name).length),
      (l.map CanonProp.name).get ⟨i, h2⟩ = (l.get ⟨i, hi⟩).name := by
  intro l
  induction l with
  | nil => intro i hi; cases hi
  | cons p l ih =>
      intro i hi h2
      cases i with
      | zero => rfl
      | succ n => exact ih n (Nat.lt_of_succ_lt_succ hi) _

theorem dpChildren_canon (x : CanonProp) (ys : List CanonProp) (vs : List PyVal)
    (hlen : vs.length = (x :: ys).length)
    (hnd : ((x :: ys).map CanonProp.name).Nodup) :
    (match (keyedRow ((x :: ys).map CanonProp.name) vs).lookup x.name with
     | some v => [el x.id [] (some (pyStrVal v)) []]
     | none => []) ++
    (ys.map (fun y => (⟨y.id, y.name, some y.label, y.units, y.species⟩ : YAxis))).filterMap
      (fun y => ((keyedRow ((x :: ys).map CanonProp.name) vs).lookup y.name).map
        (fun v => el y.id [] (some (pyStrVal v)) [])) =
    List.zipWith (fun (p : CanonProp) (v : PyVal) =>
      Elem.node p.id [] (some (pyStrVal v)) []) (x :: ys) vs := by
  cases vs with
  | nil => cases hlen
  | cons v0 vrest =>
      have hx : (keyedRow ((x :: ys).map CanonProp.name) (v0 :: vrest)).lookup
          x.name = some v0 := by
        have := keyedRow_lookup ((x :: ys).map CanonProp.name) (v0 :: vrest) 0
          (by simp) (by simp) hnd
        rw [show ((x :: ys).map CanonProp.name).get ⟨0, by simp⟩ = x.name from rfl]
          at this
        exact this
      rw [hx]
      rw [ysChildren ys vrest _ (by simpa using hlen) (fun i hi hj => by
        have := keyedRow_lookup ((x :: ys).map CanonProp.name) (v0 :: vrest) (i + 1)
          (by simpa using hi) (by simpa using hj) hnd
        rw [get_map_name (x :: ys) (i + 1) (by simpa using hi) _] at this
        rw [show ((x :: ys).get ⟨i + 1, by simpa using hi⟩) = ys.get ⟨i, hi⟩
          from rfl] at this
        exact this)]
      rw [List.zipWith_cons_cons]
      rfl

theorem zipWith_congr_mem {α β : Type} (f f2 : α → β → Elem) :
    ∀ (a : List α) (b : List β), (∀ x ∈ a, ∀ y ∈ b, f x y = f2 x y) →
      List.zipWith f a b = List.zipWith f2 a b := by
  intro a
  induction a with
  | nil => intro b _; rfl
  | cons x xs ih =>
      intro b h
      cases b with
      | nil => rfl
      | cons y ys =>
          rw [List.zipWith_cons_cons, List.zipWith_cons_cons,
            h x (List.mem_cons_self _ _) y (List.mem_cons_self _ _),
            ih ys (fun a ha b hb => h a (List.mem_cons_of_mem _ ha) b
              (List.mem_cons_of_mem _ hb))]

theorem dgElem_draft_canon (g : CanonDG) :
    dgElem (draftDGOfCanon g) = el "dataGroup"
      [("id", g.id), ("label", g.label)] none
      ([encX g] ++ g.ys.map encY ++ g.rowvals.map (encDP g)) := by
  unfold dgElem draftDGOfCanon encX encY encDP
  congr 1
  congr 1
  · congr 1
    rw [List.map_map]
    rfl
  · rw [List.map_map]
    rfl

theorem parseDatagroup_canon (g : CanonDG)
    (hid : ((canonProps g).map PropInfo.id).Nodup)
    (hcol : ((canonProps g).map PropInfo.column_name).Nodup)
    (hnm : ((g.x :: g.ys).map CanonProp.name).Nodup)
    (hx : g.x.species = none)
    (hysp : ∀ y ∈ g.ys, y.species = none ∨
      ∃ sp i, y.species = some sp ∧ sp ≠ "" ∧ COMMON_SPECIES.lookup sp = some i)
    (hrows : ∀ row ∈ g.rowvals,
      row.length = (g.x :: g.ys).length ∧ ∀ v ∈ row, pyStrVal v ≠ "")
    (hus : ∀ p ∈ canonProps g, startsWithUnderscore p.column_name = false) :
    parseDatagroup (prettyKeep 1 (dgElem (draftDGOfCanon g))) =
      canonDgData (reValDG g) := by
  have hCH := dgElem_draft_canon g
  have hCHne : ([encX g] ++ g.ys.map encY ++ g.rowvals.map (encDP g)) ≠ [] := by
    simp
  have hpre : prettyKeep 1 (dgElem (draftDGOfCanon g)) = Elem.node "dataGroup"
      [("id", g.id), ("label", g.label)]
      (some ("\n" ++ String.mk (List.replicate (4 * (1 + 1)) ' ')))
      (([encX g] ++ g.ys.map encY ++ g.rowvals.map (encDP g)).map
        (prettyKeep 2)) := by
    rw [hCH]
    show prettyKeep 1 (.node "dataGroup" [("id", g.id), ("label", g.label)]
      none _) = _
    rw [pretty_nonempty _ _ _ _ _ hCHne]
  have hfa : (Elem.node "dataGroup" [("id", g.id), ("label", g.label)]
      (some ("\n" ++ String.mk (List.replicate (4 * (1 + 1)) ' ')))
      (([encX g] ++ g.ys.map encY ++ g.rowvals.map (encDP g)).map
        (prettyKeep 2))).findall "property" =
      ([encX g] ++ g.ys.map encY).map (prettyKeep 2) := by
    show (([encX g] ++ g.ys.map encY ++ g.rowvals.map (encDP g)).map
      (prettyKeep 2)).filter (fun x => x.tag == "property") = _
    rw [filter_tag_map_pretty]
    rw [List.filter_append, List.filter_append]
    rw [show ([encX g].filter (fun x => x.tag == "property")) = [encX g] from rfl]
    rw [List.filter_eq_self.mpr (fun e he => by
      obtain ⟨y, _, hy⟩ := List.mem_map.mp he
      rw [← hy]
      rfl)]
    rw [show ((g.rowvals.map (encDP g)).filter (fun x => x.tag == "property")) = []
      from by
      refine List.filter_eq_nil_iff.mpr (fun e he => ?_)
      obtain ⟨vs, _, hvs⟩ := List.mem_map.mp he
      rw [← hvs]
      show ¬(("dataPoint" == "property") = true)
      decide]
    rw [List.append_nil]
  have hfd : (Elem.node "dataGroup" [("id", g.id), ("label", g.label)]
      (some ("\n" ++ String.mk (List.replicate (4 * (1 + 1)) ' ')))
      (([encX g] ++ g.ys.map encY ++ g.rowvals.map (encDP g)).map
        (prettyKeep 2))).findall "dataPoint" =
      (g.rowvals.map (encDP g)).map (prettyKeep 2) := by
    show (([encX g] ++ g.ys.map encY ++ g.rowvals.map (encDP g)).map
      (prettyKeep 2)).filter (fun x => x.tag == "dataPoint") = _
    rw [filter_tag_map_pretty]
    rw [List.filter_append, List.filter_append]
    rw [show ([encX g].filter (fun x => x.tag == "dataPoint")) = [] from rfl]
    rw [show ((g.ys.map encY).filter (fun x => x.tag == "dataPoint")) = [] from by
      refine List.filter_eq_nil_iff.mpr (fun e he => ?_)
      obtain ⟨y, _, hy⟩ := List.mem_map.mp he
      rw [← hy]
      show ¬(("property" == "dataPoint") = true)
      decide]
    rw [List.filter_eq_self.mpr (fun e he => by
      obtain ⟨vs, _, hvs⟩ := List.mem_map.mp he
      rw [← hvs]
      rfl)]
    rfl
  have hinfos : (([encX g] ++ g.ys.map encY).map (prettyKeep 2)).map
      parsePropInfo = canonProps g := by
    rw [List.map_append, List.map_append, List.map_map, List.map_map,
      List.map_map]
    unfold canonProps
    rw [List.map_cons]
    rw [show (parsePropInfo ∘ prettyKeep 2) (encX g) = canonPropInfo g.x from by
      show parsePropInfo (prettyKeep 2 (encX g)) = _
      unfold encX
      exact parsePropInfo_none g.x hx]
    rw [show List.map ((parsePropInfo ∘ prettyKeep 2) ∘ encY) g.ys =
      List.map canonPropInfo g.ys from List.map_congr_left (fun y hy => by
      show parsePropInfo (prettyKeep 2 (encY y)) = canonPropInfo y
      unfold encY
      rcases hysp y hy with hnone | ⟨sp, si, hsp, hne, hreg⟩
      · rw [show ySpeciesKids ⟨y.id, y.name, some y.label, y.units, y.species⟩ =
          ([] : List Elem) from by
          unfold ySpeciesKids
          rw [show (⟨y.id, y.name, some y.label, y.units,
            y.species⟩ : YAxis).species = y.species from rfl, hnone]]
        exact parsePropInfo_none y hnone
      · exact parsePropInfo_species y sp si hsp hne hreg)]
    rfl
  have hst : dgPropState (([encX g] ++ g.ys.map encY).map (prettyKeep 2)) =
      ((canonProps g).map (fun i => (i.id, i)),
       (canonProps g).map PropInfo.id, canonProps g) := by
    unfold dgPropState
    rw [dgPropState_canon (([encX g] ++ g.ys.map encY).map (prettyKeep 2))
      [] [] [] (by rw [hinfos]; exact hid)
      (fun p _ kv hkv => absurd hkv (List.not_mem_nil kv))]
    rw [hinfos]
    simp
  have plook : ∀ p ∈ (g.x :: g.ys),
      ((canonProps g).map (fun i => (i.id, i))).lookup (some p.id) =
        some (canonPropInfo p) := by
    intro p hp
    have hmem : canonPropInfo p ∈ canonProps g := List.mem_map_of_mem canonPropInfo hp
    have := pm_lookup_canon (canonProps g) hid (canonPropInfo p) hmem
    rw [canonPropInfo_id] at this
    exact this
  have hcol2 : ((g.x :: g.ys).map
      (fun p => (canonPropInfo p).column_name)).Nodup := by
    have : (g.x :: g.ys).map (fun p => (canonPropInfo p).column_name) =
        (canonProps g).map PropInfo.column_name := by
      unfold canonProps
      rw [List.map_map]
      rfl
    rw [this]
    exact hcol
  have hpoint : ∀ vs ∈ g.rowvals,
      parsePoint ((canonProps g).map (fun i => (i.id, i)))
        (prettyKeep 2 (encDP g vs)) =
      keyedRow ((canonProps g).map PropInfo.column_name) (vs.map reVal) := by
    intro vs hvs
    have hlen := (hrows vs hvs).1
    have htext := (hrows vs hvs).2
    have hch : (match (keyedRow ((g.x :: g.ys).map CanonProp.name) vs).lookup
          g.x.name with
        | some v => [el g.x.id [] (some (pyStrVal v)) []]
        | none => []) ++
        (g.ys.map (fun y =>
          (⟨y.id, y.name, some y.label, y.units, y.species⟩ : YAxis))).filterMap
          (fun y => ((keyedRow ((g.x :: g.ys).map CanonProp.name) vs).lookup
            y.name).map (fun v => el y.id [] (some (pyStrVal v)) [])) =
        List.zipWith (fun (p : CanonProp) (v : PyVal) =>
          Elem.node p.id [] (some (pyStrVal v)) []) (g.x :: g.ys) vs :=
      dpChildren_canon g.x g.ys vs hlen hnm
    have hchne : List.zipWith (fun (p : CanonProp) (v : PyVal) =>
        Elem.node p.id [] (some (pyStrVal v)) []) (g.x :: g.ys) vs ≠ [] := by
      cases vs with
      | nil => cases hlen
      | cons v vrest => simp
    have hdp : prettyKeep 2 (encDP g vs) = Elem.node "dataPoint" []
        (some ("\n" ++ String.mk (List.replicate (4 * (2 + 1)) ' ')))
        (List.zipWith (fun (p : CanonProp) (v : PyVal) =>
          Elem.node p.id [] (some (pyStrVal v)) []) (g.x :: g.ys) vs) := by
      unfold encDP
      rw [show el "dataPoint" [] none
        ((match (keyedRow ((g.x :: g.ys).map CanonProp.name) vs).lookup
            g.x.name with
          | some v => [el g.x.id [] (some (pyStrVal v)) []]
          | none => []) ++
         (g.ys.map (fun y =>
           (⟨y.id, y.name, some y.label, y.units, y.species⟩ : YAxis))).filterMap
           (fun y => ((keyedRow ((g.x :: g.ys).map CanonProp.name) vs).lookup
             y.name).map (fun v => el y.id [] (some (pyStrVal v)) []))) =
        Elem.node "dataPoint" [] none
        (List.zipWith (fun (p : CanonProp) (v : PyVal) =>
          Elem.node p.id [] (some (pyStrVal v)) []) (g.x :: g.ys) vs) from by
        rw [show el "dataPoint" [] none
          ((match (keyedRow ((g.x :: g.ys).map CanonProp.name) vs).lookup
              g.x.name with
            | some v => [el g.x.id [] (some (pyStrVal v)) []]
            | none => []) ++
           (g.ys.map (fun y =>
             (⟨y.id, y.name, some y.label, y.units, y.species⟩ : YAxis))).filterMap
             (fun y => ((keyedRow ((g.x :: g.ys).map CanonProp.name) vs).lookup
               y.name).map (fun v => el y.id [] (some (pyStrVal v)) []))) =
          Elem.node "dataPoint" [] none
          ((match (keyedRow ((g.x :: g.ys).map CanonProp.name) vs).lookup
              g.x.name with
            | some v => [el g.x.id [] (some (pyStrVal v)) []]
            | none => []) ++
           (g.ys.map (fun y =>
             (⟨y.id, y.name, some y.label, y.units, y.species⟩ : YAxis))).filterMap
             (fun y => ((keyedRow ((g.x :: g.ys).map CanonProp.name) vs).lookup
               y.name).map (fun v => el y.id [] (some (pyStrVal v)) []))) from rfl]
        rw [hch]]
      rw [pretty_nonempty _ _ _ _ _ hchne]
      rw [map_zipWith_elem]
      congr 1
      refine zipWith_congr_mem _ _ (g.x :: g.ys) vs (fun p hp v hv => ?_)
      exact pretty_leaf 3 _ _ _ (htext v hv)
    rw [hdp]
    show (List.zipWith (fun (p : CanonProp) (v : PyVal) =>
      Elem.node p.id [] (some (pyStrVal v)) []) (g.x :: g.ys) vs).foldl
      (fun pd child =>
        match ((canonProps g).map (fun i => (i.id, i))).lookup (some child.tag) with
        | some info => dictSet pd info.column_name (coerceText child.text)
        | none => pd) [] = _
    rw [ppFold (g.x :: g.ys) vs ((canonProps g).map (fun i => (i.id, i))) []
      plook hcol2 (fun p _ kv hkv => absurd hkv (List.not_mem_nil kv))]
    rw [show (g.x :: g.ys).map (fun p => (canonPropInfo p).column_name) =
      (canonProps g).map PropInfo.column_name from by
      unfold canonProps
      rw [List.map_map]
      rfl]
    rfl
  have hrowsall : dgRows ((canonProps g).map (fun i => (i.id, i)))
      ((g.rowvals.map (encDP g)).map (prettyKeep 2)) =
      g.rowvals.map (fun vs => keyedRow ((canonProps g).map PropInfo.column_name)
        (vs.map reVal)) := by
    have hne2 : ∀ dp ∈ (g.rowvals.map (encDP g)).map (prettyKeep 2),
        parsePoint ((canonProps g).map (fun i => (i.id, i))) dp ≠ [] := by
      intro dp hdp
      rw [List.map_map] at hdp
      obtain ⟨vs, hvs, hdpe⟩ := List.mem_map.mp hdp
      rw [← hdpe]
      show parsePoint _ (prettyKeep 2 (encDP g vs)) ≠ []
      rw [hpoint vs hvs]
      have hlen := (hrows vs hvs).1
      cases hvz : vs with
      | nil => rw [hvz] at hlen; cases hlen
      | cons v vrest =>
          rw [show (canonProps g).map PropInfo.column_name =
            (canonPropInfo g.x).column_name ::
            (g.ys.map canonPropInfo).map PropInfo.column_name from by
            unfold canonProps
            rw [List.map_cons, List.map_cons]]
          simp [keyedRow]
    unfold dgRows
    rw [dgRows_map_all _ _ [] hne2]
    rw [List.map_map, List.map_map]
    rw [List.nil_append]
    exact List.map_congr_left (fun vs hvs => by
      show parsePoint _ (prettyKeep 2 (encDP g vs)) = _
      exact hpoint vs hvs)
  rw [hpre]
  simp only [parseDatagroup]
  rw [hfa, hfd]
  rw [hst]
  simp only []
  rw [hrowsall]
  have hdf : dfColumns (g.rowvals.map (fun vs =>
      keyedRow ((canonProps g).map PropInfo.column_name) (vs.map reVal))) =
      if (g.rowvals.map (fun vs =>
        keyedRow ((canonProps g).map PropInfo.column_name)
          (vs.map reVal))).isEmpty
      then [] else (canonProps g).map PropInfo.column_name := by
    refine dfColumns_full _ hcol _ (fun r hr => ?_)
    obtain ⟨vs, hvs, hre⟩ := List.mem_map.mp hr
    rw [← hre]
    refine keyedRow_keys _ _ ?_
    rw [List.length_map, List.length_map, (hrows vs hvs).1]
    unfold canonProps
    rw [List.length_map]
  have hcanon : canonDgData (reValDG g) =
      { id := g.id, label := g.label, properties := canonProps g,
        property_map := (canonProps g).map (fun i => (i.id, i)),
        datapoints := g.rowvals.map (fun vs =>
          keyedRow ((canonProps g).map PropInfo.column_name) (vs.map reVal)),
        data_df := if (g.rowvals.map (fun vs =>
            keyedRow ((canonProps g).map PropInfo.column_name)
              (vs.map reVal))).isEmpty then none
          else some ⟨(canonProps g).map PropInfo.column_name,
            g.rowvals.map (fun vs =>
              keyedRow ((canonProps g).map PropInfo.column_name)
                (vs.map reVal))⟩,
        statistics := if (g.rowvals.map (fun vs =>
            keyedRow ((canonProps g).map PropInfo.column_name)
              (vs.map reVal))).isEmpty then none
          else some ⟨(g.rowvals.map (fun vs =>
              keyedRow ((canonProps g).map PropInfo.column_name)
                (vs.map reVal))).length,
            (canonProps g).map PropInfo.column_name,
            ((g.rowvals.map (fun vs =>
              keyedRow ((canonProps g).map PropInfo.column_name)
                (vs.map reVal))).length,
             ((canonProps g).map PropInfo.column_name).length)⟩ } := by
    simp only [canonDgData]
    rw [show canonProps (reValDG g) = canonProps g from rfl]
    rw [show (reValDG g).rowvals = g.rowvals.map (List.map reVal) from rfl]
    rw [List.map_map]
    rfl
  rw [hcanon]
  by_cases hemp : (g.rowvals.map (fun vs =>
      keyedRow ((canonProps g).map PropInfo.column_name)
        (vs.map reVal))).isEmpty = true
  · rw [if_pos hemp, if_pos hemp, if_pos hemp]
    rfl
  · rw [if_neg hemp, if_neg hemp, if_neg hemp]
    have hdf2 : dfColumns (g.rowvals.map (fun vs =>
        keyedRow ((canonProps g).map PropInfo.column_name) (vs.map reVal))) =
        (canonProps g).map PropInfo.column_name := by
      rw [hdf, if_neg hemp]
    rw [hdf2]
    have hdisp : ((canonProps g).map PropInfo.column_name).filter
        (fun c => !startsWithUnderscore c) =
        (canonProps g).map PropInfo.column_name :=
      List.filter_eq_self.mpr (fun c hc => by
        obtain ⟨p, hp, hpc⟩ := List.mem_map.mp hc
        rw [← hpc, hus p hp]
        rfl)
    rw [hdisp]
    have hord1 : dgOrdered1 ((canonProps g).map (fun i => (i.id, i)))
        ((canonProps g).map PropInfo.id)
        ((canonProps g).map PropInfo.column_name) =
        (canonProps g).map PropInfo.column_name := by
      unfold dgOrdered1
      rw [dgOrdered1_canon _ (canonProps g) _ []
        (fun i hi => pm_lookup_canon (canonProps g) hid i hi)
        (fun i hi => List.mem_map_of_mem _ hi)]
      rfl
    rw [hord1]
    have hord2 : dgOrdered2 ((canonProps g).map PropInfo.column_name)
        ((canonProps g).map PropInfo.column_name) =
        (canonProps g).map PropInfo.column_name := by
      unfold dgOrdered2
      exact foldl_addNew_subset _ _ (fun x hx => hx)
    rw [hord2]
    rw [ite_self]
    rfl

theorem tagFreeList_of_all (t : String) :
    ∀ (l : List Elem), (∀ e ∈ l, tagFree t e = true) → tagFreeList t l = true := by
  intro l
  induction l with
  | nil => intro _; rfl
  | cons c cs ih =>
      intro h
      rw [tagFreeList, h c (List.mem_cons_self _ _),
        ih (fun y hy => h y (List.mem_cons_of_mem _ hy))]
      rfl

theorem tagFree_bibElem (ref : Reference) :
    tagFree "dataGroup" (bibElem ref) = true := by
  unfold bibElem el
  rw [tagFree]
  rw [tagFreeList_of_all "dataGroup" _ (fun e he => by
    rcases List.mem_append.mp he with h1 | h1
    · rw [List.mem_singleton.mp h1]
      rw [tagFree]
      rw [tagFreeList_of_all "dataGroup" _ (fun d hd => by
        rcases List.mem_append.mp hd with h2 | h2
        · rcases List.mem_append.mp h2 with h3 | h3
          · rcases List.mem_cons.mp h3 with h4 | h4
            · rw [h4]
              rfl
            · rw [List.mem_singleton.mp h4]
              rfl
          · split at h3
            · rw [List.mem_singleton.mp h3]
              rfl
            · cases h3
        · split at h2
          · rw [List.mem_singleton.mp h2]
            rfl
          · cases h2)]
      rfl
    · split at h1
      · rw [List.mem_singleton.mp h1]
        rfl
      · cases h1)]
  rfl

theorem tagFree_ySpeciesKids (ya : YAxis) :
    tagFreeList "dataGroup" (ySpeciesKids ya) = true := by
  refine tagFreeList_of_all _ _ (fun e he => ?_)
  unfold ySpeciesKids at he
  cases hs : ya.species with
  | none =>
      rw [hs] at he
      cases he
  | some sp =>
      simp only [hs] at he
      by_cases hsp : sp ≠ ""
      · rw [if_pos hsp] at he
        cases hl : COMMON_SPECIES.lookup sp with
        | none =>
            rw [hl] at he
            cases he
        | some i =>
            rw [hl] at he
            rw [List.mem_singleton.mp he]
            rfl
      · rw [if_neg hsp] at he
        cases he

theorem tagFree_encY (y : CanonProp) : tagFree "dataGroup" (encY y) = true := by
  unfold encY el
  rw [tagFree]
  rw [tagFree_ySpeciesKids]
  rfl

theorem tagFree_encDP (g : CanonDG) (vs : List PyVal)
    (hids : ∀ p ∈ (g.x :: g.ys), p.id ≠ "dataGroup") :
    tagFree "dataGroup" (encDP g vs) = true := by
  unfold encDP el
  rw [tagFree]
  rw [tagFreeList_of_all "dataGroup" _ (fun e he => by
    rcases List.mem_append.mp he with h1 | h1
    · rcases hm : (keyedRow ((g.x :: g.ys).map CanonProp.name) vs).lookup g.x.name
        with _ | v
      · rw [hm] at h1
        cases h1
      · rw [hm] at h1
        rw [List.mem_singleton.mp h1]
        show ((g.x.id != "dataGroup") && _) = true
        rw [bne_iff_ne.mpr (hids g.x (List.mem_cons_self _ _))]
        rfl
    · obtain ⟨ya, hya, hyae⟩ := List.mem_filterMap.mp h1
      obtain ⟨v, _, hv2⟩ := Option.map_eq_some'.mp hyae
      obtain ⟨y, hy, hye⟩ := List.mem_map.mp hya
      rw [← hv2]
      show ((ya.id != "dataGroup") && _) = true
      rw [show ya.id = y.id from by rw [← hye]]
      rw [bne_iff_ne.mpr (hids y (List.mem_cons_of_mem _ hy))]
      rfl)]
  rfl

theorem tagFree_encCP (cc : CanonCP) :
    tagFree "dataGroup" (el "commonProperties" [] none (encCPKids cc)) = true := by
  show tagFree "dataGroup" (.node "commonProperties" [] none (encCPKids cc)) = true
  rw [tagFree]
  rw [tagFreeList_of_all "dataGroup" _ (fun e he => by
    unfold encCPKids at he
    rcases List.mem_append.mp he with h1 | h1
    · rcases List.mem_append.mp h1 with h2 | h2
      · rcases List.mem_append.mp h2 with h3 | h3
        · rcases List.mem_cons.mp h3 with h4 | h4
          · rw [h4]
            rfl
          · rw [List.mem_singleton.mp h4]
            rfl
        · obtain ⟨kv, _, hkv⟩ := List.mem_map.mp h3
          rw [← hkv]
          rfl
      · obtain ⟨kv, _, hkv⟩ := List.mem_map.mp h2
        rw [← hkv]
        rfl
    · rw [List.mem_singleton.mp h1]
      show tagFree "dataGroup" (.node "property"
        [("name", "initial composition"), ("sourcetype", "reported")] none
        (cc.comp.map (fun kv => encComp kv.1 kv.2.units (pyStr kv.2.amount)))) = true
      rw [tagFree]
      rw [tagFreeList_of_all "dataGroup" _ (fun d hd => by
        obtain ⟨kv, _, hkv⟩ := List.mem_map.mp hd
        rw [← hkv]
        rfl)]
      rfl)]
  rfl

theorem parse_datagroups_canon (c : CanonRecord)
    (hn1 : ∀ kv ∈ c.cp.nums, 0 < kv.2.num ∧ ('_' : Char) ∉ kv.1.data)
    (hs1 : ∀ kv ∈ c.cp.strs,
      ('_' : Char) ∉ kv.1.data ∧ replaceChar ' ' '_' kv.1 ∈ OPTIONAL_WHITELIST)
    (hcne : c.cp.comp ≠ [])
    (hdg : ∀ g ∈ c.dgs,
      ((canonProps g).map PropInfo.id).Nodup ∧
      ((canonProps g).map PropInfo.column_name).Nodup ∧
      ((g.x :: g.ys).map CanonProp.name).Nodup ∧
      g.x.species = none ∧
      (∀ y ∈ g.ys, y.species = none ∨
        ∃ sp i, y.species = some sp ∧ sp ≠ "" ∧
          COMMON_SPECIES.lookup sp = some i) ∧
      (∀ row ∈ g.rowvals,
        row.length = (g.x :: g.ys).length ∧ ∀ v ∈ row, pyStrVal v ≠ "") ∧
      (∀ p ∈ canonProps g, startsWithUnderscore p.column_name = false) ∧
      (∀ p ∈ (g.x :: g.ys), p.id ≠ "dataGroup")) :
    parse_datagroups (prettyKeep 0 (create_enhanced_xml (draftOfCanon c))) =
      c.dgs.map (fun g => canonDgData (reValDG g)) := by
  have hsegnone : ∀ (l : List Elem), (∀ x ∈ l, tagFree "dataGroup" x = true) →
      (descendantsList (l.map (prettyKeep 1))).filter
        (fun e => e.tag == "dataGroup") = [] := by
    intro l hl
    refine filter_desc_tagFree "dataGroup" (sizeOf (l.map (prettyKeep 1)))
      _ le_rfl ?_
    exact tagFreeList_map _ _ l (fun x hx =>
      tagFree_pretty "dataGroup" (sizeOf x) x le_rfl 1 (hl x hx))
  unfold parse_datagroups
  rw [pretty_root_canon c hn1 hs1 hcne]
  rw [show (Elem.node "experiment" []
      (some ("\n" ++ String.mk (List.replicate 4 ' ')))
      ((encRootKids c).map (prettyKeep 1))).children =
      (encRootKids c).map (prettyKeep 1) from rfl]
  unfold encRootKids
  rw [List.map_append, List.map_append, List.map_append, List.map_append,
    List.map_append]
  rw [descList_append, descList_append, descList_append, descList_append,
    descList_append]
  rw [List.filter_append, List.filter_append, List.filter_append,
    List.filter_append, List.filter_append]
  rw [hsegnone [el "fileAuthor" [] (some c.metadata.author) []]
    (fun x hx => by
      rw [List.mem_singleton.mp hx]
      rfl)]
  rw [hsegnone (if optTruthy (some c.metadata.doi) then
      [el "fileDOI" [] (some c.metadata.doi) []] else [])
    (fun x hx => by
      split at hx
      · rw [List.mem_singleton.mp hx]
        rfl
      · cases hx)]
  rw [hsegnone [el "fileVersion" [] none
      [el "major" [] (some "1") [], el "minor" [] (some "0") []],
      el "experimentType" [] (some c.experiment_type) [],
      el "apparatus" [] none
        [el "kind" [] (some ((c.apparatus.map Apparatus.kind).getD "")) []]]
    (fun x hx => by
      rcases List.mem_cons.mp hx with h1 | h1
      · rw [h1]
        rfl
      · rcases List.mem_cons.mp h1 with h2 | h2
        · rw [h2]
          rfl
        · rw [List.mem_singleton.mp h2]
          rfl)]
  rw [hsegnone (if optTruthy (draftOfCanon c).basic_info.reference.author
      && optTruthy (draftOfCanon c).basic_info.reference.title then
      [bibElem (draftOfCanon c).basic_info.reference] else [])
    (fun x hx => by
      split at hx
      · rw [List.mem_singleton.mp hx]
        exact tagFree_bibElem _
      · cases hx)]
  rw [hsegnone [el "commonProperties" [] none (encCPKids c.cp)]
    (fun x hx => by
      rw [List.mem_singleton.mp hx]
      exact tagFree_encCP c.cp)]
  rw [filter_desc_top "dataGroup"
    ((c.dgs.map (fun g => dgElem (draftDGOfCanon g))).map (prettyKeep 1))
    (fun e he => by
      rw [List.map_map] at he
      obtain ⟨g, hg, hge⟩ := List.mem_map.mp he
      rw [← hge]
      constructor
      · show (prettyKeep 1 (dgElem (draftDGOfCanon g))).tag = "dataGroup"
        rw [pretty_tag]
        rw [dgElem_draft_canon g]
        rfl
      · show tagFreeList "dataGroup"
          (prettyKeep 1 (dgElem (draftDGOfCanon g))).children = true
        rw [dgElem_draft_canon g]
        rw [show el "dataGroup" [("id", g.id), ("label", g.label)] none
          ([encX g] ++ g.ys.map encY ++ g.rowvals.map (encDP g)) =
          Elem.node "dataGroup" [("id", g.id), ("label", g.label)] none
          ([encX g] ++ g.ys.map encY ++ g.rowvals.map (encDP g)) from rfl]
        rw [pretty_nonempty _ _ _ _ _ (by simp)]
        rw [show (Elem.node "dataGroup" [("id", g.id), ("label", g.label)]
          (some ("\n" ++ String.mk (List.replicate (4 * (1 + 1)) ' ')))
          (([encX g] ++ g.ys.map encY ++ g.rowvals.map (encDP g)).map
            (prettyKeep 2))).children =
          ([encX g] ++ g.ys.map encY ++ g.rowvals.map (encDP g)).map
            (prettyKeep 2) from rfl]
        refine tagFreeList_map _ _ _ (fun x hx =>
          tagFree_pretty "dataGroup" (sizeOf x) x le_rfl 2 ?_)
        rcases List.mem_append.mp hx with h1 | h1
        · rcases List.mem_append.mp h1 with h2 | h2
          · rw [List.mem_singleton.mp h2]
            rfl
          · obtain ⟨y, _, hy⟩ := List.mem_map.mp h2
            rw [← hy]
            exact tagFree_encY y
        · obtain ⟨vs, _, hvs⟩ := List.mem_map.mp h1
          rw [← hvs]
          exact tagFree_encDP g vs (hdg g hg).2.2.2.2.2.2.2)]
  show ([] ++ ([] ++ ([] ++ ([] ++ ([] ++ _))))).map parseDatagroup = _
  rw [List.nil_append, List.nil_append, List.nil_append, List.nil_append,
    List.nil_append]
  rw [List.map_map, List.map_map]
  refine List.map_congr_left (fun g hg => ?_)
  show parseDatagroup (prettyKeep 1 (dgElem (draftDGOfCanon g))) =
    canonDgData (reValDG g)
  obtain ⟨h1, h2, h3, h4, h5, h6, h7, h8⟩ := hdg g hg
  exact parseDatagroup_canon g h1 h2 h3 h4 h5 h6 h7


/-- `splitNL` of a newline-free character list is a single fragment. -/
theorem splitNL_no_nl (l : List Char) (h : ∀ c ∈ l, ¬ c = '\n') :
    splitNL l = [l] := by
  induction l with
  | nil => rfl
  | cons c rest ih =>
      rw [splitNL, if_neg (h c (List.mem_cons_self _ _)),
        ih (fun x hx => h x (List.mem_cons_of_mem _ hx))]

/-- End-of-line normalization of a carriage-return-free list is the
identity. -/
theorem normEOLChars_id (l : List Char) (h : ∀ c ∈ l, ¬ c = '\r') :
    normEOLChars l = l := by
  induction l with
  | nil => rfl
  | cons c rest ih =>
      have hc : ¬ c = '\r' := h c (List.mem_cons_self _ _)
      cases rest with
      | nil =>
          show [if c = '\r' then '\n' else c] = [c]
          rw [if_neg hc]
      | cons d rest2 =>
          rw [normEOLChars, if_neg hc,
            ih (fun x hx => h x (List.mem_cons_of_mem _ hx))]

/-- The text pipeline returns a clean string unchanged. -/
theorem textPipe_of_ok (s : String) (h : textOk s = true) : textPipe s = s := by
  have hh := List.all_eq_true.mp h
  have hnr : ∀ c ∈ s.data, ¬ c = '\r' := by
    intro c hc heq
    have h2 := hh c hc
    rw [heq] at h2
    exact absurd h2 (by decide)
  have hnn : ∀ c ∈ s.data, ¬ c = '\n' := by
    intro c hc heq
    have h2 := hh c hc
    rw [heq] at h2
    exact absurd h2 (by decide)
  unfold textPipe interiorStrip
  rw [normEOLChars_id s.data hnr]
  show String.mk (joinNL (dropInterior (splitNL s.data))) = s
  rw [splitNL_no_nl s.data hnn]
  rfl

/-- The attribute pipeline returns a clean string unchanged. -/
theorem attrPipe_of_ok (s : String) (h : attrOk s = true) : attrPipe s = s := by
  have hh := List.all_eq_true.mp h
  have hnr : ∀ c ∈ s.data, ¬ c = '\r' := by
    intro c hc heq
    have h2 := hh c hc
    rw [heq] at h2
    exact absurd h2 (by decide)
  have hnn : ∀ c ∈ s.data, ¬ c = '\n' := by
    intro c hc heq
    have h2 := hh c hc
    rw [heq] at h2
    exact absurd h2 (by decide)
  have hnt : ∀ c ∈ s.data, ¬ c = '\t' := by
    intro c hc heq
    have h2 := hh c hc
    rw [heq] at h2
    exact absurd h2 (by decide)
  unfold attrPipe interiorStrip
  rw [splitNL_no_nl s.data hnn]
  show String.mk ((normEOLChars s.data).map
    (fun c => if c = '\n' ∨ c = '\t' then ' ' else c)) = s
  rw [normEOLChars_id s.data hnr]
  have hmap : s.data.map (fun c => if c = '\n' ∨ c = '\t' then ' ' else c)
      = s.data := by
    have h3 := List.map_congr_left (l := s.data)
      (f := fun c => if c = '\n' ∨ c = '\t' then ' ' else c) (g := id)
      (fun x hx => by
        show (if x = '\n' ∨ x = '\t' then ' ' else x) = id x
        have hcond : ¬ (x = '\n' ∨ x = '\t') := by
          rintro (h1 | h1)
          · exact hnn x hx h1
          · exact hnt x hx h1
        rw [if_neg hcond]
        rfl)
    rw [h3, List.map_id]
  rw [hmap]

/-- Mapping the attribute pipeline over clean attributes is the identity. -/
theorem attrsMap_of_ok (a : List (String × String))
    (h : a.all (fun kv => attrOk kv.2) = true) :
    a.map (fun kv => (kv.1, attrPipe kv.2)) = a := by
  induction a with
  | nil => rfl
  | cons kv rest ih =>
      rw [List.all_cons, Bool.and_eq_true] at h
      rw [List.map_cons, attrPipe_of_ok _ h.1, ih h.2]

/-- `prettyReparseList` is the map of `prettyReparse`. -/
theorem prettyReparseList_map (lvl : ℕ) :
    ∀ (l : List Elem), prettyReparseList lvl l = l.map (prettyReparse lvl) := by
  intro l
  induction l with
  | nil => rfl
  | cons c cs ih => rw [prettyReparseList, ih, List.map_cons]

/-- The attribute part of a clean node. -/
theorem elemClean_attrs (t : String) (a : List (String × String))
    (tx : Option String) (cs : List Elem)
    (h : elemClean (.node t a tx cs) = true) :
    a.all (fun kv => attrOk kv.2) = true := by
  cases tx with
  | none =>
      have h2 : (a.all (fun kv => attrOk kv.2) && true && elemsClean cs)
          = true := h
      exact Bool.and_elim_left (Bool.and_elim_left h2)
  | some s =>
      have h2 : (a.all (fun kv => attrOk kv.2) && textOk s && elemsClean cs)
          = true := h
      exact Bool.and_elim_left (Bool.and_elim_left h2)

/-- The children part of a clean node. -/
theorem elemClean_kids (t : String) (a : List (String × String))
    (tx : Option String) (cs : List Elem)
    (h : elemClean (.node t a tx cs) = true) : elemsClean cs = true := by
  cases tx with
  | none =>
      have h2 : (a.all (fun kv => attrOk kv.2) && true && elemsClean cs)
          = true := h
      exact Bool.and_elim_right h2
  | some s =>
      have h2 : (a.all (fun kv => attrOk kv.2) && textOk s && elemsClean cs)
          = true := h
      exact Bool.and_elim_right h2

/-- The text part of a clean node with text. -/
theorem elemClean_text (t : String) (a : List (String × String))
    (s : String) (cs : List Elem)
    (h : elemClean (.node t a (some s) cs) = true) : textOk s = true := by
  have h2 : (a.all (fun kv => attrOk kv.2) && textOk s && elemsClean cs)
      = true := h
  exact Bool.and_elim_right (Bool.and_elim_left h2)

/-- On whitespace-clean trees the faithful pipeline model agrees with the
verbatim variant. -/
theorem pretty_eq_keep :
    ∀ (n : ℕ) (e : Elem), sizeOf e ≤ n → elemClean e = true → ∀ (lvl : ℕ),
      prettyReparse lvl e = prettyKeep lvl e := by
  intro n
  induction n with
  | zero =>
      intro e he
      cases e with
      | node tg a tx cs => simp [Elem.node.sizeOf_spec] at he
  | succ n ih =>
      intro e he hcl lvl
      have hlist : ∀ (l : List Elem), (∀ x ∈ l, sizeOf x ≤ n) →
          elemsClean l = true → ∀ (L : ℕ),
          l.map (prettyReparse L) = l.map (prettyKeep L) := by
        intro l
        induction l with
        | nil => intro _ _ _; rfl
        | cons x xs ihl =>
            intro hsz hl L
            rw [elemsClean] at hl
            rw [List.map_cons, List.map_cons,
              ih x (hsz x (List.mem_cons_self _ _)) (Bool.and_elim_left hl) L,
              ihl (fun y hy => hsz y (List.mem_cons_of_mem _ hy))
                (Bool.and_elim_right hl) L]
      cases e with
      | node tg a tx cs =>
          have ha := elemClean_attrs tg a tx cs hcl
          cases cs with
          | nil =>
              cases tx with
              | none =>
                  show Elem.node tg
                      (a.map (fun kv => (kv.1, attrPipe kv.2))) none [] =
                    Elem.node tg a none []
                  rw [attrsMap_of_ok a ha]
              | some s =>
                  have hs := elemClean_text tg a s [] hcl
                  show Elem.node tg
                      (a.map (fun kv => (kv.1, attrPipe kv.2)))
                      (if s = "" then none else some (textPipe s)) [] =
                    Elem.node tg a (if s = "" then none else some s) []
                  rw [attrsMap_of_ok a ha]
                  by_cases hse : s = ""
                  · rw [hse]
                    rfl
                  · rw [if_neg hse, if_neg hse, textPipe_of_ok s hs]
          | cons c cs2 =>
              show Elem.node tg (a.map (fun kv => (kv.1, attrPipe kv.2)))
                  (some ("\n" ++ String.mk (List.replicate (4 * (lvl + 1)) ' ')))
                  (prettyReparseList (lvl + 1) (c :: cs2)) =
                Elem.node tg a
                  (some ("\n" ++ String.mk (List.replicate (4 * (lvl + 1)) ' ')))
                  (prettyKeepList (lvl + 1) (c :: cs2))
              rw [attrsMap_of_ok a ha, prettyReparseList_map,
                prettyKeepList_eq_map]
              have hsz : ∀ x ∈ c :: cs2, sizeOf x ≤ n := by
                intro x hx
                have h1 := List.sizeOf_lt_of_mem hx
                have h2 := sizeOf_children_lt tg a tx (c :: cs2)
                omega
              rw [hlist (c :: cs2) hsz
                (elemClean_kids tg a tx (c :: cs2) hcl) (lvl + 1)]

/-- `elemsClean` holds when each member is clean. -/
theorem elemsClean_of_all : ∀ (l : List Elem), (∀ x ∈ l, elemClean x = true) →
    elemsClean l = true := by
  intro l
  induction l with
  | nil => intro _; rfl
  | cons c cs ih =>
      intro h
      rw [elemsClean, h c (List.mem_cons_self _ _),
        ih (fun y hy => h y (List.mem_cons_of_mem _ hy))]
      rfl

/-- A node with clean attributes, no text and clean children is clean. -/
theorem elemClean_node_none (t : String) (a : List (String × String))
    (cs : List Elem)
    (h1 : a.all (fun kv => attrOk kv.2) = true)
    (h3 : elemsClean cs = true) :
    elemClean (.node t a none cs) = true := by
  show (a.all (fun kv => attrOk kv.2) && true && elemsClean cs) = true
  rw [h1, h3]
  rfl

/-- A node with clean attributes, clean text and clean children is clean. -/
theorem elemClean_node_some (t : String) (a : List (String × String))
    (s : String) (cs : List Elem)
    (h1 : a.all (fun kv => attrOk kv.2) = true)
    (h2 : textOk s = true)
    (h3 : elemsClean cs = true) :
    elemClean (.node t a (some s) cs) = true := by
  show (a.all (fun kv => attrOk kv.2) && textOk s && elemsClean cs) = true
  rw [h1, h2, h3]
  rfl

/-- Cons step for the attribute cleanliness conjunction. -/
theorem attrsOk_cons (p : String × String) (rest : List (String × String))
    (h1 : attrOk p.2 = true) (h2 : rest.all (fun kv => attrOk kv.2) = true) :
    ((p :: rest).all (fun kv => attrOk kv.2)) = true := by
  rw [List.all_cons, h1, h2]
  rfl

/-- A successful `lookup` exhibits a member of the association list. -/
theorem lookup_mem {β : Type} :
    ∀ (l : List (String × β)) (k : String) (v : β),
      l.lookup k = some v → (k, v) ∈ l := by
  intro l
  induction l with
  | nil => intro k v h; exact Option.noConfusion h
  | cons kv rest ih =>
      intro k v h
      obtain ⟨a, b⟩ := kv
      have h2 : (match k == a with
          | true => some b
          | false => List.lookup k rest) = some v := h
      cases hk : k == a with
      | true =>
          rw [hk] at h2
          have h3 : some b = some v := h2
          cases h3
          have h4 : k = a := eq_of_beq hk
          rw [h4]
          exact List.mem_cons_self _ _
      | false =>
          rw [hk] at h2
          have h3 : List.lookup k rest = some v := h2
          exact List.mem_cons_of_mem _ (ih k v h3)

/-- Every species registry entry carries clean attribute strings. -/
theorem attrOk_species : ∀ kv ∈ COMMON_SPECIES, attrOk kv.1 = true ∧
    attrOk kv.2.CAS = true ∧ attrOk kv.2.chemName = true ∧
    attrOk kv.2.InChI = true ∧ attrOk kv.2.SMILES = true := by decide

/-- The `speciesLink` element written for a registered species is clean. -/
theorem elemClean_speciesLink (sp : String) (ids : SpeciesIds)
    (h : COMMON_SPECIES.lookup sp = some ids) :
    elemClean (el "speciesLink"
      [("preferredKey", sp), ("CAS", ids.CAS), ("chemName", ids.chemName),
       ("InChI", ids.InChI), ("SMILES", ids.SMILES)] none []) = true := by
  obtain ⟨h1, h2, h3, h4, h5⟩ := attrOk_species (sp, ids) (lookup_mem _ _ _ h)
  exact elemClean_node_none _ _ _
    (attrsOk_cons _ _ h1 (attrsOk_cons _ _ h2 (attrsOk_cons _ _ h3
      (attrsOk_cons _ _ h4 (attrsOk_cons _ _ h5 rfl))))) rfl

/-- The species-link children of an encoded Y property are always clean:
they are only written for registered species. -/
theorem elemClean_ySpeciesKids (y : YAxis) :
    ∀ x ∈ ySpeciesKids y, elemClean x = true := by
  intro x hx
  rw [ySpeciesKids] at hx
  cases hsp : y.species with
  | none =>
      rw [hsp] at hx
      exact absurd (show x ∈ ([] : List Elem) from hx) (List.not_mem_nil x)
  | some sp =>
      rw [hsp] at hx
      have hx2 : x ∈ (if sp ≠ "" then
          (match COMMON_SPECIES.lookup sp with
           | some ids =>
               [el "speciesLink"
                  [("preferredKey", sp), ("CAS", ids.CAS),
                   ("chemName", ids.chemName), ("InChI", ids.InChI),
                   ("SMILES", ids.SMILES)]
                  none []]
           | none => []) else []) := hx
      by_cases hne : sp ≠ ""
      · rw [if_pos hne] at hx2
        cases hlk : COMMON_SPECIES.lookup sp with
        | none =>
            rw [hlk] at hx2
            exact absurd (show x ∈ ([] : List Elem) from hx2)
              (List.not_mem_nil x)
        | some ids =>
            rw [hlk] at hx2
            have hx3 : x ∈ [el "speciesLink"
                [("preferredKey", sp), ("CAS", ids.CAS),
                 ("chemName", ids.chemName), ("InChI", ids.InChI),
                 ("SMILES", ids.SMILES)] none []] := hx2
            rw [List.mem_singleton.mp hx3]
            exact elemClean_speciesLink sp ids hlk
      · rw [if_neg hne] at hx2
        exact absurd (show x ∈ ([] : List Elem) from hx2) (List.not_mem_nil x)

/-- A `value` child with clean text is clean. -/
theorem elemClean_value (s : String) (h : textOk s = true) :
    elemClean (el "value" [] (some s) []) = true :=
  elemClean_node_some _ _ _ _ rfl h rfl

/-- An encoded temperature/pressure property with clean strings is clean. -/
theorem elemClean_encTP (nm lb un s : String) (h1 : attrOk nm = true)
    (h2 : attrOk lb = true) (h3 : attrOk un = true) (h4 : textOk s = true) :
    elemClean (encTP nm lb un s) = true := by
  refine elemClean_node_none _ _ _
    (attrsOk_cons _ _ h1 (attrsOk_cons _ _ h2 (attrsOk_cons _ _ h3
      (attrsOk_cons _ _ (by decide) rfl))))
    (elemsClean_of_all _ (fun x hx => ?_))
  rw [List.mem_singleton.mp hx]
  exact elemClean_value s h4

/-- An encoded parameter property with clean strings is clean. -/
theorem elemClean_encParam (nm s : String) (h1 : attrOk nm = true)
    (h4 : textOk s = true) : elemClean (encParam nm s) = true := by
  refine elemClean_node_none _ _ _
    (attrsOk_cons _ _ h1 (attrsOk_cons _ _ (by decide) rfl))
    (elemsClean_of_all _ (fun x hx => ?_))
  rw [List.mem_singleton.mp hx]
  exact elemClean_value s h4

/-- An encoded composition component with clean strings is clean. -/
theorem elemClean_encComp (sp un s : String) (h1 : attrOk sp = true)
    (h2 : attrOk un = true) (h3 : textOk s = true) :
    elemClean (encComp sp un s) = true := by
  refine elemClean_node_none _ _ _ rfl
    (elemsClean_of_all _ (fun x hx => ?_))
  rcases List.mem_cons.mp hx with rfl | hx
  · exact elemClean_node_none _ _ _ (attrsOk_cons _ _ h1 rfl) rfl
  rcases List.mem_cons.mp hx with rfl | hx
  · exact elemClean_node_some _ _ _ _ (attrsOk_cons _ _ h2 rfl) h3 rfl
  exact absurd hx (List.not_mem_nil x)

/-- `textOk` distributes over append. -/
theorem textOk_append (a b : String) :
    textOk (a ++ b) = (textOk a && textOk b) := by
  unfold textOk
  rw [data_append, List.all_append]

/-- The decimal rendering of a finite nonnegative rational is clean. -/
theorem textOk_pyStrNN (q : ℚ) (hq0 : 0 ≤ q.num) (h : decFiniteQ q = true) :
    textOk (pyStrNN q) = true := by
  obtain ⟨hall, -, -⟩ := pyStrNN_mantissa q hq0 h
  unfold textOk
  refine List.all_eq_true.mpr (fun c hc => ?_)
  show (!(c == '\n' || c == '\r')) = true
  rcases hall c hc with hd | hdot
  · have h6 := (digit_ne_special c hd).2.2.2.2.2
    rw [pyWS] at h6
    simp only [Bool.or_eq_false_iff] at h6
    rw [h6.1.1.1.2, h6.1.1.2]
    rfl
  · rw [hdot]
    decide

/-- The decimal rendering of a finite rational is clean. -/
theorem textOk_pyStr (q : ℚ) (h : decFiniteQ q = true) :
    textOk (pyStr q) = true := by
  unfold pyStr
  by_cases hneg : q.num < 0
  · rw [if_pos hneg, textOk_append]
    have h0 : 0 ≤ (-q).num := by
      rw [Rat.neg_num]
      omega
    rw [textOk_pyStrNN (-q) h0 (decFiniteQ_neg q h)]
    rfl
  · rw [if_neg hneg]
    exact textOk_pyStrNN q (by omega) h

/-- Values of a keyed row come from the value list. -/
theorem keyedRow_mem_val :
    ∀ (ks : List String) (vs : List PyVal) (kv : String × PyVal),
      kv ∈ keyedRow ks vs → kv.2 ∈ vs := by
  intro ks
  induction ks with
  | nil =>
      intro vs kv h
      exact absurd (show kv ∈ ([] : List (String × PyVal)) from h)
        (List.not_mem_nil kv)
  | cons k ks2 ih =>
      intro vs kv h
      cases vs with
      | nil =>
          exact absurd (show kv ∈ ([] : List (String × PyVal)) from h)
            (List.not_mem_nil kv)
      | cons v vs2 =>
          rcases List.mem_cons.mp
              (show kv ∈ (k, v) :: keyedRow ks2 vs2 from h) with rfl | h2
          · exact List.mem_cons_self _ _
          · exact List.mem_cons_of_mem _ (ih vs2 kv h2)

/-- The bibliography block written for a clean reference is clean. -/
theorem elemClean_bibElem (ref : Reference)
    (h1 : textOk (ref.author.getD "") = true)
    (h2 : textOk (ref.title.getD "") = true)
    (h3 : ∀ s, ref.journal = some s → textOk s = true)
    (h4 : ∀ s, ref.year = some s → textOk s = true)
    (h5 : ∀ s, ref.doi = some s → textOk s = true) :
    elemClean (bibElem ref) = true := by
  refine elemClean_node_none _ _ _ rfl (elemsClean_of_all _ (fun x hx => ?_))
  rcases List.mem_append.mp hx with hx | hx
  · rw [List.mem_singleton.mp hx]
    refine elemClean_node_none _ _ _ rfl
      (elemsClean_of_all _ (fun y hy => ?_))
    rcases List.mem_append.mp hy with hy | hy
    · rcases List.mem_append.mp hy with hy | hy
      · rcases List.mem_cons.mp hy with rfl | hy
        · exact elemClean_node_some _ _ _ _ rfl h1 rfl
        rcases List.mem_cons.mp hy with rfl | hy
        · exact elemClean_node_some _ _ _ _ rfl h2 rfl
        exact absurd hy (List.not_mem_nil y)
      · cases ht : optTruthy ref.journal with
        | false =>
            rw [ht, if_neg (by decide)] at hy
            exact absurd hy (List.not_mem_nil y)
        | true =>
            rw [ht, if_pos rfl] at hy
            rw [List.mem_singleton.mp hy]
            cases hj : ref.journal with
            | none => exact elemClean_node_none _ _ _ rfl rfl
            | some s => exact elemClean_node_some _ _ _ _ rfl (h3 s hj) rfl
    · cases ht : optTruthy ref.year with
      | false =>
          rw [ht, if_neg (by decide)] at hy
          exact absurd hy (List.not_mem_nil y)
      | true =>
          rw [ht, if_pos rfl] at hy
          rw [List.mem_singleton.mp hy]
          cases hj : ref.year with
          | none => exact elemClean_node_none _ _ _ rfl rfl
          | some s => exact elemClean_node_some _ _ _ _ rfl (h4 s hj) rfl
  · cases ht : optTruthy ref.doi with
    | false =>
        rw [ht, if_neg (by decide)] at hx
        exact absurd hx (List.not_mem_nil x)
    | true =>
        rw [ht, if_pos rfl] at hx
        rw [List.mem_singleton.mp hx]
        cases hd : ref.doi with
        | none => exact elemClean_node_none _ _ _ rfl rfl
        | some s => exact elemClean_node_some _ _ _ _ rfl (h5 s hd) rfl

/-- The encoded document of a canonical record with clean strings is a
whitespace-clean tree. -/
theorem elemClean_create_canon (c : CanonRecord)
    (hpos : ∀ kv ∈ c.cp.nums, 0 < kv.2.num ∧ ('_' : Char) ∉ kv.1.data)
    (hwl : ∀ kv ∈ c.cp.strs,
      ('_' : Char) ∉ kv.1.data ∧ replaceChar ' ' '_' kv.1 ∈ OPTIONAL_WHITELIST)
    (hcne : c.cp.comp ≠ [])
    (hmeta : metaOk c = true)
    (hq1 : decFiniteQ c.cp.tval = true) (hq2 : decFiniteQ c.cp.pval = true)
    (hup : attrOk c.cp.tunits = true ∧ attrOk c.cp.punits = true)
    (hnc : ∀ kv ∈ c.cp.nums, decFiniteQ kv.2 = true ∧ attrOk kv.1 = true)
    (hsc : ∀ kv ∈ c.cp.strs, attrOk kv.1 = true ∧ textOk kv.2 = true)
    (hcc : ∀ kv ∈ c.cp.comp, decFiniteQ kv.2.amount = true ∧
      attrOk kv.1 = true ∧ attrOk kv.2.units = true)
    (hdgc : ∀ g ∈ c.dgs, attrOk g.id = true ∧ attrOk g.label = true ∧
      (∀ p ∈ g.x :: g.ys, attrOk p.id = true ∧ attrOk p.name = true ∧
        attrOk p.label = true ∧ attrOk p.units = true) ∧
      (∀ row ∈ g.rowvals, ∀ v ∈ row, textOk (pyStrVal v) = true)) :
    elemClean (create_enhanced_xml (draftOfCanon c)) = true := by
  simp only [metaOk, Bool.and_eq_true] at hmeta
  obtain ⟨⟨⟨⟨hma, hmd⟩, hmt⟩, hmk⟩, hmb⟩ := hmeta
  rw [create_root_canon c hpos hwl hcne]
  refine elemClean_node_none _ _ _ rfl (elemsClean_of_all _ (fun x hx => ?_))
  rw [encRootKids] at hx
  rcases List.mem_append.mp hx with hx | hxF
  · rcases List.mem_append.mp hx with hx | hxE
    · rcases List.mem_append.mp hx with hx | hxD
      · rcases List.mem_append.mp hx with hx | hxC
        · rcases List.mem_append.mp hx with hxA | hxB
          · rw [List.mem_singleton.mp hxA]
            exact elemClean_node_some _ _ _ _ rfl hma rfl
          · cases ht : optTruthy (some c.metadata.doi) with
            | false =>
                rw [ht, if_neg (by decide)] at hxB
                exact absurd hxB (List.not_mem_nil x)
            | true =>
                rw [ht, if_pos rfl] at hxB
                rw [List.mem_singleton.mp hxB]
                exact elemClean_node_some _ _ _ _ rfl hmd rfl
        · rcases List.mem_cons.mp hxC with rfl | hxC
          · decide
          rcases List.mem_cons.mp hxC with rfl | hxC
          · exact elemClean_node_some _ _ _ _ rfl hmt rfl
          rcases List.mem_cons.mp hxC with rfl | hxC
          · refine elemClean_node_none _ _ _ rfl
              (elemsClean_of_all _ (fun y hy => ?_))
            rw [List.mem_singleton.mp hy]
            exact elemClean_node_some _ _ _ _ rfl hmk rfl
          exact absurd hxC (List.not_mem_nil x)
      · cases ht : optTruthy (draftOfCanon c).basic_info.reference.author
            && optTruthy (draftOfCanon c).basic_info.reference.title with
        | false =>
            rw [ht, if_neg (by decide)] at hxD
            exact absurd hxD (List.not_mem_nil x)
        | true =>
            rw [ht, if_pos rfl] at hxD
            rw [List.mem_singleton.mp hxD]
            have href : (draftOfCanon c).basic_info.reference =
                (match c.bibliography with
                 | some b =>
                     ({ author := b.details.map BibDetails.author
                        title := b.details.map BibDetails.title
                        journal := b.details.map BibDetails.journal
                        year := b.details.map BibDetails.year
                        doi := some b.doi } : Reference)
                 | none => ⟨none, none, none, none, none⟩) := rfl
            rw [href]
            cases hbib : c.bibliography with
            | none => decide
            | some b =>
                show elemClean (bibElem
                  { author := b.details.map BibDetails.author
                    title := b.details.map BibDetails.title
                    journal := b.details.map BibDetails.journal
                    year := b.details.map BibDetails.year
                    doi := some b.doi }) = true
                rw [hbib] at hmb
                have hmb2 : (textOk b.doi &&
                    (match b.details with
                     | none => true
                     | some d =>
                         textOk d.author && textOk d.title &&
                         textOk d.journal && textOk d.year)) = true := hmb
                rw [Bool.and_eq_true] at hmb2
                refine elemClean_bibElem _ ?_ ?_ ?_ ?_ ?_
                · cases hdet : b.details with
                  | none => rfl
                  | some d =>
                      have hb3 := hmb2.2
                      rw [hdet] at hb3
                      have hb4 : (textOk d.author && textOk d.title &&
                          textOk d.journal && textOk d.year) = true := hb3
                      simp only [Bool.and_eq_true] at hb4
                      exact hb4.1.1.1
                · cases hdet : b.details with
                  | none => rfl
                  | some d =>
                      have hb3 := hmb2.2
                      rw [hdet] at hb3
                      have hb4 : (textOk d.author && textOk d.title &&
                          textOk d.journal && textOk d.year) = true := hb3
                      simp only [Bool.and_eq_true] at hb4
                      exact hb4.1.1.2
                · intro s hs
                  cases hdet : b.details with
                  | none =>
                      rw [hdet] at hs
                      exact Option.noConfusion hs
                  | some d =>
                      rw [hdet] at hs
                      have hs2 : some d.journal = some s := hs
                      cases hs2
                      have hb3 := hmb2.2
                      rw [hdet] at hb3
                      have hb4 : (textOk d.author && textOk d.title &&
                          textOk d.journal && textOk d.year) = true := hb3
                      simp only [Bool.and_eq_true] at hb4
                      exact hb4.1.2
                · intro s hs
                  cases hdet : b.details with
                  | none =>
                      rw [hdet] at hs
                      exact Option.noConfusion hs
                  | some d =>
                      rw [hdet] at hs
                      have hs2 : some d.year = some s := hs
                      cases hs2
                      have hb3 := hmb2.2
                      rw [hdet] at hb3
                      have hb4 : (textOk d.author && textOk d.title &&
                          textOk d.journal && textOk d.year) = true := hb3
                      simp only [Bool.and_eq_true] at hb4
                      exact hb4.2
                · intro s hs
                  have hs2 : some b.doi = some s := hs
                  cases hs2
                  exact hmb2.1
    · rw [List.mem_singleton.mp hxE]
      refine elemClean_node_none _ _ _ rfl
        (elemsClean_of_all _ (fun y hy => ?_))
      rw [encCPKids] at hy
      rcases List.mem_append.mp hy with hy | hyIC
      · rcases List.mem_append.mp hy with hy | hyS
        · rcases List.mem_append.mp hy with hyTP | hyN
          · rcases List.mem_cons.mp hyTP with rfl | hyTP
            · exact elemClean_encTP _ _ _ _ (by decide) (by decide) hup.1
                (textOk_pyStr _ hq1)
            rcases List.mem_cons.mp hyTP with rfl | hyTP
            · exact elemClean_encTP _ _ _ _ (by decide) (by decide) hup.2
                (textOk_pyStr _ hq2)
            exact absurd hyTP (List.not_mem_nil y)
          · obtain ⟨kv, hkv, rfl⟩ := List.mem_map.mp hyN
            exact elemClean_encParam _ _ (hnc kv hkv).2
              (textOk_pyStr _ (hnc kv hkv).1)
        · obtain ⟨kv, hkv, rfl⟩ := List.mem_map.mp hyS
          exact elemClean_encParam _ _ (hsc kv hkv).1 (hsc kv hkv).2
      · rw [List.mem_singleton.mp hyIC]
        refine elemClean_node_none _ _ _ (by decide)
          (elemsClean_of_all _ (fun z hz => ?_))
        obtain ⟨kv, hkv, rfl⟩ := List.mem_map.mp hz
        exact elemClean_encComp _ _ _ (hcc kv hkv).2.1 (hcc kv hkv).2.2
          (textOk_pyStr _ (hcc kv hkv).1)
  · obtain ⟨g, hg, rfl⟩ := List.mem_map.mp hxF
    obtain ⟨hgid, hglb, hgp, hgrow⟩ := hdgc g hg
    rw [dgElem_draft_canon g]
    refine elemClean_node_none _ _ _
      (attrsOk_cons _ _ hgid (attrsOk_cons _ _ hglb rfl))
      (elemsClean_of_all _ (fun y hy => ?_))
    rcases List.mem_append.mp hy with hy | hyDP
    · rcases List.mem_append.mp hy with hyX | hyY
      · rw [List.mem_singleton.mp hyX]
        obtain ⟨hxi, hxn, hxl, hxu⟩ := hgp g.x (List.mem_cons_self _ _)
        exact elemClean_node_none _ _ _
          (attrsOk_cons _ _ hxi (attrsOk_cons _ _ hxn (attrsOk_cons _ _ hxl
            (attrsOk_cons _ _ hxu (attrsOk_cons _ _ (by decide) rfl))))) rfl
      · obtain ⟨yc, hyc, rfl⟩ := List.mem_map.mp hyY
        obtain ⟨hyi, hyn, hyl, hyu⟩ := hgp yc (List.mem_cons_of_mem _ hyc)
        refine elemClean_node_none _ _ _
          (attrsOk_cons _ _ hyi (attrsOk_cons _ _ hyn (attrsOk_cons _ _ hyl
            (attrsOk_cons _ _ hyu (attrsOk_cons _ _ (by decide) rfl)))))
          (elemsClean_of_all _ (fun z hz => ?_))
        exact elemClean_ySpeciesKids _ z hz
    · obtain ⟨vs, hvs, rfl⟩ := List.mem_map.mp hyDP
      refine elemClean_node_none _ _ _ rfl
        (elemsClean_of_all _ (fun z hz => ?_))
      rcases List.mem_append.mp hz with hzX | hzY
      · cases hlk : (keyedRow ((g.x :: g.ys).map CanonProp.name) vs).lookup
            g.x.name with
        | none =>
            rw [hlk] at hzX
            exact absurd (show z ∈ ([] : List Elem) from hzX)
              (List.not_mem_nil z)
        | some v =>
            rw [hlk] at hzX
            have hz2 : z ∈ [el g.x.id [] (some (pyStrVal v)) []] := hzX
            rw [List.mem_singleton.mp hz2]
            exact elemClean_node_some _ _ _ _ rfl
              (hgrow vs hvs v (keyedRow_mem_val _ _ _ (lookup_mem _ _ _ hlk)))
              rfl
      · obtain ⟨yx, hyx, hmapx⟩ := List.mem_filterMap.mp hzY
        rcases Option.map_eq_some'.mp hmapx with ⟨v, hv, rfl⟩
        exact elemClean_node_some _ _ _ _ rfl
          (hgrow vs hvs v (keyedRow_mem_val _ _ _ (lookup_mem _ _ _ hv)))
          rfl

/-- Re-decoding a data group's row values does not change the reconstructed
table's column list (the columns come from the declared properties alone). -/
theorem canonDgData_reVal_df (g : CanonDG) :
    (canonDgData (reValDG g)).data_df.map Table.columns =
      (canonDgData g).data_df.map Table.columns := by
  obtain ⟨i, l, x, ys, rvs⟩ := g
  cases rvs with
  | nil => rfl
  | cons r rs => rfl

/-- C7: counterexample.  The document `egC7Doc` decodes successfully, but the
round trip does not preserve its data group's property column names,
neither in order nor as a set: the Y column carries a `speciesLink` to
`C2H6`, which is not in the `COMMON_SPECIES` registry, so the encoder drops
the link and the re-decoded column name falls back from the species rule to
the label rule. -/
theorem C7_counterexample :
    (parse_experiment egC7Doc).map dgColNames ≠
      (parse_experiment egC7Doc).bind
        (fun r => (roundTrip (draftOfRecord r)).map dgColNames) ∧
    (parse_experiment egC7Doc).bind (fun r =>
      (roundTrip (draftOfRecord r)).map (fun r2 =>
        ((dgColNames r).zip (dgColNames r2)).all
          (fun q => q.1.all (fun x => q.2.contains x) &&
            q.2.all (fun x => q.1.contains x)))) = .ok false :=
  ⟨by decide, by decide⟩

/-- C7 (amended): for a canonical decoded record — one of the exact shape
the decoder produces on encoder output, with finite positive-numerator
numeric parameters, whitelisted non-numeric string parameters, a non-empty
composition, pairwise-distinct keys, data groups whose species links point
into the `COMMON_SPECIES` registry, and strings free of the whitespace the
serialization pipeline normalizes (no newlines or carriage returns in text
values, none of those nor tabs in attribute values) — the round trip
succeeds and preserves the `common_properties` mapping, every data group's
property column names in order, and every reconstructed table's column
order. -/
theorem C7_amended_roundtrip (c : CanonRecord)
    (hmeta : metaOk c = true)
    (hq1 : decFiniteQ c.cp.tval = true) (hq2 : decFiniteQ c.cp.pval = true)
    (hup : attrOk c.cp.tunits = true ∧ attrOk c.cp.punits = true)
    (hn : ∀ kv ∈ c.cp.nums, 0 < kv.2.num ∧ decFiniteQ kv.2 = true ∧
      ('_' : Char) ∉ kv.1.data ∧ kv.1 ∉ RESERVED_NAMES ∧ attrOk kv.1 = true)
    (hs : ∀ kv ∈ c.cp.strs, kv.2 ≠ "" ∧ pyFloat? kv.2 = none ∧
      ('_' : Char) ∉ kv.1.data ∧ kv.1 ∉ RESERVED_NAMES ∧
      replaceChar ' ' '_' kv.1 ∈ OPTIONAL_WHITELIST ∧
      attrOk kv.1 = true ∧ textOk kv.2 = true)
    (hcne : c.cp.comp ≠ [])
    (hcomp : ∀ kv ∈ c.cp.comp, decFiniteQ kv.2.amount = true ∧
      attrOk kv.1 = true ∧ attrOk kv.2.units = true)
    (hcnd : (c.cp.comp.map Prod.fst).Nodup)
    (hkeys : (["T", "P"] ++ c.cp.nums.map Prod.fst ++ c.cp.strs.map Prod.fst
      ++ ["initial composition"]).Nodup)
    (hdg : ∀ g ∈ c.dgs,
      ((canonProps g).map PropInfo.id).Nodup ∧
      ((canonProps g).map PropInfo.column_name).Nodup ∧
      ((g.x :: g.ys).map CanonProp.name).Nodup ∧
      g.x.species = none ∧
      (∀ y ∈ g.ys, y.species = none ∨
        ∃ sp i, y.species = some sp ∧ sp ≠ "" ∧
          COMMON_SPECIES.lookup sp = some i) ∧
      (∀ row ∈ g.rowvals,
        row.length = (g.x :: g.ys).length ∧
        ∀ v ∈ row, pyStrVal v ≠ "" ∧ textOk (pyStrVal v) = true) ∧
      (∀ p ∈ canonProps g, startsWithUnderscore p.column_name = false) ∧
      (∀ p ∈ (g.x :: g.ys), p.id ≠ "dataGroup") ∧
      attrOk g.id = true ∧ attrOk g.label = true ∧
      (∀ p ∈ (g.x :: g.ys), attrOk p.id = true ∧ attrOk p.name = true ∧
        attrOk p.label = true ∧ attrOk p.units = true)) :
    ∃ r2, roundTrip (draftOfRecord (recordOfCanon c)) = .ok r2 ∧
      r2.common_properties = (recordOfCanon c).common_properties ∧
      dgColNames r2 = dgColNames (recordOfCanon c) ∧
      dfColNames r2 = dfColNames (recordOfCanon c) := by
  have hdraft := draftOfRecord_canon c
    (fun kv hkv => ⟨(hn kv hkv).2.2.2.1, (hn kv hkv).2.2.1⟩)
    (fun kv hkv => ⟨(hs kv hkv).2.2.2.1, (hs kv hkv).2.2.1⟩)
    (fun g hg => (hdg g hg).2.1)
  have hcp := parse_cp_canon c
    (fun kv hkv => ⟨(hn kv hkv).1, (hn kv hkv).2.2.1⟩)
    (fun kv hkv => ⟨(hn kv hkv).2.1, (hn kv hkv).2.2.2.1⟩)
    (fun kv hkv => ⟨(hs kv hkv).2.2.1, (hs kv hkv).2.2.2.2.1⟩)
    (fun kv hkv => ⟨(hs kv hkv).1, (hs kv hkv).2.1, (hs kv hkv).2.2.2.1⟩)
    hq1 hq2 hcne (fun kv hkv => (hcomp kv hkv).1) hcnd hkeys
  have hdgs := parse_datagroups_canon c
    (fun kv hkv => ⟨(hn kv hkv).1, (hn kv hkv).2.2.1⟩)
    (fun kv hkv => ⟨(hs kv hkv).2.2.1, (hs kv hkv).2.2.2.2.1⟩)
    hcne
    (fun g hg => by
      obtain ⟨a1, a2, a3, a4, a5, a6, a7, a8, a9, a10, a11⟩ := hdg g hg
      exact ⟨a1, a2, a3, a4, a5,
        fun row hr => ⟨(a6 row hr).1, fun v hv => ((a6 row hr).2 v hv).1⟩,
        a7, a8⟩)
  have hclean := elemClean_create_canon c
    (fun kv hkv => ⟨(hn kv hkv).1, (hn kv hkv).2.2.1⟩)
    (fun kv hkv => ⟨(hs kv hkv).2.2.1, (hs kv hkv).2.2.2.2.1⟩)
    hcne hmeta hq1 hq2 hup
    (fun kv hkv => ⟨(hn kv hkv).2.1, (hn kv hkv).2.2.2.2⟩)
    (fun kv hkv => ⟨(hs kv hkv).2.2.2.2.2.1, (hs kv hkv).2.2.2.2.2.2⟩)
    hcomp
    (fun g hg => by
      obtain ⟨a1, a2, a3, a4, a5, a6, a7, a8, a9, a10, a11⟩ := hdg g hg
      exact ⟨a9, a10, a11, fun row hr v hv => ((a6 row hr).2 v hv).2⟩)
  have hbridge : prettyReparse 0 (create_enhanced_xml (draftOfCanon c)) =
      prettyKeep 0 (create_enhanced_xml (draftOfCanon c)) :=
    pretty_eq_keep (sizeOf (create_enhanced_xml (draftOfCanon c))) _ le_rfl
      hclean 0
  have hok : roundTrip (draftOfRecord (recordOfCanon c)) = .ok
      { metadata :=
          parse_metadata (prettyKeep 0 (create_enhanced_xml (draftOfCanon c)))
        experiment_type :=
          getText (prettyKeep 0 (create_enhanced_xml (draftOfCanon c)))
            "experimentType"
        apparatus :=
          parse_apparatus (prettyKeep 0 (create_enhanced_xml (draftOfCanon c)))
        bibliography :=
          parse_bibliography
            (prettyKeep 0 (create_enhanced_xml (draftOfCanon c)))
        common_properties := canonCPList c.cp
        datagroups := c.dgs.map (fun g => canonDgData (reValDG g)) } := by
    rw [hdraft]
    unfold roundTrip parse_experiment
    rw [hbridge, hcp, hdgs]
  refine ⟨_, hok, rfl, ?_, ?_⟩
  · show (c.dgs.map (fun g => canonDgData (reValDG g))).map
        (fun g => g.properties.map PropInfo.column_name) =
      (c.dgs.map canonDgData).map
        (fun g => g.properties.map PropInfo.column_name)
    rw [List.map_map, List.map_map]
    exact List.map_congr_left (fun g _ => rfl)
  · show (c.dgs.map (fun g => canonDgData (reValDG g))).map
        (fun g => g.data_df.map Table.columns) =
      (c.dgs.map canonDgData).map (fun g => g.data_df.map Table.columns)
    rw [List.map_map, List.map_map]
    exact List.map_congr_left (fun g _ => canonDgData_reVal_df g)

/-- C7 witness: the amended round-trip theorem applied to the concrete
canonical record `cEgC7`. -/
theorem C7_amended_roundtrip_witness :
    ∃ r2, roundTrip (draftOfRecord (recordOfCanon cEgC7)) = .ok r2 ∧
      r2.common_properties = (recordOfCanon cEgC7).common_properties ∧
      dgColNames r2 = dgColNames (recordOfCanon cEgC7) ∧
      dfColNames r2 = dfColNames (recordOfCanon cEgC7) :=
  C7_amended_roundtrip cEgC7 (by decide) (by decide) (by decide) (by decide)
    (by decide) (by decide) (by decide) (by decide) (by decide) (by decide)
    (by
      intro g hg
      have hgeq := List.mem_singleton.mp hg
      subst hgeq
      refine ⟨by decide, by decide, by decide, rfl, ?_, by decide, by decide,
        by decide, by decide, by decide, by decide⟩
      intro y hy
      have hyeq := List.mem_singleton.mp hy
      subst hyeq
      exact Or.inr ⟨"CH4", ⟨"74-82-8", "methane", "1S/CH4/h1H4", "C"⟩, rfl,
        by decide, rfl⟩)

end Combustion
